import Mathlib

/-!
# LNLib: knot-vector algebra and B-spline curve evaluation

A shallow embedding of `KnotVectorUtils.cpp` and `BsplineCurve.h`.

* `double` values are modelled by exact rationals `ℚ`.
* `int` values are modelled by `Int`; vector sizes are far below `2^31`, so no
  wrap-around is modelled.
* `std::vector<T>` is modelled by `List T`.
* A `std::unordered_map<double, int, std::hash<double>, CustomDoubleEqual>` is modelled by the
  list of its entries in iteration order.  The C++ standard leaves to the container which
  entries a lookup compares with its key, where a new entry goes in the iteration order, and
  whether an iterator can step backwards; the definitions take these as the parameter
  `Container`.  `Container.libstdcxx` is the container of libstdc++ on the knots of the
  examples, `Container.linearScan` is the map that the specification describes.
* An operation that throws, or that performs a step with undefined behaviour
  (reading a vector past its end, stepping backwards from `end()` with a forward-only iterator
  or in a map without entries), returns `Except.error`.
* The process-wide tolerance constant is not part of the sources; every
  definition that compares knots takes it as the parameter `eps`.
-/

namespace LNLib

/-! ## Definitions -/

/-- Ways in which an operation ends without a result: a failed argument check, a vector built
with a negative size, and a step whose behaviour C++ leaves undefined. -/
inductive Fault where
  | invalidArgument : Fault
  | lengthError : Fault
  | undefinedBehaviour : Fault
  deriving DecidableEq, Repr

namespace MathUtils

/-- Modelled from the spec: `MathUtils::IsAlmostEqualTo` is declared in `MathUtils.h`, which is
not among the sources.  Spec §4.1: "true when `|a-b|` is below a fixed distance epsilon". -/
def IsAlmostEqualTo (eps value1 value2 : ℚ) : Bool :=
  decide (|value1 - value2| < eps)

end MathUtils

/-- Modelled from the spec: the key-equality functor `CustomDoubleEqual` of the multiplicity map
is declared in `KnotVectorUtils.h`, which is not among the sources.  Spec §4.1: the tolerance
comparator is "the hashing/equality key for knot values". -/
def CustomDoubleEqual (eps d1 d2 : ℚ) : Bool :=
  MathUtils.IsAlmostEqualTo eps d1 d2

namespace Polynomials

/-- Modelled from the spec: `Polynomials::GetKnotMultiplicity` is defined in `Polynomials.cpp`,
which is not among the sources.  Spec §4.2: "count of entries in `knotVector` equal to `knot`
under the Tolerance Comparator". -/
def GetKnotMultiplicity (eps : ℚ) (knotVector : List ℚ) (paramT : ℚ) : Int :=
  (knotVector.countP (fun knot => MathUtils.IsAlmostEqualTo eps paramT knot) : Nat)

end Polynomials

/-- The type `std::unordered_map<double, int, std::hash<double>, CustomDoubleEqual>` of the
multiplicity maps (`KnotVectorUtils.cpp`, line 73): a map is the list of its entries in iteration
order, `begin()` first. -/
abbrev KnotMap := List (ℚ × Int)

/-- What the C++ standard leaves to the implementation of `std::unordered_map`, and what the
source depends on.  The hash function `std::hash<double>` does not agree with the key equality
`CustomDoubleEqual` (numbers that are equal under the tolerance have different hash values), so a
lookup compares its key only with the entries that the implementation visits for that key.

* `bucket m key`: the entries of `m` that a lookup of `key` compares with `key`, in the order of
  comparison; the entry whose key is the same number as `key` is always among them.
* `place m e`: the iteration order after the entry `e`, with a key that was not found, is added.
* `bidirectional`: whether an iterator of the map can step backwards, as `std::prev` requires. -/
structure Container where
  bucket : KnotMap → ℚ → KnotMap
  place : KnotMap → ℚ × Int → KnotMap
  bidirectional : Bool
  bucket_subset : ∀ (m : KnotMap) (key : ℚ), bucket m key ⊆ m
  bucket_self : ∀ (m : KnotMap) (key : ℚ) (e : ℚ × Int), e ∈ m → e.1 = key → e ∈ bucket m key
  place_perm : ∀ (m : KnotMap) (e : ℚ × Int), (place m e).Perm (e :: m)

/-- Where a hash table with chained buckets links a new entry into its single list of entries:
directly before the first entry of the same bucket. -/
def chainInsert {β : Type} [DecidableEq β] (bucketOf : ℚ → β) (e : ℚ × Int) : KnotMap → KnotMap
  | [] => [e]
  | x :: m =>
    if bucketOf x.1 = bucketOf e.1 then e :: x :: m else x :: chainInsert bucketOf e m

namespace Container

/-- A hash table with chained buckets and forward or bidirectional iterators, as in libstdc++:
`bucketOf key` is the bucket of `key`, a lookup walks the entries of that bucket, and a new entry
goes to the front of its bucket, or to the front of the whole list when the bucket is empty. -/
def chained {β : Type} [DecidableEq β] (bucketOf : ℚ → β) (bidirectional : Bool) : Container where
  bucket m key := m.filter (fun e => decide (bucketOf e.1 = bucketOf key))
  place m e :=
    if m.any (fun x => decide (bucketOf x.1 = bucketOf e.1)) then chainInsert bucketOf e m
    else e :: m
  bidirectional := bidirectional
  bucket_subset m key := fun _ hx => (List.mem_filter.1 hx).1
  bucket_self m key e he hk := by
    rw [List.mem_filter]
    exact ⟨he, by simp [hk]⟩
  place_perm m e := by
    have chain : ∀ l : KnotMap, (chainInsert bucketOf e l).Perm (e :: l) := by
      intro l
      induction l with
      | nil => exact List.Perm.refl _
      | cons x l ih =>
        unfold chainInsert
        split_ifs
        · exact List.Perm.refl _
        · exact (List.Perm.cons x ih).trans (List.Perm.swap e x l)
    dsimp only
    split_ifs
    · exact chain m
    · exact List.Perm.refl _

/-- The bucket `std::hash<double>()(key) % 13` of the knots used in the examples of this file, in
a libstdc++ table of 13 buckets (the bucket count of a map that holds 1 to 13 entries).  The hash
values on x86-64 are

* `0 ↦ 0`, `1 ↦ 8386164645967068059`, `2 ↦ 6369015886390043782`,
  `3 ↦ 10527412025248383462`, `4 ↦ 397442141738980197`, `5 ↦ 7963867358345340974`,
* `0.00001 ↦ 12380838290523728113`, `0.00006 ↦ 16569137230254384365`,
  `0.00012 ↦ 1595014721975089967`,
* `2^-16 ↦ 11217970320571910714`, `71 * 2^-20 ↦ 7528720056335778885`,
  `121 * 2^-20 ↦ 7653150540444777849`,

with remainders `0, 8, 12, 2, 2, 12`, then `10, 5, 6`, then `0, 0, 0`: the last three knots
share the bucket of `0`.  A number outside this table is given a bucket of its own. -/
def libstdcxxBucket (key : ℚ) : Nat ⊕ ℚ :=
  if key = 0 then Sum.inl 0
  else if key = 1 then Sum.inl 8
  else if key = 2 then Sum.inl 12
  else if key = 3 then Sum.inl 2
  else if key = 4 then Sum.inl 2
  else if key = 5 then Sum.inl 12
  else if key = 1/100000 then Sum.inl 10
  else if key = 3/50000 then Sum.inl 5
  else if key = 3/25000 then Sum.inl 6
  else if key = 1/65536 then Sum.inl 0
  else if key = 71/1048576 then Sum.inl 0
  else if key = 121/1048576 then Sum.inl 0
  else Sum.inr key

/-- The container of libstdc++ (GCC 12, x86-64) for maps of at most 13 entries: chained buckets
numbered by `libstdcxxBucket`, forward iterators only. -/
def libstdcxx : Container := chained libstdcxxBucket false

/-- The map that spec §9 asks for: "a small linear-scan map" with "tolerance-aware lookup".  A
lookup compares its key with every entry, a new entry goes to the end, and iterators step in both
directions. -/
def linearScan : Container where
  bucket m _ := m
  place m e := m ++ [e]
  bidirectional := true
  bucket_subset m _ := List.Subset.refl m
  bucket_self _ _ _ he _ := he
  place_perm m e := List.perm_append_singleton e m

end Container

namespace KnotMap

/-- The lookup `map.find(key)`: the first entry, among those the container compares with `key`,
whose key equals `key` under the key-equality functor; `none` stands for `map.end()`. -/
def find (C : Container) (eps : ℚ) (m : KnotMap) (key : ℚ) : Option (ℚ × Int) :=
  (C.bucket m key).find? (fun e => CustomDoubleEqual eps e.1 key)

/-- The insertion `map.insert({key, value})`: no effect when a lookup of `key` finds an entry. -/
def insert (C : Container) (eps : ℚ) (m : KnotMap) (key : ℚ) (value : Int) : KnotMap :=
  match find C eps m key with
  | none => C.place m (key, value)
  | some _ => m

/-- The assignment `map[key] = value`: the entry that a lookup of `key` finds keeps its key and
takes the new value; when none is found, a new entry is added. -/
def assign (C : Container) (eps : ℚ) (m : KnotMap) (key : ℚ) (value : Int) : KnotMap :=
  match find C eps m key with
  | none => C.place m (key, value)
  | some got => m.map (fun e => if e.1 = got.1 then (e.1, value) else e)

/-- The keys of the map in iteration order. -/
def keys (m : KnotMap) : List ℚ := m.map Prod.fst

end KnotMap

/-- The loop `for (j = 0; j < times; j++) v.emplace_back(key)`; it does not run for
`times <= 0`. -/
def emplaceTimes (v : List ℚ) (times : Int) (key : ℚ) : List ℚ :=
  v ++ List.replicate times.toNat key

/-- The call `std::sort(v.begin(), v.end())`: the ascending rearrangement of `v`. -/
def stdSort (v : List ℚ) : List ℚ := v.insertionSort (· ≤ ·)

namespace KnotVectorUtils

/-- One iteration of the scan in `GetKnotMultiplicityMap` (lines 77-82). -/
def multiplicityMapStep (C : Container) (eps : ℚ) (knotVector : List ℚ) (result : KnotMap)
    (knot : ℚ) : KnotMap :=
  match KnotMap.find C eps result knot with
  | none => KnotMap.insert C eps result knot (Polynomials.GetKnotMultiplicity eps knotVector knot)
  | some _ => result

/-- Embedding of `KnotVectorUtils::GetKnotMultiplicityMap` (lines 71-85). -/
def GetKnotMultiplicityMap (C : Container) (eps : ℚ) (knotVector : List ℚ) : KnotMap :=
  knotVector.foldl (multiplicityMapStep C eps knotVector) []

/-- Embedding of `KnotVectorUtils::GetInternalKnotMultiplicityMap` (lines 87-97).
`erase(begin())` drops the first entry in iteration order.  `prev(end(), 1)` steps backwards from
`end()`: that is undefined for a forward-only iterator, and for a bidirectional one when no entry
remains; otherwise it is the last entry in iteration order. -/
def GetInternalKnotMultiplicityMap (C : Container) (eps : ℚ) (knotVector : List ℚ) :
    Except Fault KnotMap :=
  let result := GetKnotMultiplicityMap C eps knotVector
  if !result.isEmpty then
    let result := result.tail
    if C.bidirectional && !result.isEmpty then Except.ok result.dropLast
    else Except.error Fault.undefinedBehaviour
  else Except.ok result

/-- Body of the first loop of the two-vector `GetInsertedKnotElement` (lines 106-136); the state
is the pair `(insertElements0, insertElements1)`. -/
def insertStep0 (C : Container) (eps : ℚ) (map1 : KnotMap) (acc : List ℚ × List ℚ)
    (it : ℚ × Int) : List ℚ × List ℚ :=
  let key0 := it.1
  let count0 := it.2
  match KnotMap.find C eps map1 key0 with
  | none => (acc.1, emplaceTimes acc.2 count0 key0)
  | some got =>
    let count1 := got.2
    if count0 > count1 then (acc.1, emplaceTimes acc.2 (count0 - count1) key0)
    else (emplaceTimes acc.1 (count1 - count0) key0, acc.2)

/-- Body of the second loop of the two-vector `GetInsertedKnotElement` (lines 141-151); the state
is `insertElements0`. -/
def insertStep1 (C : Container) (eps : ℚ) (map0 : KnotMap) (acc : List ℚ) (it : ℚ × Int) :
    List ℚ :=
  let key1 := it.1
  let count1 := it.2
  match KnotMap.find C eps map0 key1 with
  | none => emplaceTimes acc count1 key1
  | some _ => acc

/-- The two-vector overload `KnotVectorUtils::GetInsertedKnotElement(knotVector0, knotVector1,
insertElements0, insertElements1)` (lines 99-156).  The two output parameters are passed in with
their initial contents and returned as a pair. -/
def GetInsertedKnotElement2 (C : Container) (eps : ℚ)
    (knotVector0 knotVector1 insertElements0 insertElements1 : List ℚ) : List ℚ × List ℚ :=
  let map0 := GetKnotMultiplicityMap C eps knotVector0
  let map1 := GetKnotMultiplicityMap C eps knotVector1
  let acc := map0.foldl (insertStep0 C eps map1) (insertElements0, insertElements1)
  let ins0 := map1.foldl (insertStep1 C eps map0) acc.1
  (stdSort ins0, stdSort acc.2)

/-- Embedding of `KnotVectorUtils::IsUniform` (lines 220-246).  The list `knots` holds the keys
of the map in iteration order.  `knots[1]` is read without a size check; the read is past the end
when the map has a single entry.  The loop runs over `i = 1, ..., knots.size() - 2` and leaves
with `false` at the first gap that differs from `standard`. -/
def IsUniform (C : Container) (eps : ℚ) (knotVector : List ℚ) : Except Fault Bool :=
  let map := GetKnotMultiplicityMap C eps knotVector
  if map.isEmpty then Except.ok false
  else
    let knots := KnotMap.keys map
    match knots[1]?, knots[0]? with
    | some k1, some k0 =>
      let standard := k1 - k0
      Except.ok ((List.range' 1 (knots.length - 1 - 1)).all fun i =>
        MathUtils.IsAlmostEqualTo eps (knots.getD (i + 1) 0 - knots.getD i 0) standard)
    | _, _ => Except.error Fault.undefinedBehaviour

end KnotVectorUtils

/-! ### Curve evaluation (`BsplineCurve.h`) -/

namespace ValidationUtils

/-- Modelled from the spec: `ValidationUtils::IsValidKnotVector` is defined in
`ValidationUtils.cpp`, which is not among the sources.  Spec §3 and the message of the check:
"KnotVector must be a nondecreasing sequence of real numbers". -/
def IsValidKnotVector (knotVector : List ℚ) : Bool :=
  decide (knotVector.Sorted (· ≤ ·))

/-- Modelled from the spec: `ValidationUtils::IsValidBspline` is defined in
`ValidationUtils.cpp`, which is not among the sources.  Spec §3: "Invariant:
`knotVector.size() == controlPoints.size() + degree + 1`"; the message of the check:
"Arguments must fit: m = n + p + 1". -/
def IsValidBspline (degree : Int) (knotVectorCount controlPointsCount : Nat) : Bool :=
  decide ((knotVectorCount : Int) = (controlPointsCount : Int) + degree + 1)

end ValidationUtils

/-- Modelled from the spec: the macro `VALIDATE_ARGUMENT` is defined in `LNLibExceptions.h`,
which is not among the sources.  Spec §7: a precondition violation is an invalid-argument
condition "raised immediately at the entry of the violating operation". -/
def VALIDATE_ARGUMENT (condition : Bool) : Except Fault Unit :=
  if condition then Except.ok () else Except.error Fault.invalidArgument

/-- Modelled from the spec: the macro `VALIDATE_ARGUMENT_RANGE` is defined in
`LNLibExceptions.h`, which is not among the sources.  Spec §4.5: "`t` within domain
`[knotVector.front, knotVector.back]`; fails with an invalid-argument condition otherwise". -/
def VALIDATE_ARGUMENT_RANGE (value min max : ℚ) : Except Fault Unit :=
  if min ≤ value ∧ value ≤ max then Except.ok () else Except.error Fault.invalidArgument

/-- The read `v[index]` of a `std::vector`: undefined outside `0 <= index < v.size()`. -/
def vectorAt {α : Type} (v : List α) (index : Int) : Except Fault α :=
  if 0 ≤ index then
    match v[index.toNat]? with
    | some a => Except.ok a
    | none => Except.error Fault.undefinedBehaviour
  else Except.error Fault.undefinedBehaviour

/-- The routines of `Polynomials` called by `BsplineCurve.h`.  `Polynomials.cpp` is not among the
sources, so the curve operations take these routines as a parameter (spec §4.4: "external leaf,
consumed ... contract only"). -/
structure BasisEvaluator where
  GetKnotSpanIndex : Int → List ℚ → ℚ → Int
  BasisFunctions : Int → Int → List ℚ → ℚ → List ℚ
  BasisFunctionsDerivatives : Int → Int → Int → List ℚ → ℚ → List (List ℚ)

namespace Polynomials

/-- The knot `u_i`; `0` for an index outside the knot vector. -/
def knotAt (knotVector : List ℚ) (i : Int) : ℚ :=
  if 0 ≤ i then knotVector.getD i.toNat 0 else 0

/-- Modelled from the spec: the B-spline basis function `N_{i,p}` at `paramT` (spec glossary:
"piecewise polynomial weight function used to blend control points"), by the Cox-de Boor
recurrence, the degree-0 function being the indicator of the knot span `spanIndex` that contains
`paramT`.  A quotient with denominator `0` is `0`. -/
def basisN (spanIndex : Int) (knotVector : List ℚ) (paramT : ℚ) : Nat → Int → ℚ
  | 0, i => if i = spanIndex then 1 else 0
  | p + 1, i =>
    (paramT - knotAt knotVector i) / (knotAt knotVector (i + p + 1) - knotAt knotVector i)
        * basisN spanIndex knotVector paramT p i
      + (knotAt knotVector (i + p + 2) - paramT)
          / (knotAt knotVector (i + p + 2) - knotAt knotVector (i + 1))
        * basisN spanIndex knotVector paramT p (i + 1)

/-- Modelled from the spec: the `k`-th derivative of the basis function `N_{i,p}` at `paramT`
(spec §4.4: "`[k][j]` = k-th derivative of the j-th nonzero basis function"), by the derivative
recurrence `N'_{i,p} = p (N_{i,p-1} / (u_{i+p} - u_i) - N_{i+1,p-1} / (u_{i+p+1} - u_{i+1}))`. -/
def basisD (spanIndex : Int) (knotVector : List ℚ) (paramT : ℚ) : Nat → Nat → Int → ℚ
  | 0, p, i => basisN spanIndex knotVector paramT p i
  | _ + 1, 0, _ => 0
  | k + 1, p + 1, i =>
    ((p : ℚ) + 1) *
      (basisD spanIndex knotVector paramT k p i
          / (knotAt knotVector (i + p + 1) - knotAt knotVector i)
        - basisD spanIndex knotVector paramT k p (i + 1)
          / (knotAt knotVector (i + p + 2) - knotAt knotVector (i + 1)))

/-- Modelled from the spec: `Polynomials::GetKnotSpanIndex` is defined in `Polynomials.cpp`,
which is not among the sources.  Spec §4.4: "locates the half-open knot span containing `t`":
the last index `i` in `degree .. n` with `u_i <= t`, where `n = knotVector.size() - degree - 2` is
the index of the last control point; `n` itself at the end of the domain. -/
def GetKnotSpanIndex (degree : Int) (knotVector : List ℚ) (paramT : ℚ) : Int :=
  let n : Int := knotVector.length - degree - 2
  if knotAt knotVector (n + 1) ≤ paramT then n
  else
    match (List.range (n - degree + 1).toNat).reverse.find?
        (fun j : Nat => decide (knotAt knotVector (degree + (j : Int)) ≤ paramT)) with
    | some j => degree + j
    | none => degree

/-- Modelled from the spec: `Polynomials::BasisFunctions` is defined in `Polynomials.cpp`, which
is not among the sources.  Spec §4.4: "`sequence<double>` length `degree+1`, the nonzero basis
function values at `t`", that is `N_{span-degree+j, degree}(t)` for `j = 0..degree`. -/
def BasisFunctions (spanIndex degree : Int) (knotVector : List ℚ) (paramT : ℚ) : List ℚ :=
  (List.range (degree + 1).toNat).map fun j : Nat =>
    basisN spanIndex knotVector paramT degree.toNat (spanIndex - degree + (j : Int))

/-- Modelled from the spec: `Polynomials::BasisFunctionsDerivatives` is defined in
`Polynomials.cpp`, which is not among the sources.  Spec §4.4: "`[k][j]` = k-th derivative of the
j-th nonzero basis function", for `k = 0..derivative` and `j = 0..degree`. -/
def BasisFunctionsDerivatives (spanIndex degree derivative : Int) (knotVector : List ℚ)
    (paramT : ℚ) : List (List ℚ) :=
  (List.range (derivative + 1).toNat).map fun k : Nat =>
    (List.range (degree + 1).toNat).map fun j : Nat =>
      basisD spanIndex knotVector paramT k degree.toNat (spanIndex - degree + (j : Int))

/-- The basis function evaluator as modelled from the spec. -/
def evaluator : BasisEvaluator :=
  { GetKnotSpanIndex := GetKnotSpanIndex
    BasisFunctions := BasisFunctions
    BasisFunctionsDerivatives := BasisFunctionsDerivatives }

end Polynomials

namespace BsplineCurve

/-- The six argument checks that open `GetPointOnCurve`, `ComputeDerivatives` and
`ComputeDerivativesByAllBasisFunctions` (lines 35-40, 67-72, 106-111), in source order. -/
def validate {T : Type} (degree : Int) (knotVector : List ℚ) (paramT : ℚ)
    (controlPoints : List T) : Except Fault Unit := do
  VALIDATE_ARGUMENT (decide (degree > 0))
  VALIDATE_ARGUMENT (decide (knotVector.length > 0))
  VALIDATE_ARGUMENT (ValidationUtils.IsValidKnotVector knotVector)
  VALIDATE_ARGUMENT_RANGE paramT (knotVector.getD 0 0) (knotVector.getD (knotVector.length - 1) 0)
  VALIDATE_ARGUMENT (decide (controlPoints.length > 0))
  VALIDATE_ARGUMENT
    (ValidationUtils.IsValidBspline degree knotVector.length controlPoints.length)

/-- Body of the loop of `GetPointOnCurve` (line 48):
`point += N[i] * controlPoints[spanIndex - degree + i]`. -/
def pointStep {T : Type} [AddCommMonoid T] [Module ℚ T] (N : List ℚ) (controlPoints : List T)
    (spanIndex degree : Int) (point : T) (i : Nat) : Except Fault T := do
  let n ← vectorAt N i
  let cp ← vectorAt controlPoints (spanIndex - degree + i)
  pure (point + n • cp)

/-- Embedding of `BsplineCurve::GetPointOnCurve` (lines 32-51).  The point type `T` has a zero
(the default-constructed `T point`), an addition and a multiplication by a scalar. -/
def GetPointOnCurve {T : Type} [AddCommMonoid T] [Module ℚ T] (P : BasisEvaluator)
    (degree : Int) (knotVector : List ℚ) (paramT : ℚ) (controlPoints : List T) :
    Except Fault T := do
  validate degree knotVector paramT controlPoints
  let point : T := 0
  let spanIndex := P.GetKnotSpanIndex degree knotVector paramT
  let N := P.BasisFunctions spanIndex degree knotVector paramT
  (List.range (degree + 1).toNat).foldlM (pointStep N controlPoints spanIndex degree) point

/-- Body of the inner loop of `ComputeDerivatives` (line 85):
`derivatives[k] += nders[k][j] * controlPoints[spanIndex - degree + j]`. -/
def derivativeStep {T : Type} [AddCommMonoid T] [Module ℚ T] (nders : List (List ℚ))
    (controlPoints : List T) (spanIndex degree : Int) (k : Nat) (derivatives : List T)
    (j : Nat) : Except Fault (List T) := do
  let row ← vectorAt nders k
  let nd ← vectorAt row j
  let cp ← vectorAt controlPoints (spanIndex - degree + j)
  let dk ← vectorAt derivatives k
  pure (derivatives.set k (dk + nd • cp))

/-- Embedding of `BsplineCurve::ComputeDerivatives` (lines 64-89).  The vector
`std::vector<T> derivatives(derivative + 1)` holds `derivative + 1` zero points and cannot be
built for a negative size. -/
def ComputeDerivatives {T : Type} [AddCommMonoid T] [Module ℚ T] (P : BasisEvaluator)
    (degree derivative : Int) (knotVector : List ℚ) (paramT : ℚ) (controlPoints : List T) :
    Except Fault (List T) := do
  validate degree knotVector paramT controlPoints
  if derivative + 1 < 0 then throw Fault.lengthError
  let derivatives : List T := List.replicate (derivative + 1).toNat 0
  let du := min derivative degree
  let spanIndex := P.GetKnotSpanIndex degree knotVector paramT
  let nders := P.BasisFunctionsDerivatives spanIndex degree du knotVector paramT
  (List.range (du + 1).toNat).foldlM (fun derivatives k =>
    (List.range (degree + 1).toNat).foldlM
      (derivativeStep nders controlPoints spanIndex degree k) derivatives) derivatives

end BsplineCurve

/-! ### Rescaling and knot insertion lists (`KnotVectorUtils.cpp`) -/

namespace KnotVectorUtils

/-- Embedding of `KnotVectorUtils::GetContinuity` (lines 21-26). -/
def GetContinuity (eps : ℚ) (degree : Int) (knotVector : List ℚ) (knot : ℚ) :
    Except Fault Int := do
  VALIDATE_ARGUMENT (decide (degree > 0))
  let multi := Polynomials.GetKnotMultiplicity eps knotVector knot
  pure (degree - multi)

/-- Body of the loop of `Rescale` (line 38):
`result[i] = (k * knotVector[i] - origintMin) + min`. -/
def rescaleStep (knotVector : List ℚ) (k origintMin min : ℚ) (result : List ℚ) (i : Nat) :
    Except Fault (List ℚ) := do
  let v ← vectorAt knotVector i
  let _ ← vectorAt result i
  pure (result.set i ((k * v - origintMin) + min))

/-- Embedding of `KnotVectorUtils::Rescale` (lines 28-41).  `knotVector[0]` and
`knotVector[knotVector.size() - 1]` are read without a size check.  The quotient in line 32 is a
rational number here; a zero denominator gives an infinite or NaN `double`, which no rational
stands for, so the properties of `Rescale` are stated for a first knot different from the
last. -/
def Rescale (knotVector : List ℚ) (min max : ℚ) : Except Fault (List ℚ) := do
  let origintMin ← vectorAt knotVector 0
  let origintMax ← vectorAt knotVector ((knotVector.length : Int) - 1)
  let k := (max - min) / (origintMax - origintMin)
  let size := knotVector.length
  let result : List ℚ := List.replicate size 0
  (List.range size).foldlM (rescaleStep knotVector k origintMin min) result

/-- The overload `KnotVectorUtils::GetInsertedKnotElement(degree, knotVector, startParam,
endParam)` (lines 43-69). -/
def GetInsertedKnotElement (eps : ℚ) (degree : Int) (knotVector : List ℚ)
    (startParam endParam : ℚ) : Except Fault (List ℚ) := do
  VALIDATE_ARGUMENT (decide (degree ≥ 0))
  VALIDATE_ARGUMENT (decide (knotVector.length > 0))
  VALIDATE_ARGUMENT (ValidationUtils.IsValidKnotVector knotVector)
  let result : List ℚ := []
  let startMulti := Polynomials.GetKnotMultiplicity eps knotVector startParam
  let result :=
    if startMulti < degree then emplaceTimes result (degree - startMulti) startParam else result
  let endMulti := Polynomials.GetKnotMultiplicity eps knotVector endParam
  let result :=
    if endMulti < degree then emplaceTimes result (degree - endMulti) endParam else result
  pure result

/-- Body of the loop that builds `finalMap` in `GetInsertedKnotElements` (lines 167-181). -/
def finalMapStep (C : Container) (eps : ℚ) (finalMap : KnotMap) (it : ℚ × Int) : KnotMap :=
  let key := it.1
  let count := it.2
  match KnotMap.find C eps finalMap key with
  | none => KnotMap.insert C eps finalMap key count
  | some got =>
    let currentCount := got.2
    if currentCount < count then KnotMap.assign C eps finalMap key count else finalMap

/-- Body of the loop that fills one insertion list in `GetInsertedKnotElements` (lines 194-213);
`map` is the multiplicity map of the knot vector the list is for. -/
def elementsStep (C : Container) (eps : ℚ) (map : KnotMap) (insertElements : List ℚ)
    (it : ℚ × Int) : List ℚ :=
  let key := it.1
  let count := it.2
  match KnotMap.find C eps map key with
  | none => emplaceTimes insertElements count key
  | some got =>
    let currentCount := got.2
    emplaceTimes insertElements (count - currentCount) key

/-- The map `finalMap` of `GetInsertedKnotElements` after the first loop (lines 160-183). -/
def finalMapOf (C : Container) (eps : ℚ) (knotVectors : List (List ℚ)) : KnotMap :=
  knotVectors.foldl (fun finalMap kv =>
    (GetKnotMultiplicityMap C eps kv).foldl (finalMapStep C eps) finalMap) []

/-- Embedding of `KnotVectorUtils::GetInsertedKnotElements` (lines 158-218). -/
def GetInsertedKnotElements (C : Container) (eps : ℚ) (knotVectors : List (List ℚ)) :
    List (List ℚ) :=
  let finalMap := finalMapOf C eps knotVectors
  knotVectors.foldl (fun result kv =>
    let map := GetKnotMultiplicityMap C eps kv
    let insertElements := finalMap.foldl (elementsStep C eps map) []
    result ++ [insertElements]) []

end KnotVectorUtils

/-- Modelled from the spec: `BsplineCurve::GetContinuity` is declared in `BsplineCurve.h` (line
57) and defined in `BsplineCurve.cpp`, which is not among the sources.  Spec §4.5:
"`GetContinuity`: delegates to Knot Vector Algebra's continuity formula". -/
def BsplineCurve.GetContinuity (eps : ℚ) (degree : Int) (knotVector : List ℚ) (knot : ℚ) :
    Except Fault Int :=
  KnotVectorUtils.GetContinuity eps degree knotVector knot

/-! ## Properties stated by the specification, in its own words -/

/-- The refined knot vector: the knots of `knotVector` together with the inserted knots, in
ascending order. -/
def mergeKnots (knotVector insertElements : List ℚ) : List ℚ :=
  stdSort (knotVector ++ insertElements)

/-- Entries of `L` that are equal under the tolerance comparison are the same number. -/
def ToleranceExact (eps : ℚ) (L : List ℚ) : Prop :=
  ∀ a ∈ L, ∀ b ∈ L, MathUtils.IsAlmostEqualTo eps a b = true → a = b

instance (eps : ℚ) (L : List ℚ) : Decidable (ToleranceExact eps L) := by
  unfold ToleranceExact
  infer_instance

/-- All gaps between consecutive entries of `knots` equal, under the tolerance, the gap between
its first two entries. -/
def UniformGaps (eps : ℚ) (knots : List ℚ) : Prop :=
  ∀ i : Nat, i < knots.length - 1 →
    MathUtils.IsAlmostEqualTo eps (knots.getD (i + 1) 0 - knots.getD i 0)
      (knots.getD 1 0 - knots.getD 0 0) = true

instance (eps : ℚ) (knots : List ℚ) : Decidable (UniformGaps eps knots) := by
  unfold UniformGaps
  infer_instance

/-- No lookup matches two different knots of `E`: an entry that a lookup compares with its key
and finds equal to it under the tolerance has that very key, as far as knots of `E` are
concerned.  This holds when no two different knots of `E` are within the tolerance of each other,
and also when the container never compares two such knots (they lie in different buckets). -/
def ExactLookup (C : Container) (eps : ℚ) (E : List ℚ) : Prop :=
  ∀ (m : KnotMap) (key : ℚ) (e : ℚ × Int), e ∈ C.bucket m key → e.1 ∈ E → key ∈ E →
    MathUtils.IsAlmostEqualTo eps e.1 key = true → e.1 = key

/-- The sum of the multiplicities stored in a map. -/
def multiplicitySum (m : KnotMap) : Int := (m.map Prod.snd).sum

/-- Number of copies of its key that `insertStep0` appends to `insertElements0`. -/
def emit0 (C : Container) (eps : ℚ) (map1 : KnotMap) (it : ℚ × Int) : Nat :=
  match KnotMap.find C eps map1 it.1 with
  | none => 0
  | some got => if it.2 > got.2 then 0 else (got.2 - it.2).toNat

/-- Number of copies of its key that `insertStep0` appends to `insertElements1`. -/
def emit1 (C : Container) (eps : ℚ) (map1 : KnotMap) (it : ℚ × Int) : Nat :=
  match KnotMap.find C eps map1 it.1 with
  | none => it.2.toNat
  | some got => if it.2 > got.2 then (it.2 - got.2).toNat else 0

/-- Number of copies of its key that `insertStep1` appends to `insertElements0`. -/
def emit2 (C : Container) (eps : ℚ) (map0 : KnotMap) (it : ℚ × Int) : Nat :=
  match KnotMap.find C eps map0 it.1 with
  | none => it.2.toNat
  | some _ => 0

/-- The greatest multiplicity of `k` in the knot vectors of the list; `0` for the empty list. -/
def maxMultiplicity (eps : ℚ) (knotVectors : List (List ℚ)) (k : ℚ) : Int :=
  knotVectors.foldl (fun acc kv => max acc (Polynomials.GetKnotMultiplicity eps kv k)) 0

/-- Number of copies of its key that `elementsStep` appends. -/
def emitN (C : Container) (eps : ℚ) (map : KnotMap) (it : ℚ × Int) : Nat :=
  match KnotMap.find C eps map it.1 with
  | none => it.2.toNat
  | some got => (it.2 - got.2).toNat

/-! ## Theorems -/

open MathUtils Polynomials KnotVectorUtils BsplineCurve

/-! ### The tolerance comparison -/

theorem almostEqual_iff (eps a b : ℚ) : IsAlmostEqualTo eps a b = true ↔ |a - b| < eps := by
  simp [IsAlmostEqualTo]

theorem almostEqual_self {eps : ℚ} (h : 0 < eps) (a : ℚ) : IsAlmostEqualTo eps a a = true := by
  simp [IsAlmostEqualTo, h]

theorem almostEqual_comm (eps a b : ℚ) : IsAlmostEqualTo eps a b = IsAlmostEqualTo eps b a := by
  simp [IsAlmostEqualTo, abs_sub_comm]

theorem almostEqual_intCast {eps : ℚ} (h0 : 0 < eps) (h1 : eps ≤ 1) (a b : ℤ) :
    IsAlmostEqualTo eps (a : ℚ) (b : ℚ) = decide (a = b) := by
  by_cases h : a = b
  · subst h; simp [IsAlmostEqualTo, h0]
  · have h2 : (1 : ℚ) ≤ |(a : ℚ) - b| := by
      have : (1 : ℤ) ≤ |a - b| := Int.one_le_abs (sub_ne_zero.mpr h)
      exact_mod_cast this
    simp only [IsAlmostEqualTo, h, decide_False, decide_eq_false_iff_not, not_lt]
    linarith

theorem sum_ite_const {α : Type} (p : α → Bool) (f : α → Nat) (V : Nat) (l : List α)
    (h : ∀ a ∈ l, p a = true → f a = V) :
    (l.map (fun a => if p a = true then f a else 0)).sum = V * l.countP p := by
  induction l with
  | nil => simp
  | cons a l ih =>
    have ih2 := ih (fun b hb => h b (List.mem_cons_of_mem _ hb))
    by_cases hpa : p a = true
    · simp [List.countP_cons, hpa, ih2, h a (List.mem_cons_self _ _) hpa]; ring
    · simp [List.countP_cons, hpa, ih2]

theorem multiplicity_nonneg (eps : ℚ) (K : List ℚ) (k : ℚ) : 0 ≤ GetKnotMultiplicity eps K k := by
  unfold GetKnotMultiplicity
  exact Int.natCast_nonneg _

theorem multiplicity_stdSort (eps : ℚ) (v : List ℚ) (k : ℚ) :
    GetKnotMultiplicity eps (stdSort v) k = GetKnotMultiplicity eps v k := by
  unfold GetKnotMultiplicity stdSort
  rw [List.Perm.countP_eq _ (List.perm_insertionSort _ v)]

theorem multiplicity_append (eps : ℚ) (u v : List ℚ) (k : ℚ) :
    GetKnotMultiplicity eps (u ++ v) k =
      GetKnotMultiplicity eps u k + GetKnotMultiplicity eps v k := by
  unfold GetKnotMultiplicity
  rw [List.countP_append]
  push_cast
  rfl

/-- Where the tolerance comparison is exact, the multiplicity of a knot is the number of its
occurrences. -/
theorem count_eq_multiplicity {eps : ℚ} (heps : 0 < eps) (E L : List ℚ) (hLE : L ⊆ E)
    (hex : ToleranceExact eps E) (v : ℚ) (hv : v ∈ E) :
    (L.count v : ℤ) = GetKnotMultiplicity eps L v := by
  unfold GetKnotMultiplicity List.count
  congr 1
  apply List.countP_congr
  intro x hx
  constructor
  · intro h
    have : x = v := by simpa using h
    subst this
    exact almostEqual_self heps x
  · intro h
    have := hex v hv x (hLE hx) h
    simp [this]

theorem toleranceExact_small : ToleranceExact (1/10000) [0, 0, 1, 2, 2, 3] := by
  intro a ha b hb
  simp only [List.mem_cons, List.mem_singleton, List.not_mem_nil, or_false] at ha hb
  rcases ha with rfl | rfl | rfl | rfl | rfl | rfl <;>
    rcases hb with rfl | rfl | rfl | rfl | rfl | rfl <;>
    norm_num [IsAlmostEqualTo, abs_lt]

theorem toleranceExact_pair : ToleranceExact (1/10000) ([0, 0, 1] ++ [0, 1, 1, 2]) := by
  intro a ha b hb
  simp only [List.cons_append, List.nil_append, List.mem_cons, List.mem_singleton,
    List.not_mem_nil, or_false] at ha hb
  rcases ha with rfl | rfl | rfl | rfl | rfl | rfl | rfl <;>
    rcases hb with rfl | rfl | rfl | rfl | rfl | rfl | rfl <;>
    norm_num [IsAlmostEqualTo, abs_lt]

theorem toleranceExact_swap {eps : ℚ} {K0 K1 : List ℚ} (h : ToleranceExact eps (K0 ++ K1)) :
    ToleranceExact eps (K1 ++ K0) := by
  intro a ha b hb hab
  exact h a (by simp only [List.mem_append] at ha ⊢; tauto)
    b (by simp only [List.mem_append] at hb ⊢; tauto) hab

/-! ### The multiplicity map -/

/-- A lookup that finds an entry returns an entry of the map whose key equals the key looked up
under the tolerance. -/
theorem find_some {C : Container} {eps : ℚ} {m : KnotMap} {key : ℚ} {got : ℚ × Int}
    (h : KnotMap.find C eps m key = some got) :
    got ∈ m ∧ IsAlmostEqualTo eps got.1 key = true := by
  unfold KnotMap.find at h
  have h2 := List.find?_some h
  exact ⟨C.bucket_subset m key (List.mem_of_find?_eq_some h), h2⟩

/-- A lookup that finds an entry returns one of the entries that the container compares with
the key. -/
theorem find_some_bucket {C : Container} {eps : ℚ} {m : KnotMap} {key : ℚ} {got : ℚ × Int}
    (h : KnotMap.find C eps m key = some got) : got ∈ C.bucket m key := by
  unfold KnotMap.find at h
  exact List.mem_of_find?_eq_some h

/-- Where no two different knots of `E` are within the tolerance of each other, no lookup
matches two different knots of `E`, whatever the container. -/
theorem exactLookup_of_exact (C : Container) {eps : ℚ} {E : List ℚ}
    (hex : ToleranceExact eps E) : ExactLookup C eps E :=
  fun _ key e _ he hkey hnear => hex e.1 he key hkey hnear

/-- In a hash table with chained buckets, no lookup matches two different knots of `E` when the
different knots of `E` that are within the tolerance of each other lie in different buckets. -/
theorem exactLookup_chained {β : Type} [DecidableEq β] (bucketOf : ℚ → β) (bidirectional : Bool)
    {eps : ℚ} {E : List ℚ}
    (h : ∀ a ∈ E, ∀ b ∈ E, IsAlmostEqualTo eps a b = true → bucketOf a = bucketOf b → a = b) :
    ExactLookup (Container.chained bucketOf bidirectional) eps E := by
  intro m key e he heE hkey hnear
  have h2 : e ∈ m.filter (fun e => decide (bucketOf e.1 = bucketOf key)) := he
  rw [List.mem_filter, decide_eq_true_eq] at h2
  exact h e.1 heE key hkey hnear h2.2

/-- A lookup that finds nothing: no entry of the map has the key looked up. -/
theorem find_none {C : Container} {eps : ℚ} (heps : 0 < eps) {m : KnotMap} {key : ℚ}
    (h : KnotMap.find C eps m key = none) : key ∉ KnotMap.keys m := by
  unfold KnotMap.find at h
  rw [List.find?_eq_none] at h
  intro hk
  unfold KnotMap.keys at hk
  rw [List.mem_map] at hk
  obtain ⟨e, he, hek⟩ := hk
  apply h e (C.bucket_self m key e he hek)
  unfold CustomDoubleEqual
  rw [hek]
  exact almostEqual_self heps key

/-- A lookup in the empty map finds nothing. -/
theorem find_nil (C : Container) (eps key : ℚ) : KnotMap.find C eps [] key = none := by
  unfold KnotMap.find
  rw [List.find?_eq_none]
  intro e he
  exact absurd (C.bucket_subset [] key he) (List.not_mem_nil e)

/-- Adding an entry to the empty map gives the map with that entry. -/
theorem place_nil (C : Container) (e : ℚ × Int) : C.place [] e = [e] :=
  List.perm_singleton.1 (C.place_perm [] e)

theorem multiplicityMapStep_of_none {C : Container} {eps : ℚ} {K : List ℚ} {m : KnotMap}
    {x : ℚ} (h : KnotMap.find C eps m x = none) :
    multiplicityMapStep C eps K m x = C.place m (x, GetKnotMultiplicity eps K x) := by
  simp [multiplicityMapStep, KnotMap.insert, h]

theorem multiplicityMapStep_of_some {C : Container} {eps : ℚ} {K : List ℚ} {m : KnotMap}
    {x : ℚ} {got : ℚ × Int} (h : KnotMap.find C eps m x = some got) :
    multiplicityMapStep C eps K m x = m := by
  simp [multiplicityMapStep, h]

/-- The invariant of the scan of `GetKnotMultiplicityMap`, for the knots `L` scanned so far:
every entry holds a scanned knot and its multiplicity, every scanned knot equals some key under
the tolerance, and no number is a key twice; where no lookup matches two different knots, every
scanned knot is a key. -/
theorem foldl_step_invariant (C : Container) {eps : ℚ} (heps : 0 < eps) (K : List ℚ) :
    ∀ (L : List ℚ) (m : KnotMap),
      ((∀ e ∈ m, e.1 ∈ K ∧ e.2 = GetKnotMultiplicity eps K e.1) ∧ (KnotMap.keys m).Nodup) →
      L ⊆ K →
      (∀ e ∈ L.foldl (multiplicityMapStep C eps K) m,
          e.1 ∈ K ∧ e.2 = GetKnotMultiplicity eps K e.1) ∧
        (KnotMap.keys (L.foldl (multiplicityMapStep C eps K) m)).Nodup ∧
        (∀ e ∈ m, e ∈ L.foldl (multiplicityMapStep C eps K) m) ∧
        (∀ x ∈ L, ∃ e ∈ L.foldl (multiplicityMapStep C eps K) m,
          IsAlmostEqualTo eps e.1 x = true) ∧
        (∀ E : List ℚ, K ⊆ E → ExactLookup C eps E →
          ∀ x ∈ L, x ∈ KnotMap.keys (L.foldl (multiplicityMapStep C eps K) m)) := by
  intro L
  induction L with
  | nil =>
    intro m hm _
    exact ⟨hm.1, hm.2, fun e he => he, fun x hx => absurd hx (List.not_mem_nil x),
      fun _ _ _ x hx => absurd hx (List.not_mem_nil x)⟩
  | cons x L ih =>
    intro m hm hL
    rw [List.foldl_cons]
    have hx : x ∈ K := hL (List.mem_cons_self _ _)
    have hL2 : L ⊆ K := fun y hy => hL (List.mem_cons_of_mem _ hy)
    cases hf : KnotMap.find C eps m x with
    | none =>
      rw [multiplicityMapStep_of_none hf]
      have hperm := C.place_perm m (x, GetKnotMultiplicity eps K x)
      have hm2 : (∀ e ∈ C.place m (x, GetKnotMultiplicity eps K x),
          e.1 ∈ K ∧ e.2 = GetKnotMultiplicity eps K e.1) ∧
          (KnotMap.keys (C.place m (x, GetKnotMultiplicity eps K x))).Nodup := by
        constructor
        · intro e he
          rcases List.mem_cons.1 (hperm.subset he) with h | h
          · subst h
            exact ⟨hx, rfl⟩
          · exact hm.1 e h
        · have hp2 : (KnotMap.keys (C.place m (x, GetKnotMultiplicity eps K x))).Perm
              (x :: KnotMap.keys m) := hperm.map Prod.fst
          rw [hp2.nodup_iff, List.nodup_cons]
          exact ⟨find_none heps hf, hm.2⟩
      obtain ⟨a1, a2, a3, a4, a5⟩ := ih _ hm2 hL2
      refine ⟨a1, a2, fun e he => a3 e (hperm.symm.subset (List.mem_cons_of_mem _ he)), ?_, ?_⟩
      · intro y hy
        rcases List.mem_cons.1 hy with h | h
        · subst h
          exact ⟨_, a3 _ (hperm.symm.subset (List.mem_cons_self _ _)), almostEqual_self heps _⟩
        · exact a4 y h
      · intro E hKE hlook y hy
        rcases List.mem_cons.1 hy with h | h
        · subst h
          exact List.mem_map.2
            ⟨_, a3 _ (hperm.symm.subset (List.mem_cons_self _ _)), rfl⟩
        · exact a5 E hKE hlook y h
    | some got =>
      rw [multiplicityMapStep_of_some hf]
      obtain ⟨a1, a2, a3, a4, a5⟩ := ih m hm hL2
      refine ⟨a1, a2, a3, ?_, ?_⟩
      · intro y hy
        rcases List.mem_cons.1 hy with h | h
        · subst h
          exact ⟨got, a3 got (find_some hf).1, (find_some hf).2⟩
        · exact a4 y h
      · intro E hKE hlook y hy
        rcases List.mem_cons.1 hy with h | h
        · subst h
          have hg := (find_some hf).1
          have hgy : got.1 = y := hlook m y got (find_some_bucket hf) (hKE (hm.1 got hg).1)
            (hKE hx) (find_some hf).2
          rw [← hgy]
          exact List.mem_map.2 ⟨got, a3 got hg, rfl⟩
        · exact a5 E hKE hlook y h

/-- Every entry of the multiplicity map holds a knot of the vector and its multiplicity. -/
theorem map_mem (C : Container) {eps : ℚ} (heps : 0 < eps) (K : List ℚ) :
    ∀ e ∈ GetKnotMultiplicityMap C eps K, e.1 ∈ K ∧ e.2 = GetKnotMultiplicity eps K e.1 :=
  (foldl_step_invariant C heps K K []
    ⟨fun e he => absurd he (List.not_mem_nil e), List.nodup_nil⟩ (List.Subset.refl K)).1

/-- No number is a key of the multiplicity map twice. -/
theorem map_keys_nodup (C : Container) {eps : ℚ} (heps : 0 < eps) (K : List ℚ) :
    (KnotMap.keys (GetKnotMultiplicityMap C eps K)).Nodup :=
  (foldl_step_invariant C heps K K []
    ⟨fun e he => absurd he (List.not_mem_nil e), List.nodup_nil⟩ (List.Subset.refl K)).2.1

/-- Every knot of the vector equals some key of the multiplicity map under the tolerance. -/
theorem map_cover (C : Container) {eps : ℚ} (heps : 0 < eps) (K : List ℚ) :
    ∀ x ∈ K, ∃ e ∈ GetKnotMultiplicityMap C eps K, IsAlmostEqualTo eps e.1 x = true :=
  (foldl_step_invariant C heps K K []
    ⟨fun e he => absurd he (List.not_mem_nil e), List.nodup_nil⟩ (List.Subset.refl K)).2.2.2.1

/-- Where no lookup matches two different knots, every knot of the vector is a key of its
multiplicity map. -/
theorem map_keys_lookup (C : Container) {eps : ℚ} (heps : 0 < eps) {E K : List ℚ}
    (hKE : K ⊆ E) (hlook : ExactLookup C eps E) : ∀ x ∈ K,
    x ∈ KnotMap.keys (GetKnotMultiplicityMap C eps K) :=
  (foldl_step_invariant C heps K K []
    ⟨fun e he => absurd he (List.not_mem_nil e), List.nodup_nil⟩
    (List.Subset.refl K)).2.2.2.2 E hKE hlook

/-- Where no lookup matches two different knots, every knot of the vector is a key of its
multiplicity map, with its multiplicity as value. -/
theorem map_key_mem_exact (C : Container) {eps : ℚ} (heps : 0 < eps) {E K : List ℚ}
    (hKE : K ⊆ E) (hlook : ExactLookup C eps E) {x : ℚ} (hx : x ∈ K) :
    (x, GetKnotMultiplicity eps K x) ∈ GetKnotMultiplicityMap C eps K := by
  have hk := map_keys_lookup C heps hKE hlook x hx
  unfold KnotMap.keys at hk
  rw [List.mem_map] at hk
  obtain ⟨e, he, h3⟩ := hk
  obtain ⟨h1, h2⟩ := map_mem C heps K e he
  have h4 : e = (x, GetKnotMultiplicity eps K x) := by
    rw [← h3, ← h2]
  rw [← h4]
  exact he

/-- Where no lookup matches two different knots, a lookup in the multiplicity map of `K` finds a
knot of `K` with its multiplicity, and finds nothing for a number that is not a knot of `K`. -/
theorem find_map_exact (C : Container) {eps : ℚ} (heps : 0 < eps) {E K : List ℚ}
    (hKE : K ⊆ E) (hlook : ExactLookup C eps E) {key : ℚ} (hkey : key ∈ E) :
    KnotMap.find C eps (GetKnotMultiplicityMap C eps K) key =
      if key ∈ K then some (key, GetKnotMultiplicity eps K key) else none := by
  cases hf : KnotMap.find C eps (GetKnotMultiplicityMap C eps K) key with
  | none =>
    have h1 := find_none heps hf
    have h2 : key ∉ K := by
      intro hk
      apply h1
      unfold KnotMap.keys
      rw [List.mem_map]
      exact ⟨_, map_key_mem_exact C heps hKE hlook hk, rfl⟩
    rw [if_neg h2]
  | some got =>
    obtain ⟨h1, h2⟩ := find_some hf
    obtain ⟨h3, h4⟩ := map_mem C heps K got h1
    have h5 : got.1 = key := hlook _ key got (find_some_bucket hf) (hKE h3) hkey h2
    rw [← h5, if_pos h3, ← h4]

/-- Where the tolerance comparison is exact, the multiplicity map of `K` holds, in some order,
one entry for each distinct knot of `K`, with the multiplicity of that knot. -/
theorem map_perm_exact (C : Container) {eps : ℚ} (heps : 0 < eps) {E K : List ℚ}
    (hKE : K ⊆ E) (hex : ToleranceExact eps E) :
    (GetKnotMultiplicityMap C eps K).Perm
      (K.dedup.map fun v => (v, GetKnotMultiplicity eps K v)) := by
  have hlook := exactLookup_of_exact C hex
  have hkeys : (KnotMap.keys (GetKnotMultiplicityMap C eps K)).Perm K.dedup := by
    rw [List.perm_ext_iff_of_nodup (map_keys_nodup C heps K) (List.nodup_dedup K)]
    intro x
    rw [List.mem_dedup]
    constructor
    · intro hx
      unfold KnotMap.keys at hx
      rw [List.mem_map] at hx
      obtain ⟨e, he, hek⟩ := hx
      rw [← hek]
      exact (map_mem C heps K e he).1
    · intro hx
      unfold KnotMap.keys
      rw [List.mem_map]
      exact ⟨_, map_key_mem_exact C heps hKE hlook hx, rfl⟩
  have hmap : GetKnotMultiplicityMap C eps K =
      (KnotMap.keys (GetKnotMultiplicityMap C eps K)).map
        fun v => (v, GetKnotMultiplicity eps K v) := by
    unfold KnotMap.keys
    rw [List.map_map]
    conv_lhs => rw [← List.map_id (GetKnotMultiplicityMap C eps K)]
    apply List.map_congr_left
    intro e he
    have h := (map_mem C heps K e he).2
    simp only [id, Function.comp]
    rw [← h]
  rw [hmap]
  exact hkeys.map _

/-- Where the tolerance comparison is exact, the multiplicities stored in the map sum to the
length of the knot vector. -/
theorem multiplicitySum_eq (C : Container) {eps : ℚ} (heps : 0 < eps) {K : List ℚ}
    (hex : ToleranceExact eps K) :
    multiplicitySum (GetKnotMultiplicityMap C eps K) = K.length := by
  unfold multiplicitySum
  rw [((map_perm_exact C heps (List.Subset.refl K) hex).map Prod.snd).sum_eq, List.map_map]
  have h1 : (List.map (Prod.snd ∘ fun v => (v, GetKnotMultiplicity eps K v)) K.dedup) =
      List.map (fun v => ((K.count v : Nat) : Int)) K.dedup := by
    apply List.map_congr_left
    intro v hv
    rw [List.mem_dedup] at hv
    simp only [Function.comp]
    exact (count_eq_multiplicity heps K K (List.Subset.refl K) hex v hv).symm
  rw [h1]
  have h2 := List.sum_map_count_dedup_eq_length K
  have h3 : (List.map (fun v => ((K.count v : Nat) : Int)) K.dedup).sum =
      (((List.map (fun v => K.count v) K.dedup).sum : Nat) : Int) := by
    induction K.dedup with
    | nil => rfl
    | cons a l ih => simp only [List.map_cons, List.sum_cons, Nat.cast_add, ih]
  rw [h3, h2]

/-- Integers are equal under a tolerance of at most `1` only when they are the same. -/
theorem toleranceExact_intCast {eps : ℚ} (h0 : 0 < eps) (h1 : eps ≤ 1) (L : List ℤ) :
    ToleranceExact eps (L.map (Int.cast : ℤ → ℚ)) := by
  intro a ha b hb h
  obtain ⟨i, _, rfl⟩ := List.mem_map.1 ha
  obtain ⟨j, _, rfl⟩ := List.mem_map.1 hb
  rw [almostEqual_intCast h0 h1, decide_eq_true_eq] at h
  rw [h]

theorem toleranceExact_scenario {eps : ℚ} (h0 : 0 < eps) (h1 : eps ≤ 1) :
    ToleranceExact eps [0, 0, 0, 1, 2, 2, 3, 3, 3] := by
  have h := toleranceExact_intCast h0 h1 [0, 0, 0, 1, 2, 2, 3, 3, 3]
  simpa using h

/-- The multiplicity map of the scenario `[0,0,0,1,2,2,3,3,3]` holds the entries `0:3`, `1:1`,
`2:2`, `3:3`, in the order of the container. -/
theorem map_example (C : Container) {eps : ℚ} (h0 : 0 < eps) (h1 : eps ≤ 1) :
    (GetKnotMultiplicityMap C eps [0, 0, 0, 1, 2, 2, 3, 3, 3]).Perm
      [(0, 3), (1, 1), (2, 2), (3, 3)] := by
  have hex := toleranceExact_scenario h0 h1
  have hlook := exactLookup_of_exact C hex
  have hm : ∀ v ∈ ([0, 0, 0, 1, 2, 2, 3, 3, 3] : List ℚ),
      GetKnotMultiplicity eps [0, 0, 0, 1, 2, 2, 3, 3, 3] v =
        (([0, 0, 0, 1, 2, 2, 3, 3, 3] : List ℚ).count v : Nat) :=
    fun v hv => (count_eq_multiplicity h0 _ _ (List.Subset.refl _) hex v hv).symm
  have m0 := hm 0 (by simp)
  have m1 := hm 1 (by simp)
  have m2 := hm 2 (by simp)
  have m3 := hm 3 (by simp)
  norm_num [List.count_cons] at m0 m1 m2 m3
  have k0 := map_key_mem_exact C h0 (List.Subset.refl _) hlook
    (show (0 : ℚ) ∈ ([0, 0, 0, 1, 2, 2, 3, 3, 3] : List ℚ) by simp)
  have k1 := map_key_mem_exact C h0 (List.Subset.refl _) hlook
    (show (1 : ℚ) ∈ ([0, 0, 0, 1, 2, 2, 3, 3, 3] : List ℚ) by simp)
  have k2 := map_key_mem_exact C h0 (List.Subset.refl _) hlook
    (show (2 : ℚ) ∈ ([0, 0, 0, 1, 2, 2, 3, 3, 3] : List ℚ) by simp)
  have k3 := map_key_mem_exact C h0 (List.Subset.refl _) hlook
    (show (3 : ℚ) ∈ ([0, 0, 0, 1, 2, 2, 3, 3, 3] : List ℚ) by simp)
  rw [m0] at k0
  rw [m1] at k1
  rw [m2] at k2
  rw [m3] at k3
  have hnd : (GetKnotMultiplicityMap C eps [0, 0, 0, 1, 2, 2, 3, 3, 3]).Nodup :=
    List.Nodup.of_map Prod.fst (map_keys_nodup C h0 _)
  have hnd2 : ([(0, 3), (1, 1), (2, 2), (3, 3)] : KnotMap).Nodup := by
    simp only [List.nodup_cons, List.mem_cons, List.mem_singleton, Prod.mk.injEq,
      List.not_mem_nil, List.nodup_nil]
    norm_num
  rw [List.perm_ext_iff_of_nodup hnd hnd2]
  intro e
  constructor
  · intro he
    obtain ⟨a1, a2⟩ := map_mem C h0 _ e he
    obtain ⟨x, y⟩ := e
    simp only [List.mem_cons, List.mem_singleton, List.not_mem_nil, or_false] at a1
    simp only at a2
    rcases a1 with rfl | rfl | rfl | rfl | rfl | rfl | rfl | rfl | rfl <;> simp [a2, m0, m1, m2, m3]
  · intro he
    simp only [List.mem_cons, List.mem_singleton, List.not_mem_nil, or_false] at he
    rcases he with rfl | rfl | rfl | rfl
    · exact k0
    · exact k1
    · exact k2
    · exact k3

/-! ### Claims on the multiplicity map -/

/-- C2 (as stated, refuted): with tolerance `1/10000`, the values stored in the multiplicity map
of the non-decreasing knot vector `[0, 0.00006, 0.00012]` do not sum to its length `3`: the sum
is `7` on the libstdc++ container (three keys with multiplicities `2`, `3`, `2`) and `4` on a
linear-scan map (the keys `0` and `0.00012`, the middle knot counted for both).  For
`[0, 0.00001]`, of length `2`, the libstdc++ container keeps both knots as keys with
multiplicity `2` each: the sum is `4`. -/
theorem C2_sum_counterexample :
    List.Sorted (· ≤ ·) ([0, 3/50000, 3/25000] : List ℚ) ∧
    multiplicitySum
      (GetKnotMultiplicityMap Container.libstdcxx (1/10000) [0, 3/50000, 3/25000]) = 7 ∧
    multiplicitySum
      (GetKnotMultiplicityMap Container.linearScan (1/10000) [0, 3/50000, 3/25000]) = 4 ∧
    ([0, 3/50000, 3/25000] : List ℚ).length = 3 ∧
    List.Sorted (· ≤ ·) ([0, 1/100000] : List ℚ) ∧
    multiplicitySum (GetKnotMultiplicityMap Container.libstdcxx (1/10000) [0, 1/100000]) = 4 ∧
    ([0, 1/100000] : List ℚ).length = 2 := by
  refine ⟨by norm_num, ?_, ?_, rfl, by norm_num, ?_, rfl⟩
  · norm_num [multiplicitySum, GetKnotMultiplicityMap, multiplicityMapStep, KnotMap.find,
      KnotMap.insert, Container.libstdcxx, Container.chained, Container.libstdcxxBucket,
      chainInsert, CustomDoubleEqual, IsAlmostEqualTo, GetKnotMultiplicity, abs_lt, List.filter,
      List.find?]
  · norm_num [multiplicitySum, GetKnotMultiplicityMap, multiplicityMapStep, KnotMap.find,
      KnotMap.insert, Container.linearScan, CustomDoubleEqual, IsAlmostEqualTo,
      GetKnotMultiplicity, abs_lt, List.filter, List.find?]
  · norm_num [multiplicitySum, GetKnotMultiplicityMap, multiplicityMapStep, KnotMap.find,
      KnotMap.insert, Container.libstdcxx, Container.chained, Container.libstdcxxBucket,
      chainInsert, CustomDoubleEqual, IsAlmostEqualTo, GetKnotMultiplicity, abs_lt, List.filter,
      List.find?]

/-- C2 (amended): for every container and every knot vector `K` whose knots are equal under the
tolerance only when they are the same number, the multiplicities stored in
`GetKnotMultiplicityMap(K)` sum to the length of `K`. -/
theorem C2_sum_eq_length (C : Container) (eps : ℚ) (K : List ℚ) (heps : 0 < eps)
    (hex : ToleranceExact eps K) :
    multiplicitySum (GetKnotMultiplicityMap C eps K) = K.length :=
  multiplicitySum_eq C heps hex

/-- C2 (amended), instance: the knot vector `[0, 0, 1, 2, 2, 3]` with tolerance `1/10000` on the
libstdc++ container. -/
theorem C2_sum_eq_length_witness :
    (0 : ℚ) < 1/10000 ∧ ToleranceExact (1/10000) [0, 0, 1, 2, 2, 3] ∧
    multiplicitySum (GetKnotMultiplicityMap Container.libstdcxx (1/10000) [0, 0, 1, 2, 2, 3]) =
      ([0, 0, 1, 2, 2, 3] : List ℚ).length :=
  ⟨by norm_num, toleranceExact_small,
    C2_sum_eq_length Container.libstdcxx (1/10000) [0, 0, 1, 2, 2, 3] (by norm_num)
      toleranceExact_small⟩

/-- C3 (evaluation of the code): with tolerance `1/10000`, the map that the libstdc++ container
builds for `[0, 0.00001]` has the two keys `0.00001` and `0`, which are equal under the
tolerance, each with multiplicity `2`: `std::hash<double>` puts them into different buckets, so
the lookup of `0.00001` never compares it with `0`.  On every container, each knot of `K` equals
some key under the tolerance, no number is a key twice, every key is a knot of `K` and is mapped
to its `GetKnotMultiplicity`; for `K = [0,0,0,1,2,2,3,3,3]` (tolerance at most `1`) the map holds
the entries `{0:3, 1:1, 2:2, 3:3}`. -/
theorem C3_map_keys_distinct_knots (C : Container) (eps : ℚ) (heps : 0 < eps) :
    (GetKnotMultiplicityMap Container.libstdcxx (1/10000) [0, 1/100000] =
        [(1/100000, 2), (0, 2)] ∧
      IsAlmostEqualTo (1/10000) (1/100000) 0 = true) ∧
    (∀ K : List ℚ,
      (∀ x ∈ K, ∃ e ∈ GetKnotMultiplicityMap C eps K, IsAlmostEqualTo eps e.1 x = true) ∧
      (KnotMap.keys (GetKnotMultiplicityMap C eps K)).Nodup ∧
      (∀ e ∈ GetKnotMultiplicityMap C eps K, e.1 ∈ K ∧ e.2 = GetKnotMultiplicity eps K e.1)) ∧
    (eps ≤ 1 →
      (GetKnotMultiplicityMap C eps [0, 0, 0, 1, 2, 2, 3, 3, 3]).Perm
        [(0, 3), (1, 1), (2, 2), (3, 3)]) := by
  refine ⟨⟨?_, ?_⟩, fun K => ⟨map_cover C heps K, map_keys_nodup C heps K, map_mem C heps K⟩,
    map_example C heps⟩
  · norm_num [GetKnotMultiplicityMap, multiplicityMapStep, KnotMap.find,
      KnotMap.insert, Container.libstdcxx, Container.chained, Container.libstdcxxBucket,
      chainInsert, CustomDoubleEqual, IsAlmostEqualTo, GetKnotMultiplicity, abs_lt, List.filter,
      List.find?]
  · norm_num [IsAlmostEqualTo, abs_lt]

/-- C3, instance: tolerance `1/10000`, the libstdc++ container and the knot vector of the
scenario. -/
theorem C3_map_keys_distinct_knots_witness :
    (0 : ℚ) < 1/10000 ∧
    (GetKnotMultiplicityMap Container.libstdcxx (1/10000) [0, 0, 0, 1, 2, 2, 3, 3, 3]).Perm
      [(0, 3), (1, 1), (2, 2), (3, 3)] :=
  ⟨by norm_num,
    (C3_map_keys_distinct_knots Container.libstdcxx (1/10000) (by norm_num)).2.2 (by norm_num)⟩

/-! ### Order of the keys, `IsUniform` and the internal map -/

theorem map_eq_nil_iff (C : Container) {eps : ℚ} (heps : 0 < eps) (K : List ℚ) :
    GetKnotMultiplicityMap C eps K = [] ↔ K = [] := by
  constructor
  · intro h
    cases K with
    | nil => rfl
    | cons x K =>
      obtain ⟨e, he, _⟩ := map_cover C heps (x :: K) x (List.mem_cons_self _ _)
      rw [h] at he
      simp at he
  · intro h
    subst h
    rfl

/-- The scan of `GetKnotMultiplicityMap` leaves the map as it is at a knot that is a key. -/
theorem multiplicityMapStep_of_key {C : Container} {eps : ℚ} (heps : 0 < eps) {K : List ℚ}
    {m : KnotMap} {x : ℚ} (h : x ∈ KnotMap.keys m) : multiplicityMapStep C eps K m x = m := by
  cases hf : KnotMap.find C eps m x with
  | none => exact absurd h (find_none heps hf)
  | some got => exact multiplicityMapStep_of_some hf

theorem map_single (C : Container) {eps : ℚ} (heps : 0 < eps) :
    GetKnotMultiplicityMap C eps [1, 1, 1] = [(1, 3)] := by
  have h3 : GetKnotMultiplicity eps [1, 1, 1] 1 = 3 := by
    simp [GetKnotMultiplicity, List.countP_cons, IsAlmostEqualTo, heps]
  have hk : (1 : ℚ) ∈ KnotMap.keys [((1 : ℚ), (3 : Int))] := by simp [KnotMap.keys]
  unfold GetKnotMultiplicityMap
  rw [List.foldl_cons, multiplicityMapStep_of_none (find_nil C eps 1), place_nil, h3,
    List.foldl_cons, multiplicityMapStep_of_key heps hk, List.foldl_cons,
    multiplicityMapStep_of_key heps hk, List.foldl_nil]

/-- What `IsUniform` computes when the map has at least two keys: whether every gap between
keys that follow each other in the iteration order of the map equals the first gap. -/
theorem isUniform_of_two_keys (C : Container) (eps : ℚ) (K : List ℚ)
    (h2 : 2 ≤ (KnotMap.keys (GetKnotMultiplicityMap C eps K)).length) :
    IsUniform C eps K = Except.ok
      ((List.range' 1 ((KnotMap.keys (GetKnotMultiplicityMap C eps K)).length - 1 - 1)).all
        fun i => IsAlmostEqualTo eps
          ((KnotMap.keys (GetKnotMultiplicityMap C eps K)).getD (i + 1) 0 -
            (KnotMap.keys (GetKnotMultiplicityMap C eps K)).getD i 0)
          ((KnotMap.keys (GetKnotMultiplicityMap C eps K)).getD 1 0 -
            (KnotMap.keys (GetKnotMultiplicityMap C eps K)).getD 0 0)) := by
  unfold IsUniform
  generalize GetKnotMultiplicityMap C eps K = m at h2 ⊢
  match m, h2 with
  | e0 :: e1 :: rest, _ => simp [KnotMap.keys]

/-- The value that the loop of `IsUniform` computes is `true` exactly when the gaps are
uniform. -/
theorem all_gaps_iff {eps : ℚ} (heps : 0 < eps) (knots : List ℚ) :
    ((List.range' 1 (knots.length - 1 - 1)).all fun i =>
      IsAlmostEqualTo eps (knots.getD (i + 1) 0 - knots.getD i 0)
        (knots.getD 1 0 - knots.getD 0 0)) = true ↔ UniformGaps eps knots := by
  rw [List.all_eq_true]
  constructor
  · intro h i hi
    rcases Nat.eq_zero_or_pos i with h0 | h0
    · subst h0
      exact almostEqual_self heps _
    · apply h i
      rw [List.mem_range'_1]
      omega
  · intro h i hi
    rw [List.mem_range'_1] at hi
    apply h i
    omega

/-- The keys of the map that the libstdc++ container builds for the clamped uniform knot vector
`[0,0,0,1,2,3,4,5,5,5]`, in iteration order. -/
theorem map_uniform_example :
    GetKnotMultiplicityMap Container.libstdcxx (1/10000) [0, 0, 0, 1, 2, 3, 4, 5, 5, 5] =
      [(4, 1), (3, 1), (5, 3), (2, 1), (1, 1), (0, 3)] := by
  norm_num [GetKnotMultiplicityMap, multiplicityMapStep, KnotMap.find, KnotMap.insert,
    Container.libstdcxx, Container.chained, Container.libstdcxxBucket, chainInsert,
    CustomDoubleEqual, IsAlmostEqualTo, GetKnotMultiplicity, abs_lt, List.filter, List.find?]

/-- The map that the libstdc++ container builds for the scenario `[0,0,0,1,2,2,3,3,3]`, in
iteration order: `begin()` is the entry of the key `3`. -/
theorem map_scenario_libstdcxx :
    GetKnotMultiplicityMap Container.libstdcxx (1/10000) [0, 0, 0, 1, 2, 2, 3, 3, 3] =
      [(3, 3), (2, 2), (1, 1), (0, 3)] := by
  norm_num [GetKnotMultiplicityMap, multiplicityMapStep, KnotMap.find, KnotMap.insert,
    Container.libstdcxx, Container.chained, Container.libstdcxxBucket, chainInsert,
    CustomDoubleEqual, IsAlmostEqualTo, GetKnotMultiplicity, abs_lt, List.filter, List.find?]

/-- C7 (evaluation of the code): with tolerance `1/10000`, the libstdc++ container iterates the
keys of the map of the clamped uniform knot vector `[0,0,0,1,2,3,4,5,5,5]` in the order
`4, 3, 5, 2, 1, 0`; `IsUniform` takes `3 - 4` as the reference spacing, meets the gap `5 - 3`
and returns `false`, although all gaps between the distinct knots `0, 1, 2, 3, 4, 5` (the keys
in ascending order) are equal.  On every container, for a map with at least two keys, `IsUniform`
returns `true` exactly when the gaps between the keys in the iteration order of the map are
uniform, and `false` otherwise. -/
theorem C7_isUniform_iteration_order :
    KnotMap.keys
        (GetKnotMultiplicityMap Container.libstdcxx (1/10000) [0, 0, 0, 1, 2, 3, 4, 5, 5, 5]) =
      [4, 3, 5, 2, 1, 0] ∧
    IsUniform Container.libstdcxx (1/10000) [0, 0, 0, 1, 2, 3, 4, 5, 5, 5] = Except.ok false ∧
    stdSort (KnotMap.keys
        (GetKnotMultiplicityMap Container.libstdcxx (1/10000) [0, 0, 0, 1, 2, 3, 4, 5, 5, 5])) =
      [0, 1, 2, 3, 4, 5] ∧
    UniformGaps (1/10000) [0, 1, 2, 3, 4, 5] ∧
    List.Sorted (· < ·) ([0, 1, 2, 3, 4, 5] : List ℚ) ∧
    (∀ (C : Container) (eps : ℚ) (K : List ℚ), 0 < eps →
      2 ≤ (KnotMap.keys (GetKnotMultiplicityMap C eps K)).length →
      (IsUniform C eps K = Except.ok true ↔
        UniformGaps eps (KnotMap.keys (GetKnotMultiplicityMap C eps K))) ∧
      (IsUniform C eps K = Except.ok false ↔
        ¬ UniformGaps eps (KnotMap.keys (GetKnotMultiplicityMap C eps K)))) := by
  refine ⟨?_, ?_, ?_, ?_, by norm_num, ?_⟩
  · rw [map_uniform_example]
    rfl
  · unfold IsUniform
    rw [map_uniform_example]
    norm_num [KnotMap.keys, List.range', IsAlmostEqualTo, abs_lt]
  · rw [map_uniform_example]
    norm_num [KnotMap.keys, stdSort]
  · intro i hi
    simp only [List.length_cons, List.length_nil] at hi
    have hi5 : i < 5 := by omega
    interval_cases i <;> norm_num [IsAlmostEqualTo, abs_lt]
  · intro C eps K heps h2
    rw [isUniform_of_two_keys C eps K h2]
    have key := all_gaps_iff heps (KnotMap.keys (GetKnotMultiplicityMap C eps K))
    constructor
    · rw [← key]
      constructor
      · intro h; exact Except.ok.inj h
      · intro h; rw [h]
    · rw [← key]
      constructor
      · intro h; rw [Except.ok.inj h]; simp
      · intro h; simp only [Bool.not_eq_true] at h; rw [h]

/-- C7, instance: on the libstdc++ container with tolerance `1/10000`, `IsUniform` returns
`false` for `[0,0,0,1,2,3,4,5,5,5]` because the gaps of its keys in iteration order are not
uniform. -/
theorem C7_isUniform_iteration_order_witness :
    (0 : ℚ) < 1/10000 ∧
    2 ≤ (KnotMap.keys (GetKnotMultiplicityMap Container.libstdcxx (1/10000)
      [0, 0, 0, 1, 2, 3, 4, 5, 5, 5])).length ∧
    (IsUniform Container.libstdcxx (1/10000) [0, 0, 0, 1, 2, 3, 4, 5, 5, 5] = Except.ok false ↔
      ¬ UniformGaps (1/10000) (KnotMap.keys
        (GetKnotMultiplicityMap Container.libstdcxx (1/10000)
          [0, 0, 0, 1, 2, 3, 4, 5, 5, 5]))) :=
  ⟨by norm_num, by rw [map_uniform_example]; simp [KnotMap.keys],
    (C7_isUniform_iteration_order.2.2.2.2.2 Container.libstdcxx (1/10000)
      [0, 0, 0, 1, 2, 3, 4, 5, 5, 5] (by norm_num)
      (by rw [map_uniform_example]; simp [KnotMap.keys])).2⟩

/-- C8 (evaluation of the code): on every container, when the multiplicity map has exactly one
key, as for `[1, 1, 1]`, `IsUniform` reads `knots[1]` past the end of its one-element list of
distinct knots instead of returning `false`. -/
theorem C8_isUniform_one_key (C : Container) (eps : ℚ) (heps : 0 < eps) :
    IsUniform C eps [1, 1, 1] = Except.error Fault.undefinedBehaviour ∧
    ∀ K : List ℚ, (KnotMap.keys (GetKnotMultiplicityMap C eps K)).length = 1 →
      IsUniform C eps K = Except.error Fault.undefinedBehaviour := by
  have general : ∀ K : List ℚ, (KnotMap.keys (GetKnotMultiplicityMap C eps K)).length = 1 →
      IsUniform C eps K = Except.error Fault.undefinedBehaviour := by
    intro K h1
    unfold IsUniform
    generalize GetKnotMultiplicityMap C eps K = m at h1 ⊢
    match m, h1 with
    | [e0], _ => simp [KnotMap.keys]
  refine ⟨general _ ?_, general⟩
  rw [map_single C heps]
  rfl

/-- C8, instance: tolerance `1/10000` on the libstdc++ container. -/
theorem C8_isUniform_one_key_witness :
    (0 : ℚ) < 1/10000 ∧
    IsUniform Container.libstdcxx (1/10000) [1, 1, 1] = Except.error Fault.undefinedBehaviour :=
  ⟨by norm_num, (C8_isUniform_one_key Container.libstdcxx (1/10000) (by norm_num)).1⟩

/-- What `GetInternalKnotMultiplicityMap` does for a non-empty map: with forward-only iterators
the step `prev(end())` is undefined. -/
theorem internal_forward_only (C : Container) (eps : ℚ) (K : List ℚ)
    (hC : C.bidirectional = false) (h1 : GetKnotMultiplicityMap C eps K ≠ []) :
    GetInternalKnotMultiplicityMap C eps K = Except.error Fault.undefinedBehaviour := by
  unfold GetInternalKnotMultiplicityMap
  generalize GetKnotMultiplicityMap C eps K = m at h1 ⊢
  match m, h1 with
  | e0 :: rest, _ => simp [hC]

/-- What `GetInternalKnotMultiplicityMap` returns when the iterators are bidirectional and the
map has at least two entries: the map without its first and its last entry in iteration
order. -/
theorem internal_of_two_keys (C : Container) (eps : ℚ) (K : List ℚ)
    (hC : C.bidirectional = true) (h2 : 2 ≤ (GetKnotMultiplicityMap C eps K).length) :
    GetInternalKnotMultiplicityMap C eps K =
      Except.ok (GetKnotMultiplicityMap C eps K).tail.dropLast := by
  unfold GetInternalKnotMultiplicityMap
  generalize GetKnotMultiplicityMap C eps K = m at h2 ⊢
  match m, h2 with
  | e0 :: e1 :: rest, _ => simp [hC]

/-- C9 (evaluation of the code): for the scenario `[0,0,0,1,2,2,3,3,3]` (tolerance `1/10000`) the
libstdc++ container iterates the map as `3:3, 2:2, 1:1, 0:3`, so `erase(begin())` removes the
entry of the largest knot, and `prev(end())` is then taken of a forward-only iterator: the
behaviour is undefined, and `{1:1, 2:2}` is not returned.  On every container with forward-only
iterators the function meets this undefined step for every non-empty knot vector; with
bidirectional iterators and at least two entries it returns the map without the first and the
last entry in iteration order, whichever knots these hold. -/
theorem C9_internal_map_iteration_order (C : Container) (eps : ℚ) (heps : 0 < eps) :
    GetKnotMultiplicityMap Container.libstdcxx (1/10000) [0, 0, 0, 1, 2, 2, 3, 3, 3] =
      [(3, 3), (2, 2), (1, 1), (0, 3)] ∧
    GetInternalKnotMultiplicityMap Container.libstdcxx (1/10000) [0, 0, 0, 1, 2, 2, 3, 3, 3] =
      Except.error Fault.undefinedBehaviour ∧
    (C.bidirectional = false → ∀ K : List ℚ, K ≠ [] →
      GetInternalKnotMultiplicityMap C eps K = Except.error Fault.undefinedBehaviour) ∧
    (C.bidirectional = true → ∀ K : List ℚ, 2 ≤ (GetKnotMultiplicityMap C eps K).length →
      GetInternalKnotMultiplicityMap C eps K =
        Except.ok (GetKnotMultiplicityMap C eps K).tail.dropLast) := by
  refine ⟨map_scenario_libstdcxx, ?_, ?_, fun hC K h2 => internal_of_two_keys C eps K hC h2⟩
  · apply internal_forward_only _ _ _ rfl
    rw [map_scenario_libstdcxx]
    exact List.cons_ne_nil _ _
  · intro hC K hK
    apply internal_forward_only C eps K hC
    intro h
    exact hK ((map_eq_nil_iff C heps K).1 h)

/-- C9, instance: the libstdc++ container, tolerance `1/10000`, the knot vector `[0, 1]`. -/
theorem C9_internal_map_iteration_order_witness :
    (0 : ℚ) < 1/10000 ∧ Container.libstdcxx.bidirectional = false ∧ ([0, 1] : List ℚ) ≠ [] ∧
    GetInternalKnotMultiplicityMap Container.libstdcxx (1/10000) [0, 1] =
      Except.error Fault.undefinedBehaviour :=
  ⟨by norm_num, rfl, List.cons_ne_nil _ _,
    (C9_internal_map_iteration_order Container.libstdcxx (1/10000) (by norm_num)).2.2.1 rfl
      [0, 1] (List.cons_ne_nil _ _)⟩

/-- C10 (evaluation of the code): on every container, `GetInternalKnotMultiplicityMap` returns
the empty map for the empty knot vector; for a knot vector with exactly two distinct knots it
returns the empty map when the iterators of the container are bidirectional, and meets the
undefined step `prev(end())` when they are forward-only; when the map has a single entry, as for
`[1, 1, 1]`, it erases that entry and then takes the predecessor of `end()` of the emptied map,
an undefined step on every container. -/
theorem C10_internal_map_small (C : Container) (eps : ℚ) (heps : 0 < eps) :
    GetInternalKnotMultiplicityMap C eps [] = Except.ok [] ∧
    (C.bidirectional = true → ∀ K : List ℚ, (GetKnotMultiplicityMap C eps K).length = 2 →
      GetInternalKnotMultiplicityMap C eps K = Except.ok []) ∧
    (C.bidirectional = false → ∀ K : List ℚ, (GetKnotMultiplicityMap C eps K).length = 2 →
      GetInternalKnotMultiplicityMap C eps K = Except.error Fault.undefinedBehaviour) ∧
    GetInternalKnotMultiplicityMap C eps [1, 1, 1] = Except.error Fault.undefinedBehaviour ∧
    (∀ K : List ℚ, (GetKnotMultiplicityMap C eps K).length = 1 →
      GetInternalKnotMultiplicityMap C eps K = Except.error Fault.undefinedBehaviour) := by
  have one : ∀ K : List ℚ, (GetKnotMultiplicityMap C eps K).length = 1 →
      GetInternalKnotMultiplicityMap C eps K = Except.error Fault.undefinedBehaviour := by
    intro K h1
    unfold GetInternalKnotMultiplicityMap
    generalize GetKnotMultiplicityMap C eps K = m at h1 ⊢
    match m, h1 with
    | [e0], _ => simp
  refine ⟨rfl, ?_, ?_, one _ (by rw [map_single C heps]; rfl), one⟩
  · intro hC K h2
    rw [internal_of_two_keys C eps K hC (le_of_eq h2.symm)]
    generalize GetKnotMultiplicityMap C eps K = m at h2 ⊢
    match m, h2 with
    | [e0, e1], _ => rfl
  · intro hC K h2
    apply internal_forward_only C eps K hC
    intro h
    rw [h] at h2
    simp at h2

/-- C10, instance: tolerance `1/10000` on the libstdc++ container. -/
theorem C10_internal_map_small_witness :
    (0 : ℚ) < 1/10000 ∧
    GetInternalKnotMultiplicityMap Container.libstdcxx (1/10000) [1, 1, 1] =
      Except.error Fault.undefinedBehaviour :=
  ⟨by norm_num, (C10_internal_map_small Container.libstdcxx (1/10000) (by norm_num)).2.2.2.1⟩

/-! ### The two-vector alignment -/

theorem insertStep0_eq (C : Container) (eps : ℚ) (map1 : KnotMap) (acc : List ℚ × List ℚ)
    (it : ℚ × Int) :
    insertStep0 C eps map1 acc it =
      (acc.1 ++ List.replicate (emit0 C eps map1 it) it.1,
        acc.2 ++ List.replicate (emit1 C eps map1 it) it.1) := by
  unfold insertStep0 emit0 emit1 emplaceTimes
  cases hf : KnotMap.find C eps map1 it.1 with
  | none => simp [hf]
  | some got =>
    by_cases h : it.2 > got.2
    · simp [hf, h]
    · simp [hf, h]

theorem insertStep1_eq (C : Container) (eps : ℚ) (map0 : KnotMap) (acc : List ℚ)
    (it : ℚ × Int) :
    insertStep1 C eps map0 acc it = acc ++ List.replicate (emit2 C eps map0 it) it.1 := by
  unfold insertStep1 emit2 emplaceTimes
  cases hf : KnotMap.find C eps map0 it.1 with
  | none => simp [hf]
  | some got => simp [hf]

theorem foldl_insertStep0_countP (C : Container) (eps : ℚ) (map1 : KnotMap) (p : ℚ → Bool)
    (m : KnotMap) :
    ∀ acc : List ℚ × List ℚ,
      ((m.foldl (insertStep0 C eps map1) acc).1.countP p =
        acc.1.countP p +
          (m.map (fun it => if p it.1 = true then emit0 C eps map1 it else 0)).sum) ∧
      ((m.foldl (insertStep0 C eps map1) acc).2.countP p =
        acc.2.countP p +
          (m.map (fun it => if p it.1 = true then emit1 C eps map1 it else 0)).sum) := by
  induction m with
  | nil => intro acc; simp
  | cons it m ih =>
    intro acc
    rw [List.foldl_cons]
    obtain ⟨h1, h2⟩ := ih (insertStep0 C eps map1 acc it)
    rw [h1, h2, insertStep0_eq]
    simp only [List.countP_append, List.countP_replicate, List.map_cons, List.sum_cons]
    constructor <;> ring

theorem foldl_insertStep1_countP (C : Container) (eps : ℚ) (map0 : KnotMap) (p : ℚ → Bool)
    (m : KnotMap) :
    ∀ acc : List ℚ,
      (m.foldl (insertStep1 C eps map0) acc).countP p =
        acc.countP p +
          (m.map (fun it => if p it.1 = true then emit2 C eps map0 it else 0)).sum := by
  induction m with
  | nil => intro acc; simp
  | cons it m ih =>
    intro acc
    rw [List.foldl_cons, ih, insertStep1_eq]
    simp only [List.countP_append, List.countP_replicate, List.map_cons, List.sum_cons]
    ring

theorem foldl_insertStep0_mem (C : Container) (eps : ℚ) (map1 : KnotMap) (x : ℚ)
    (m : KnotMap) :
    ∀ acc : List ℚ × List ℚ,
      (x ∈ (m.foldl (insertStep0 C eps map1) acc).1 → x ∈ acc.1 ∨ x ∈ KnotMap.keys m) ∧
      (x ∈ (m.foldl (insertStep0 C eps map1) acc).2 → x ∈ acc.2 ∨ x ∈ KnotMap.keys m) := by
  induction m with
  | nil => intro acc; exact ⟨Or.inl, Or.inl⟩
  | cons it m ih =>
    intro acc
    rw [List.foldl_cons]
    obtain ⟨h1, h2⟩ := ih (insertStep0 C eps map1 acc it)
    constructor
    · intro h
      have h4 := h1 h
      rw [insertStep0_eq] at h4
      simp only [KnotMap.keys, List.map_cons, List.mem_cons, List.mem_append] at h4 ⊢
      rcases h4 with (h3 | h3) | h3
      · exact Or.inl h3
      · exact Or.inr (Or.inl (List.eq_of_mem_replicate h3))
      · exact Or.inr (Or.inr h3)
    · intro h
      have h4 := h2 h
      rw [insertStep0_eq] at h4
      simp only [KnotMap.keys, List.map_cons, List.mem_cons, List.mem_append] at h4 ⊢
      rcases h4 with (h3 | h3) | h3
      · exact Or.inl h3
      · exact Or.inr (Or.inl (List.eq_of_mem_replicate h3))
      · exact Or.inr (Or.inr h3)

theorem foldl_insertStep1_mem (C : Container) (eps : ℚ) (map0 : KnotMap) (x : ℚ)
    (m : KnotMap) :
    ∀ acc : List ℚ,
      x ∈ m.foldl (insertStep1 C eps map0) acc → x ∈ acc ∨ x ∈ KnotMap.keys m := by
  induction m with
  | nil => intro acc; exact Or.inl
  | cons it m ih =>
    intro acc h
    rw [List.foldl_cons] at h
    have h1 := ih _ h
    rw [insertStep1_eq] at h1
    simp only [KnotMap.keys, List.map_cons, List.mem_cons, List.mem_append] at h1 ⊢
    rcases h1 with (h3 | h3) | h3
    · exact Or.inl h3
    · exact Or.inr (Or.inl (List.eq_of_mem_replicate h3))
    · exact Or.inr (Or.inr h3)

/-- A key of the multiplicity map is a knot of the vector. -/
theorem map_keys_subset (C : Container) {eps : ℚ} (heps : 0 < eps) (K : List ℚ) :
    ∀ y ∈ KnotMap.keys (GetKnotMultiplicityMap C eps K), y ∈ K := by
  intro y hy
  unfold KnotMap.keys at hy
  rw [List.mem_map] at hy
  obtain ⟨e, he, hey⟩ := hy
  rw [← hey]
  exact (map_mem C heps K e he).1

/-- Every knot in an output list of the two-vector `GetInsertedKnotElement` was there initially
or is a knot of one of the two input vectors. -/
theorem inserted_subset (C : Container) {eps : ℚ} (heps : 0 < eps)
    (K0 K1 init0 init1 : List ℚ) (x : ℚ) :
    (x ∈ (GetInsertedKnotElement2 C eps K0 K1 init0 init1).1 → x ∈ init0 ∨ x ∈ K0 ∨ x ∈ K1) ∧
    (x ∈ (GetInsertedKnotElement2 C eps K0 K1 init0 init1).2 → x ∈ init1 ∨ x ∈ K0) := by
  have hk0 := map_keys_subset C heps K0
  have hk1 := map_keys_subset C heps K1
  obtain ⟨a1, a2⟩ := foldl_insertStep0_mem C eps (GetKnotMultiplicityMap C eps K1) x
    (GetKnotMultiplicityMap C eps K0) (init0, init1)
  unfold GetInsertedKnotElement2 stdSort
  constructor
  · intro h
    have h2 := (List.perm_insertionSort _ _).subset h
    rcases foldl_insertStep1_mem C eps _ x _ _ h2 with h3 | h3
    · rcases a1 h3 with h4 | h4
      · exact Or.inl h4
      · exact Or.inr (Or.inl (hk0 x h4))
    · exact Or.inr (Or.inr (hk1 x h3))
  · intro h
    have h2 := (List.perm_insertionSort _ _).subset h
    rcases a2 h2 with h4 | h4
    · exact Or.inl h4
    · exact Or.inr (hk0 x h4)

/-- A sum over the entries of a map with distinct keys that picks out the entry with key `v`. -/
theorem sum_ite_key (m : KnotMap) (hm : (KnotMap.keys m).Nodup) (v : ℚ) (f : ℚ × Int → Nat)
    (V : Nat) (hf : ∀ it ∈ m, it.1 = v → f it = V) :
    (m.map (fun it => if (it.1 == v) = true then f it else 0)).sum =
      if v ∈ KnotMap.keys m then V else 0 := by
  rw [sum_ite_const (fun it : ℚ × Int => it.1 == v) f V m
    (fun it hit h => hf it hit (by simpa using h))]
  have hc : m.countP (fun it : ℚ × Int => it.1 == v) = (KnotMap.keys m).count v := by
    unfold KnotMap.keys List.count
    rw [List.countP_map]
    rfl
  rw [hc]
  split_ifs with h
  · rw [List.count_eq_one_of_mem hm h, Nat.mul_one]
  · rw [List.count_eq_zero_of_not_mem h, Nat.mul_zero]

/-- Where no lookup matches two different knots, the keys of the multiplicity map of `K` are the
knots of `K`. -/
theorem mem_keys_iff_exact (C : Container) {eps : ℚ} (heps : 0 < eps) {E K : List ℚ}
    (hKE : K ⊆ E) (hex : ExactLookup C eps E) (v : ℚ) :
    v ∈ KnotMap.keys (GetKnotMultiplicityMap C eps K) ↔ v ∈ K := by
  constructor
  · exact map_keys_subset C heps K v
  · intro hv
    unfold KnotMap.keys
    rw [List.mem_map]
    exact ⟨_, map_key_mem_exact C heps hKE hex hv, rfl⟩

/-- Where no lookup matches two different knots of `K0` and `K1`, the number of copies of a
knot `v` in each output list of the two-vector `GetInsertedKnotElement`, called with empty
lists, in terms of the multiplicities of `v`. -/
theorem inserted_count_key (C : Container) {eps : ℚ} (heps : 0 < eps) (E K0 K1 : List ℚ)
    (h0 : K0 ⊆ E) (h1 : K1 ⊆ E) (hex : ExactLookup C eps E) (v : ℚ) (hv : v ∈ E) :
    (GetInsertedKnotElement2 C eps K0 K1 [] []).1.count v =
        (if v ∈ K0 then
          (if v ∈ K1 then (GetKnotMultiplicity eps K1 v - GetKnotMultiplicity eps K0 v).toNat
            else 0)
          else 0) +
        (if v ∈ K1 then (if v ∈ K0 then 0 else (GetKnotMultiplicity eps K1 v).toNat)
          else 0) ∧
    (GetInsertedKnotElement2 C eps K0 K1 [] []).2.count v =
        if v ∈ K0 then
          (if v ∈ K1 then (GetKnotMultiplicity eps K0 v - GetKnotMultiplicity eps K1 v).toNat
            else (GetKnotMultiplicity eps K0 v).toNat)
        else 0 := by
  have e0 : ∀ it ∈ GetKnotMultiplicityMap C eps K0, it.1 = v →
      emit0 C eps (GetKnotMultiplicityMap C eps K1) it =
        if v ∈ K1 then (GetKnotMultiplicity eps K1 v - GetKnotMultiplicity eps K0 v).toNat
        else 0 := by
    intro it hit hitv
    have h2 := (map_mem C heps K0 it hit).2
    unfold emit0
    rw [hitv] at h2 ⊢
    rw [find_map_exact C heps h1 hex hv, h2]
    by_cases ha : v ∈ K1
    · simp only [ha, if_true]
      by_cases hb : GetKnotMultiplicity eps K0 v > GetKnotMultiplicity eps K1 v
      · rw [if_pos hb]
        exact (Int.toNat_eq_zero.2 (by omega)).symm
      · rw [if_neg hb]
    · simp only [ha, if_false]
  have e1 : ∀ it ∈ GetKnotMultiplicityMap C eps K0, it.1 = v →
      emit1 C eps (GetKnotMultiplicityMap C eps K1) it =
        if v ∈ K1 then (GetKnotMultiplicity eps K0 v - GetKnotMultiplicity eps K1 v).toNat
        else (GetKnotMultiplicity eps K0 v).toNat := by
    intro it hit hitv
    have h2 := (map_mem C heps K0 it hit).2
    unfold emit1
    rw [hitv] at h2 ⊢
    rw [find_map_exact C heps h1 hex hv, h2]
    by_cases ha : v ∈ K1
    · simp only [ha, if_true]
      by_cases hb : GetKnotMultiplicity eps K0 v > GetKnotMultiplicity eps K1 v
      · rw [if_pos hb]
      · rw [if_neg hb]
        exact (Int.toNat_eq_zero.2 (by omega)).symm
    · simp only [ha, if_false]
  have e2 : ∀ it ∈ GetKnotMultiplicityMap C eps K1, it.1 = v →
      emit2 C eps (GetKnotMultiplicityMap C eps K0) it =
        if v ∈ K0 then 0 else (GetKnotMultiplicity eps K1 v).toNat := by
    intro it hit hitv
    have h2 := (map_mem C heps K1 it hit).2
    unfold emit2
    rw [hitv] at h2 ⊢
    rw [find_map_exact C heps h0 hex hv, h2]
    by_cases ha : v ∈ K0
    · simp only [ha, if_true]
    · simp only [ha, if_false]
  obtain ⟨c1, c2⟩ := foldl_insertStep0_countP C eps (GetKnotMultiplicityMap C eps K1)
    (fun x => x == v) (GetKnotMultiplicityMap C eps K0) ([], [])
  have c3 := foldl_insertStep1_countP C eps (GetKnotMultiplicityMap C eps K0)
    (fun x => x == v) (GetKnotMultiplicityMap C eps K1)
    ((GetKnotMultiplicityMap C eps K0).foldl
      (insertStep0 C eps (GetKnotMultiplicityMap C eps K1)) ([], [])).1
  unfold GetInsertedKnotElement2 stdSort
  simp only
  rw [(List.perm_insertionSort _ _).count_eq, (List.perm_insertionSort _ _).count_eq]
  unfold List.count
  rw [c3, c1, c2]
  rw [sum_ite_key _ (map_keys_nodup C heps K0) v _ _ e0,
    sum_ite_key _ (map_keys_nodup C heps K0) v _ _ e1,
    sum_ite_key _ (map_keys_nodup C heps K1) v _ _ e2]
  simp only [mem_keys_iff_exact C heps h0 hex, mem_keys_iff_exact C heps h1 hex,
    List.countP_nil, Nat.zero_add]
  exact ⟨trivial, trivial⟩

/-- Where the tolerance comparison is exact on the knots of `K0` and `K1`, the number of copies
of a value in each output list of the two-vector `GetInsertedKnotElement`, called with empty
lists, is the deficit of occurrences in the corresponding input vector. -/
theorem inserted_count (C : Container) {eps : ℚ} (heps : 0 < eps) (K0 K1 : List ℚ)
    (hex : ToleranceExact eps (K0 ++ K1)) (k : ℚ) :
    (((GetInsertedKnotElement2 C eps K0 K1 [] []).1.count k : Nat) : Int) =
        max 0 ((K1.count k : Int) - (K0.count k : Int)) ∧
    (((GetInsertedKnotElement2 C eps K0 K1 [] []).2.count k : Nat) : Int) =
        max 0 ((K0.count k : Int) - (K1.count k : Int)) := by
  have h0 : K0 ⊆ K0 ++ K1 := List.subset_append_left K0 K1
  have h1 : K1 ⊆ K0 ++ K1 := List.subset_append_right K0 K1
  by_cases hk : k ∈ K0 ++ K1
  · obtain ⟨m0, m1⟩ := inserted_count_key C heps (K0 ++ K1) K0 K1 h0 h1
      (exactLookup_of_exact C hex) k hk
    rw [m0, m1, ← count_eq_multiplicity heps _ _ h0 hex k hk,
      ← count_eq_multiplicity heps _ _ h1 hex k hk]
    have p0 : k ∈ K0 ↔ 0 < K0.count k := List.count_pos_iff.symm
    have p1 : k ∈ K1 ↔ 0 < K1.count k := List.count_pos_iff.symm
    have t1 := Int.toNat_eq_max ((K1.count k : Int) - (K0.count k : Int))
    have t2 := Int.toNat_eq_max ((K0.count k : Int) - (K1.count k : Int))
    have t3 := Int.toNat_eq_max ((K0.count k : Int))
    have t4 := Int.toNat_eq_max ((K1.count k : Int))
    constructor
    · by_cases a0 : k ∈ K0 <;> by_cases a1 : k ∈ K1 <;> simp only [a0, a1, if_true, if_false] <;>
        rw [p0] at a0 <;> rw [p1] at a1 <;> push_cast <;> omega
    · by_cases a0 : k ∈ K0 <;> by_cases a1 : k ∈ K1 <;> simp only [a0, a1, if_true, if_false] <;>
        rw [p0] at a0 <;> rw [p1] at a1 <;> push_cast <;> omega
  · have hs0 : k ∉ (GetInsertedKnotElement2 C eps K0 K1 [] []).1 := by
      intro hx
      rcases (inserted_subset C heps K0 K1 [] [] k).1 hx with h2 | h2 | h2
      · simp at h2
      · exact hk (h0 h2)
      · exact hk (h1 h2)
    have hs1 : k ∉ (GetInsertedKnotElement2 C eps K0 K1 [] []).2 := by
      intro hx
      rcases (inserted_subset C heps K0 K1 [] [] k).2 hx with h2 | h2
      · simp at h2
      · exact hk (h0 h2)
    rw [List.count_eq_zero_of_not_mem hs0, List.count_eq_zero_of_not_mem hs1,
      List.count_eq_zero_of_not_mem (fun h => hk (h0 h)),
      List.count_eq_zero_of_not_mem (fun h => hk (h1 h))]
    simp

/-- C12: on every container, whatever the two output lists hold initially, both lists returned
by the two-vector `GetInsertedKnotElement` are in non-decreasing order, and each still holds its
initial entries. -/
theorem C12_outputs_sorted (C : Container) (eps : ℚ) (K0 K1 init0 init1 : List ℚ) :
    (GetInsertedKnotElement2 C eps K0 K1 init0 init1).1.Sorted (· ≤ ·) ∧
    (GetInsertedKnotElement2 C eps K0 K1 init0 init1).2.Sorted (· ≤ ·) ∧
    init0.Subperm (GetInsertedKnotElement2 C eps K0 K1 init0 init1).1 ∧
    init1.Subperm (GetInsertedKnotElement2 C eps K0 K1 init0 init1).2 := by
  have a0 : ∀ (m : KnotMap) (acc : List ℚ × List ℚ),
      acc.1.Sublist (m.foldl (insertStep0 C eps (GetKnotMultiplicityMap C eps K1)) acc).1 ∧
      acc.2.Sublist (m.foldl (insertStep0 C eps (GetKnotMultiplicityMap C eps K1)) acc).2 := by
    intro m
    induction m with
    | nil => intro acc; exact ⟨List.Sublist.refl _, List.Sublist.refl _⟩
    | cons it m ih =>
      intro acc
      rw [List.foldl_cons]
      obtain ⟨h1, h2⟩ := ih (insertStep0 C eps (GetKnotMultiplicityMap C eps K1) acc it)
      rw [insertStep0_eq] at h1 h2 ⊢
      exact ⟨(List.sublist_append_left _ _).trans h1, (List.sublist_append_left _ _).trans h2⟩
  have a1 : ∀ (m : KnotMap) (acc : List ℚ),
      acc.Sublist (m.foldl (insertStep1 C eps (GetKnotMultiplicityMap C eps K0)) acc) := by
    intro m
    induction m with
    | nil => intro acc; exact List.Sublist.refl _
    | cons it m ih =>
      intro acc
      rw [List.foldl_cons]
      have h1 := ih (insertStep1 C eps (GetKnotMultiplicityMap C eps K0) acc it)
      rw [insertStep1_eq] at h1 ⊢
      exact (List.sublist_append_left _ _).trans h1
  obtain ⟨b1, b2⟩ := a0 (GetKnotMultiplicityMap C eps K0) (init0, init1)
  unfold GetInsertedKnotElement2 stdSort
  refine ⟨List.sorted_insertionSort _ _, List.sorted_insertionSort _ _, ?_, ?_⟩
  · exact ((b1.trans (a1 _ _)).subperm).trans (List.perm_insertionSort _ _).symm.subperm
  · exact (b2.subperm).trans (List.perm_insertionSort _ _).symm.subperm

/-- C1 (as stated, refuted): with tolerance `1/10000`, `K0 = [0, 0.00006, 0.00012]` and
`K1 = [1]`.  On the libstdc++ container the call returns `insert0 = [1]` and
`insert1 = [0, 0, 0.00006, 0.00006, 0.00006, 0.00012, 0.00012]`; after merging, the knot `0` has
multiplicity `2` in the first vector and `5` in the second, and the two multiplicity maps
differ.  On a linear-scan map the call returns `insert1 = [0, 0, 0.00012, 0.00012]`; after
merging, the knot `0.00006` has multiplicity `3` in the first vector and `4` in the second.
With `K0 = [0, 0.00001]` and `K1 = [0]` the libstdc++ container returns `insert0 = []` and
`insert1 = [0, 0.00001, 0.00001]`; after merging, the knot `0` has multiplicity `2` in the first
vector and `4` in the second. -/
theorem C1_alignment_counterexample :
    GetInsertedKnotElement2 Container.libstdcxx (1/10000) [0, 3/50000, 3/25000] [1] [] [] =
      ([1], [0, 0, 3/50000, 3/50000, 3/50000, 3/25000, 3/25000]) ∧
    GetKnotMultiplicity (1/10000) (mergeKnots [0, 3/50000, 3/25000] [1]) 0 = 2 ∧
    GetKnotMultiplicity (1/10000)
      (mergeKnots [1] [0, 0, 3/50000, 3/50000, 3/50000, 3/25000, 3/25000]) 0 = 5 ∧
    GetKnotMultiplicityMap Container.libstdcxx (1/10000)
        (mergeKnots [0, 3/50000, 3/25000] [1]) =
      [(1, 1), (3/25000, 2), (3/50000, 3), (0, 2)] ∧
    GetKnotMultiplicityMap Container.libstdcxx (1/10000)
        (mergeKnots [1] [0, 0, 3/50000, 3/50000, 3/50000, 3/25000, 3/25000]) =
      [(1, 1), (3/25000, 5), (3/50000, 7), (0, 5)] ∧
    GetInsertedKnotElement2 Container.linearScan (1/10000) [0, 3/50000, 3/25000] [1] [] [] =
      ([1], [0, 0, 3/25000, 3/25000]) ∧
    GetKnotMultiplicity (1/10000) (mergeKnots [0, 3/50000, 3/25000] [1]) (3/50000) = 3 ∧
    GetKnotMultiplicity (1/10000) (mergeKnots [1] [0, 0, 3/25000, 3/25000]) (3/50000) = 4 ∧
    GetInsertedKnotElement2 Container.libstdcxx (1/10000) [0, 1/100000] [0] [] [] =
      ([], [0, 1/100000, 1/100000]) ∧
    GetKnotMultiplicity (1/10000) (mergeKnots [0, 1/100000] []) 0 = 2 ∧
    GetKnotMultiplicity (1/10000) (mergeKnots [0] [0, 1/100000, 1/100000]) 0 = 4 := by
  refine ⟨?_, ?_, ?_, ?_, ?_, ?_, ?_, ?_, ?_, ?_, ?_⟩
  · norm_num [GetInsertedKnotElement2, insertStep0, insertStep1, emplaceTimes, stdSort,
      GetKnotMultiplicityMap, multiplicityMapStep, KnotMap.find, KnotMap.insert,
      Container.libstdcxx, Container.chained, Container.libstdcxxBucket, chainInsert,
      CustomDoubleEqual, GetKnotMultiplicity, List.countP_cons, IsAlmostEqualTo, abs_lt,
      List.filter, List.find?]
  · norm_num [mergeKnots, stdSort, GetKnotMultiplicity, List.countP_cons, IsAlmostEqualTo,
      abs_lt]
  · norm_num [mergeKnots, stdSort, GetKnotMultiplicity, List.countP_cons, IsAlmostEqualTo,
      abs_lt]
  · norm_num [mergeKnots, stdSort, GetKnotMultiplicityMap, multiplicityMapStep, KnotMap.find,
      KnotMap.insert, Container.libstdcxx, Container.chained, Container.libstdcxxBucket,
      chainInsert, CustomDoubleEqual, GetKnotMultiplicity, List.countP_cons, IsAlmostEqualTo,
      abs_lt, List.filter, List.find?]
  · norm_num [mergeKnots, stdSort, GetKnotMultiplicityMap, multiplicityMapStep, KnotMap.find,
      KnotMap.insert, Container.libstdcxx, Container.chained, Container.libstdcxxBucket,
      chainInsert, CustomDoubleEqual, GetKnotMultiplicity, List.countP_cons, IsAlmostEqualTo,
      abs_lt, List.filter, List.find?]
  · norm_num [GetInsertedKnotElement2, insertStep0, insertStep1, emplaceTimes, stdSort,
      GetKnotMultiplicityMap, multiplicityMapStep, KnotMap.find, KnotMap.insert,
      Container.linearScan, CustomDoubleEqual, GetKnotMultiplicity, List.countP_cons,
      IsAlmostEqualTo, abs_lt, List.filter, List.find?]
  · norm_num [mergeKnots, stdSort, GetKnotMultiplicity, List.countP_cons, IsAlmostEqualTo,
      abs_lt]
  · norm_num [mergeKnots, stdSort, GetKnotMultiplicity, List.countP_cons, IsAlmostEqualTo,
      abs_lt]
  · norm_num [GetInsertedKnotElement2, insertStep0, insertStep1, emplaceTimes, stdSort,
      GetKnotMultiplicityMap, multiplicityMapStep, KnotMap.find, KnotMap.insert,
      Container.libstdcxx, Container.chained, Container.libstdcxxBucket, chainInsert,
      CustomDoubleEqual, GetKnotMultiplicity, List.countP_cons, IsAlmostEqualTo, abs_lt,
      List.filter, List.find?]
  · norm_num [mergeKnots, stdSort, GetKnotMultiplicity, List.countP_cons, IsAlmostEqualTo,
      abs_lt]
  · norm_num [mergeKnots, stdSort, GetKnotMultiplicity, List.countP_cons, IsAlmostEqualTo,
      abs_lt]

/-- C1 (amended): on every container, for knot vectors `K0`, `K1` whose knots are equal under
the tolerance only when they are the same number, merging `insert0` into `K0` and `insert1` into
`K1` (both returned by the two-vector `GetInsertedKnotElement` called with empty output lists)
gives the same knot vector twice; hence every knot value has the same multiplicity in both, and
the two multiplicity maps are identical. -/
theorem C1_alignment_equalizes (C : Container) (eps : ℚ) (K0 K1 : List ℚ) (heps : 0 < eps)
    (hex : ToleranceExact eps (K0 ++ K1)) :
    mergeKnots K0 (GetInsertedKnotElement2 C eps K0 K1 [] []).1 =
      mergeKnots K1 (GetInsertedKnotElement2 C eps K0 K1 [] []).2 ∧
    (∀ k : ℚ,
      GetKnotMultiplicity eps (mergeKnots K0 (GetInsertedKnotElement2 C eps K0 K1 [] []).1) k =
        GetKnotMultiplicity eps
          (mergeKnots K1 (GetInsertedKnotElement2 C eps K0 K1 [] []).2) k) ∧
    GetKnotMultiplicityMap C eps (mergeKnots K0 (GetInsertedKnotElement2 C eps K0 K1 [] []).1) =
      GetKnotMultiplicityMap C eps
        (mergeKnots K1 (GetInsertedKnotElement2 C eps K0 K1 [] []).2) := by
  have hperm : (K0 ++ (GetInsertedKnotElement2 C eps K0 K1 [] []).1).Perm
      (K1 ++ (GetInsertedKnotElement2 C eps K0 K1 [] []).2) := by
    rw [List.perm_iff_count]
    intro v
    obtain ⟨c0, c1⟩ := inserted_count C heps K0 K1 hex v
    rw [List.count_append, List.count_append]
    omega
  have heq : mergeKnots K0 (GetInsertedKnotElement2 C eps K0 K1 [] []).1 =
      mergeKnots K1 (GetInsertedKnotElement2 C eps K0 K1 [] []).2 := by
    unfold mergeKnots stdSort
    exact List.eq_of_perm_of_sorted
      (((List.perm_insertionSort _ _).trans hperm).trans (List.perm_insertionSort _ _).symm)
      (List.sorted_insertionSort _ _) (List.sorted_insertionSort _ _)
  rw [heq]
  exact ⟨rfl, fun _ => rfl, rfl⟩

/-- C1 (amended), instance: `K0 = [0, 0, 1]`, `K1 = [0, 1, 1, 2]`, tolerance `1/10000`, on the
libstdc++ container. -/
theorem C1_alignment_equalizes_witness :
    (0 : ℚ) < 1/10000 ∧ ToleranceExact (1/10000) ([0, 0, 1] ++ [0, 1, 1, 2]) ∧
    GetKnotMultiplicityMap Container.libstdcxx (1/10000)
        (mergeKnots [0, 0, 1]
          (GetInsertedKnotElement2 Container.libstdcxx (1/10000) [0, 0, 1] [0, 1, 1, 2]
            [] []).1) =
      GetKnotMultiplicityMap Container.libstdcxx (1/10000)
        (mergeKnots [0, 1, 1, 2]
          (GetInsertedKnotElement2 Container.libstdcxx (1/10000) [0, 0, 1] [0, 1, 1, 2]
            [] []).2) :=
  ⟨by norm_num, toleranceExact_pair,
    (C1_alignment_equalizes Container.libstdcxx (1/10000) [0, 0, 1] [0, 1, 1, 2] (by norm_num)
      toleranceExact_pair).2.2⟩

/-- C11 (as stated, refuted): with tolerance `1/10000`, `K0 = [0, 0.00001]` and `K1 = [0]`.  The
knot `0.00001` has multiplicity `2` in `K0` and `1` in `K1` (one copy in `K0`, none in `K1`), so
`insert1` should hold it once.  On the libstdc++ container `insert1` is
`[0, 0.00001, 0.00001]` and holds it twice; on a linear-scan map `insert1` is `[0]` and does not
hold it. -/
theorem C11_deficit_counterexample :
    GetInsertedKnotElement2 Container.libstdcxx (1/10000) [0, 1/100000] [0] [] [] =
      ([], [0, 1/100000, 1/100000]) ∧
    GetInsertedKnotElement2 Container.linearScan (1/10000) [0, 1/100000] [0] [] [] =
      ([], [0]) ∧
    GetKnotMultiplicity (1/10000) [0, 1/100000] (1/100000) = 2 ∧
    GetKnotMultiplicity (1/10000) [0] (1/100000) = 1 ∧
    ([0, 1/100000] : List ℚ).count (1/100000) = 1 ∧ ([0] : List ℚ).count (1/100000) = 0 ∧
    ([0, 1/100000, 1/100000] : List ℚ).count (1/100000) = 2 ∧
    ([0] : List ℚ).count (1/100000) = 0 := by
  refine ⟨?_, ?_, ?_, ?_, ?_, ?_, ?_, ?_⟩
  · norm_num [GetInsertedKnotElement2, insertStep0, insertStep1, emplaceTimes, stdSort,
      GetKnotMultiplicityMap, multiplicityMapStep, KnotMap.find, KnotMap.insert,
      Container.libstdcxx, Container.chained, Container.libstdcxxBucket, chainInsert,
      CustomDoubleEqual, GetKnotMultiplicity, List.countP_cons, IsAlmostEqualTo, abs_lt,
      List.filter, List.find?]
  · norm_num [GetInsertedKnotElement2, insertStep0, insertStep1, emplaceTimes, stdSort,
      GetKnotMultiplicityMap, multiplicityMapStep, KnotMap.find, KnotMap.insert,
      Container.linearScan, CustomDoubleEqual, GetKnotMultiplicity, List.countP_cons,
      IsAlmostEqualTo, abs_lt, List.filter, List.find?]
  · norm_num [GetKnotMultiplicity, List.countP_cons, IsAlmostEqualTo, abs_lt]
  · norm_num [GetKnotMultiplicity, List.countP_cons, IsAlmostEqualTo, abs_lt]
  · norm_num [List.count_cons]
  · norm_num [List.count_cons]
  · norm_num [List.count_cons]
  · norm_num [List.count_cons]

/-- C11 (amended): on every container, the two-vector `GetInsertedKnotElement` is called with
empty output lists on knot vectors `K0`, `K1` whose knots are equal under the tolerance only when
they are the same number.  Then for every value `k` the number of copies of `k` is
`max(0, m1(k) - m0(k))` in `insert0` and `max(0, m0(k) - m1(k))` in `insert1`, with `mi(k)` the
number of copies of `k` in `Ki`; hence a knot of only one vector is inserted into the other with
its full multiplicity, no value is in both lists, and `insert0` holds only knots of `K1`,
`insert1` only knots of `K0`. -/
theorem C11_deficit_counts (C : Container) (eps : ℚ) (K0 K1 : List ℚ) (heps : 0 < eps)
    (hex : ToleranceExact eps (K0 ++ K1)) (k : ℚ) :
    (((GetInsertedKnotElement2 C eps K0 K1 [] []).1.count k : Nat) : Int) =
        max 0 ((K1.count k : Int) - (K0.count k : Int)) ∧
    (((GetInsertedKnotElement2 C eps K0 K1 [] []).2.count k : Nat) : Int) =
        max 0 ((K0.count k : Int) - (K1.count k : Int)) ∧
    (K0.count k = 0 → (GetInsertedKnotElement2 C eps K0 K1 [] []).1.count k = K1.count k) ∧
    (K1.count k = 0 → (GetInsertedKnotElement2 C eps K0 K1 [] []).2.count k = K0.count k) ∧
    ¬ (k ∈ (GetInsertedKnotElement2 C eps K0 K1 [] []).1 ∧
        k ∈ (GetInsertedKnotElement2 C eps K0 K1 [] []).2) ∧
    (k ∈ (GetInsertedKnotElement2 C eps K0 K1 [] []).1 → k ∈ K1) ∧
    (k ∈ (GetInsertedKnotElement2 C eps K0 K1 [] []).2 → k ∈ K0) := by
  obtain ⟨c0, c1⟩ := inserted_count C heps K0 K1 hex k
  refine ⟨c0, c1, ?_, ?_, ?_, ?_, ?_⟩
  · intro h; rw [h] at c0; omega
  · intro h; rw [h] at c1; omega
  · rintro ⟨h0, h1⟩
    have p0 := List.count_pos_iff.mpr h0
    have p1 := List.count_pos_iff.mpr h1
    omega
  · intro h0
    have p0 := List.count_pos_iff.mpr h0
    apply List.count_pos_iff.mp
    omega
  · intro h1
    have p1 := List.count_pos_iff.mpr h1
    apply List.count_pos_iff.mp
    omega

/-- C11 (amended), instance: `K0 = [0, 0, 1]`, `K1 = [0, 1, 1, 2]`, the knot `2`, on the
libstdc++ container. -/
theorem C11_deficit_counts_witness :
    (0 : ℚ) < 1/10000 ∧ ToleranceExact (1/10000) ([0, 0, 1] ++ [0, 1, 1, 2]) ∧
    (((GetInsertedKnotElement2 Container.libstdcxx (1/10000) [0, 0, 1] [0, 1, 1, 2]
      [] []).1.count 2 : Nat) : Int) =
      max 0 ((([0, 1, 1, 2] : List ℚ).count 2 : Int) - (([0, 0, 1] : List ℚ).count 2 : Int)) :=
  ⟨by norm_num, toleranceExact_pair,
    (C11_deficit_counts Container.libstdcxx (1/10000) [0, 0, 1] [0, 1, 1, 2] (by norm_num)
      toleranceExact_pair 2).1⟩

/-! ### Symmetry of the two-vector alignment -/

/-- On a container whose lookups compare a key with the entries picked by a symmetric relation
`sb` between keys, whatever the map holds: two keys of the multiplicity map that are compared
with each other are different under the tolerance. -/
theorem map_pairwise_stable (C : Container) (eps : ℚ) (sb : ℚ → ℚ → Bool)
    (hsym : ∀ a b, sb a b = sb b a)
    (hb : ∀ (m : KnotMap) (key : ℚ), C.bucket m key = m.filter (fun e => sb e.1 key))
    (K : List ℚ) :
    (GetKnotMultiplicityMap C eps K).Pairwise
      (fun a b => sb a.1 b.1 = true → IsAlmostEqualTo eps a.1 b.1 = false) := by
  have hR : Symmetric (fun a b : ℚ × Int =>
      sb a.1 b.1 = true → IsAlmostEqualTo eps a.1 b.1 = false) := by
    intro a b h hba
    rw [almostEqual_comm]
    exact h (by rw [hsym]; exact hba)
  have main : ∀ (L : List ℚ) (m : KnotMap),
      m.Pairwise (fun a b => sb a.1 b.1 = true → IsAlmostEqualTo eps a.1 b.1 = false) →
      (L.foldl (multiplicityMapStep C eps K) m).Pairwise
        (fun a b => sb a.1 b.1 = true → IsAlmostEqualTo eps a.1 b.1 = false) := by
    intro L
    induction L with
    | nil => intro m hm; exact hm
    | cons x L ih =>
      intro m hm
      rw [List.foldl_cons]
      apply ih
      cases hf : KnotMap.find C eps m x with
      | none =>
        rw [multiplicityMapStep_of_none hf]
        rw [(C.place_perm m (x, GetKnotMultiplicity eps K x)).pairwise_iff
          (fun {a b} h => hR h), List.pairwise_cons]
        refine ⟨?_, hm⟩
        intro e he hsb
        unfold KnotMap.find at hf
        rw [hb, List.find?_eq_none] at hf
        have h1 := hf e (List.mem_filter.2 ⟨he, by rw [hsym]; exact hsb⟩)
        unfold CustomDoubleEqual at h1
        rw [almostEqual_comm]
        simpa using h1
      | some got =>
        rw [multiplicityMapStep_of_some hf]
        exact hm
  exact main K [] List.Pairwise.nil

/-- On such a container the lookup of a key of the multiplicity map, in that map, finds the
entry of the key. -/
theorem find_self_stable (C : Container) {eps : ℚ} (heps : 0 < eps) (sb : ℚ → ℚ → Bool)
    (hsym : ∀ a b, sb a b = sb b a)
    (hb : ∀ (m : KnotMap) (key : ℚ), C.bucket m key = m.filter (fun e => sb e.1 key))
    (K : List ℚ) (it : ℚ × Int) (hit : it ∈ GetKnotMultiplicityMap C eps K) :
    KnotMap.find C eps (GetKnotMultiplicityMap C eps K) it.1 = some it := by
  have hpw := map_pairwise_stable C eps sb hsym hb K
  have hnd := map_keys_nodup C heps K
  have hR : Symmetric (fun a b : ℚ × Int =>
      sb a.1 b.1 = true → IsAlmostEqualTo eps a.1 b.1 = false) := by
    intro a b h hba
    rw [almostEqual_comm]
    exact h (by rw [hsym]; exact hba)
  cases hf : KnotMap.find C eps (GetKnotMultiplicityMap C eps K) it.1 with
  | none => exact absurd (List.mem_map.2 ⟨it, hit, rfl⟩) (find_none heps hf)
  | some got =>
    obtain ⟨hg, hnear⟩ := find_some hf
    have hgb : got ∈ C.bucket (GetKnotMultiplicityMap C eps K) it.1 := by
      unfold KnotMap.find at hf
      exact List.mem_of_find?_eq_some hf
    rw [hb, List.mem_filter] at hgb
    by_cases heq : got = it
    · rw [heq]
    · have h1 := hpw.forall hR hg hit heq hgb.2
      rw [hnear] at h1
      exact absurd h1 Bool.noConfusion

theorem foldl_insertStep0_id (C : Container) (eps : ℚ) (map1 : KnotMap) (m : KnotMap)
    (h0 : ∀ it ∈ m, emit0 C eps map1 it = 0) (h1 : ∀ it ∈ m, emit1 C eps map1 it = 0) :
    ∀ acc : List ℚ × List ℚ, m.foldl (insertStep0 C eps map1) acc = acc := by
  induction m with
  | nil => intro acc; rfl
  | cons it m ih =>
    intro acc
    rw [List.foldl_cons, insertStep0_eq, h0 it (List.mem_cons_self _ _),
      h1 it (List.mem_cons_self _ _)]
    simp only [List.replicate_zero, List.append_nil]
    exact ih (fun x hx => h0 x (List.mem_cons_of_mem _ hx))
      (fun x hx => h1 x (List.mem_cons_of_mem _ hx)) acc

theorem foldl_insertStep1_id (C : Container) (eps : ℚ) (map0 : KnotMap) (m : KnotMap)
    (h2 : ∀ it ∈ m, emit2 C eps map0 it = 0) :
    ∀ acc : List ℚ, m.foldl (insertStep1 C eps map0) acc = acc := by
  induction m with
  | nil => intro acc; rfl
  | cons it m ih =>
    intro acc
    rw [List.foldl_cons, insertStep1_eq, h2 it (List.mem_cons_self _ _)]
    simp only [List.replicate_zero, List.append_nil]
    exact ih (fun x hx => h2 x (List.mem_cons_of_mem _ hx)) acc

/-- On a container whose lookups compare a key with the entries picked by a symmetric relation
between keys, whatever the map holds, aligning a knot vector with itself inserts nothing. -/
theorem inserted_self (C : Container) {eps : ℚ} (heps : 0 < eps) (sb : ℚ → ℚ → Bool)
    (hsym : ∀ a b, sb a b = sb b a)
    (hb : ∀ (m : KnotMap) (key : ℚ), C.bucket m key = m.filter (fun e => sb e.1 key))
    (K : List ℚ) : GetInsertedKnotElement2 C eps K K [] [] = ([], []) := by
  have hfind := find_self_stable C heps sb hsym hb K
  have h0 : ∀ it ∈ GetKnotMultiplicityMap C eps K,
      emit0 C eps (GetKnotMultiplicityMap C eps K) it = 0 := by
    intro it hit
    unfold emit0
    rw [hfind it hit]
    simp
  have h1 : ∀ it ∈ GetKnotMultiplicityMap C eps K,
      emit1 C eps (GetKnotMultiplicityMap C eps K) it = 0 := by
    intro it hit
    unfold emit1
    rw [hfind it hit]
    simp
  have h2 : ∀ it ∈ GetKnotMultiplicityMap C eps K,
      emit2 C eps (GetKnotMultiplicityMap C eps K) it = 0 := by
    intro it hit
    unfold emit2
    rw [hfind it hit]
  unfold GetInsertedKnotElement2
  simp only
  rw [foldl_insertStep0_id C eps _ _ h0 h1, foldl_insertStep1_id C eps _ _ h2]
  rfl

/-- C24 (as stated, refuted): with tolerance `1/10000`, aligning `[0]` with
`[2^-16, 2^-16]` returns `([0], [])`, while aligning `[2^-16, 2^-16]` with `[0]` returns
`([], [2^-16])`, not `([], [0])`: on the libstdc++ container, where `0` and `2^-16` share a
bucket and are compared, and on a linear-scan map. -/
theorem C24_swap_counterexample :
    GetInsertedKnotElement2 Container.libstdcxx (1/10000) [0] [1/65536, 1/65536] [] [] =
      ([0], []) ∧
    GetInsertedKnotElement2 Container.libstdcxx (1/10000) [1/65536, 1/65536] [0] [] [] =
      ([], [1/65536]) ∧
    GetInsertedKnotElement2 Container.linearScan (1/10000) [0] [1/65536, 1/65536] [] [] =
      ([0], []) ∧
    GetInsertedKnotElement2 Container.linearScan (1/10000) [1/65536, 1/65536] [0] [] [] =
      ([], [1/65536]) := by
  refine ⟨?_, ?_, ?_, ?_⟩
  · norm_num [GetInsertedKnotElement2, insertStep0, insertStep1, emplaceTimes, stdSort,
      GetKnotMultiplicityMap, multiplicityMapStep, KnotMap.find, KnotMap.insert,
      Container.libstdcxx, Container.chained, Container.libstdcxxBucket, chainInsert,
      CustomDoubleEqual, GetKnotMultiplicity, List.countP_cons, IsAlmostEqualTo, abs_lt,
      List.filter, List.find?]
  · norm_num [GetInsertedKnotElement2, insertStep0, insertStep1, emplaceTimes, stdSort,
      GetKnotMultiplicityMap, multiplicityMapStep, KnotMap.find, KnotMap.insert,
      Container.libstdcxx, Container.chained, Container.libstdcxxBucket, chainInsert,
      CustomDoubleEqual, GetKnotMultiplicity, List.countP_cons, IsAlmostEqualTo, abs_lt,
      List.filter, List.find?]
  · norm_num [GetInsertedKnotElement2, insertStep0, insertStep1, emplaceTimes, stdSort,
      GetKnotMultiplicityMap, multiplicityMapStep, KnotMap.find, KnotMap.insert,
      Container.linearScan, CustomDoubleEqual, GetKnotMultiplicity, List.countP_cons,
      IsAlmostEqualTo, abs_lt, List.filter, List.find?]
  · norm_num [GetInsertedKnotElement2, insertStep0, insertStep1, emplaceTimes, stdSort,
      GetKnotMultiplicityMap, multiplicityMapStep, KnotMap.find, KnotMap.insert,
      Container.linearScan, CustomDoubleEqual, GetKnotMultiplicity, List.countP_cons,
      IsAlmostEqualTo, abs_lt, List.filter, List.find?]

/-- Where no lookup matches two different knots of `K0` and `K1`, swapping the arguments of the
two-vector `GetInsertedKnotElement` swaps the number of copies of every value in the two output
lists. -/
theorem inserted_count_swap (C : Container) {eps : ℚ} (heps : 0 < eps) (K0 K1 : List ℚ)
    (hlook : ExactLookup C eps (K0 ++ K1)) (v : ℚ) :
    (GetInsertedKnotElement2 C eps K1 K0 [] []).1.count v =
        (GetInsertedKnotElement2 C eps K0 K1 [] []).2.count v ∧
    (GetInsertedKnotElement2 C eps K1 K0 [] []).2.count v =
        (GetInsertedKnotElement2 C eps K0 K1 [] []).1.count v := by
  have h0 : K0 ⊆ K0 ++ K1 := List.subset_append_left K0 K1
  have h1 : K1 ⊆ K0 ++ K1 := List.subset_append_right K0 K1
  by_cases hv : v ∈ K0 ++ K1
  · obtain ⟨a0, a1⟩ := inserted_count_key C heps (K0 ++ K1) K0 K1 h0 h1 hlook v hv
    obtain ⟨b0, b1⟩ := inserted_count_key C heps (K0 ++ K1) K1 K0 h1 h0 hlook v hv
    rw [a0, a1, b0, b1]
    by_cases p0 : v ∈ K0 <;> by_cases p1 : v ∈ K1 <;>
      simp only [p0, p1, if_true, if_false, Nat.add_zero, Nat.zero_add] <;>
      exact ⟨trivial, trivial⟩
  · have z : ∀ A B : List ℚ, A ⊆ K0 ++ K1 → B ⊆ K0 ++ K1 →
        (GetInsertedKnotElement2 C eps A B [] []).1.count v = 0 ∧
        (GetInsertedKnotElement2 C eps A B [] []).2.count v = 0 := by
      intro A B hA hB
      constructor
      · apply List.count_eq_zero_of_not_mem
        intro hx
        rcases (inserted_subset C heps A B [] [] v).1 hx with h2 | h2 | h2
        · simp at h2
        · exact hv (hA h2)
        · exact hv (hB h2)
      · apply List.count_eq_zero_of_not_mem
        intro hx
        rcases (inserted_subset C heps A B [] [] v).2 hx with h2 | h2
        · simp at h2
        · exact hv (hA h2)
    rw [(z K1 K0 h1 h0).1, (z K1 K0 h1 h0).2, (z K0 K1 h0 h1).1, (z K0 K1 h0 h1).2]
    exact ⟨rfl, rfl⟩

/-- C24 (amended): whenever no lookup of the hash map matches two different knots of `K0` and
`K1` (on every container when no two different knots are within the tolerance of each other; on a
given container also when such knots are never compared), if the two-vector
`GetInsertedKnotElement` on `(K0, K1)` with empty output lists yields `(insert0, insert1)`, then
on `(K1, K0)` it yields `(insert1, insert0)`, and aligning such a knot vector with itself yields
two empty lists.  On a container whose lookups compare a key with the entries picked by a
symmetric relation between keys, whatever the map holds (a hash table with a fixed number of
buckets, a linear-scan map), aligning any knot vector with itself yields two empty lists. -/
theorem C24_swap_symmetry (C : Container) (eps : ℚ) (heps : 0 < eps) :
    (∀ K0 K1 : List ℚ, ToleranceExact eps (K0 ++ K1) ∨ ExactLookup C eps (K0 ++ K1) →
      GetInsertedKnotElement2 C eps K1 K0 [] [] =
        ((GetInsertedKnotElement2 C eps K0 K1 [] []).2,
          (GetInsertedKnotElement2 C eps K0 K1 [] []).1)) ∧
    (∀ K : List ℚ, ToleranceExact eps K ∨ ExactLookup C eps K →
      GetInsertedKnotElement2 C eps K K [] [] = ([], [])) ∧
    (∀ sb : ℚ → ℚ → Bool, (∀ a b, sb a b = sb b a) →
      (∀ (m : KnotMap) (key : ℚ), C.bucket m key = m.filter (fun e => sb e.1 key)) →
      ∀ K : List ℚ, GetInsertedKnotElement2 C eps K K [] [] = ([], [])) := by
  refine ⟨?_, ?_, fun sb hsym hb K => inserted_self C heps sb hsym hb K⟩
  · intro K0 K1 h
    have hlook : ExactLookup C eps (K0 ++ K1) := by
      rcases h with hex | hl
      · exact exactLookup_of_exact C hex
      · exact hl
    have hcount := inserted_count_swap C heps K0 K1 hlook
    have s : ∀ A B : List ℚ, (GetInsertedKnotElement2 C eps A B [] []).1.Sorted (· ≤ ·) ∧
        (GetInsertedKnotElement2 C eps A B [] []).2.Sorted (· ≤ ·) :=
      fun A B => ⟨List.sorted_insertionSort _ _, List.sorted_insertionSort _ _⟩
    have e1 : (GetInsertedKnotElement2 C eps K1 K0 [] []).1 =
        (GetInsertedKnotElement2 C eps K0 K1 [] []).2 :=
      List.eq_of_perm_of_sorted (List.perm_iff_count.mpr (fun v => (hcount v).1))
        (s K1 K0).1 (s K0 K1).2
    have e2 : (GetInsertedKnotElement2 C eps K1 K0 [] []).2 =
        (GetInsertedKnotElement2 C eps K0 K1 [] []).1 :=
      List.eq_of_perm_of_sorted (List.perm_iff_count.mpr (fun v => (hcount v).2))
        (s K1 K0).2 (s K0 K1).1
    exact Prod.ext e1 e2
  · intro K h
    have hlook : ExactLookup C eps K := by
      rcases h with hex | hl
      · exact exactLookup_of_exact C hex
      · exact hl
    have hz : ∀ v : ℚ, v ∉ (GetInsertedKnotElement2 C eps K K [] []).1 ∧
        v ∉ (GetInsertedKnotElement2 C eps K K [] []).2 := by
      intro v
      by_cases hv : v ∈ K
      · obtain ⟨a0, a1⟩ := inserted_count_key C heps K K K (List.Subset.refl K)
          (List.Subset.refl K) hlook v hv
        simp only [hv, if_true, sub_self, Int.toNat_zero, Nat.add_zero] at a0 a1
        exact ⟨fun h => absurd (List.count_pos_iff.mpr h) (by omega),
          fun h => absurd (List.count_pos_iff.mpr h) (by omega)⟩
      · constructor
        · intro hx
          rcases (inserted_subset C heps K K [] [] v).1 hx with h2 | h2 | h2
          · simp at h2
          · exact hv h2
          · exact hv h2
        · intro hx
          rcases (inserted_subset C heps K K [] [] v).2 hx with h2 | h2
          · simp at h2
          · exact hv h2
    apply Prod.ext
    · rw [List.eq_nil_iff_forall_not_mem]
      exact fun v => (hz v).1
    · rw [List.eq_nil_iff_forall_not_mem]
      exact fun v => (hz v).2

/-- On the libstdc++ container no lookup matches two different knots among `0`, `0.00006` and
`0.00012`: the three numbers lie in different buckets. -/
theorem exactLookup_example :
    ExactLookup Container.libstdcxx (1/10000) ([0, 3/25000] ++ [3/50000, 3/50000]) := by
  apply exactLookup_chained
  intro a ha b hb
  simp only [List.cons_append, List.nil_append, List.mem_cons, List.mem_singleton,
    List.not_mem_nil, or_false] at ha hb
  rcases ha with rfl | rfl | rfl | rfl <;> rcases hb with rfl | rfl | rfl | rfl <;>
    norm_num [IsAlmostEqualTo, abs_lt, Container.libstdcxxBucket]

/-- C24 (amended), instance: on the libstdc++ container with tolerance `1/10000`, the swap for
`K0 = [0, 0.00012]`, `K1 = [0.00006, 0.00006]`, whose knots lie in different buckets, and the
alignment of `[0, 0.00001]` with itself. -/
theorem C24_swap_symmetry_witness :
    (0 : ℚ) < 1/10000 ∧
    ExactLookup Container.libstdcxx (1/10000) ([0, 3/25000] ++ [3/50000, 3/50000]) ∧
    GetInsertedKnotElement2 Container.libstdcxx (1/10000) [3/50000, 3/50000] [0, 3/25000]
        [] [] =
      ((GetInsertedKnotElement2 Container.libstdcxx (1/10000) [0, 3/25000] [3/50000, 3/50000]
          [] []).2,
        (GetInsertedKnotElement2 Container.libstdcxx (1/10000) [0, 3/25000] [3/50000, 3/50000]
          [] []).1) ∧
    GetInsertedKnotElement2 Container.libstdcxx (1/10000) [0, 1/100000] [0, 1/100000] [] [] =
      ([], []) :=
  ⟨by norm_num, exactLookup_example,
    (C24_swap_symmetry Container.libstdcxx (1/10000) (by norm_num)).1 [0, 3/25000]
      [3/50000, 3/50000] (Or.inr exactLookup_example),
    (C24_swap_symmetry Container.libstdcxx (1/10000) (by norm_num)).2.2
      (fun a b => decide (Container.libstdcxxBucket a = Container.libstdcxxBucket b))
      (fun _ _ => decide_eq_decide.mpr ⟨Eq.symm, Eq.symm⟩) (fun _ _ => rfl) [0, 1/100000]⟩

/-! ### The N-way alignment `GetInsertedKnotElements` -/

theorem elementsStep_eq (C : Container) (eps : ℚ) (map : KnotMap) (acc : List ℚ)
    (it : ℚ × Int) :
    elementsStep C eps map acc it = acc ++ List.replicate (emitN C eps map it) it.1 := by
  unfold elementsStep emitN emplaceTimes
  cases hf : KnotMap.find C eps map it.1 with
  | none => simp [hf]
  | some got => simp [hf]

theorem foldl_elementsStep_countP (C : Container) (eps : ℚ) (map : KnotMap) (p : ℚ → Bool)
    (m : KnotMap) :
    ∀ acc : List ℚ,
      (m.foldl (elementsStep C eps map) acc).countP p =
        acc.countP p +
          (m.map (fun it => if p it.1 = true then emitN C eps map it else 0)).sum := by
  induction m with
  | nil => intro acc; simp
  | cons it m ih =>
    intro acc
    rw [List.foldl_cons, ih, elementsStep_eq]
    simp only [List.countP_append, List.countP_replicate, List.map_cons, List.sum_cons]
    ring

theorem foldl_elementsStep_mem (C : Container) (eps : ℚ) (map : KnotMap) (x : ℚ)
    (m : KnotMap) :
    ∀ acc : List ℚ,
      x ∈ m.foldl (elementsStep C eps map) acc → x ∈ acc ∨ x ∈ KnotMap.keys m := by
  induction m with
  | nil => intro acc; exact Or.inl
  | cons it m ih =>
    intro acc h
    rw [List.foldl_cons] at h
    have h1 := ih _ h
    rw [elementsStep_eq] at h1
    simp only [KnotMap.keys, List.map_cons, List.mem_cons, List.mem_append] at h1 ⊢
    rcases h1 with (h3 | h3) | h3
    · exact Or.inl h3
    · exact Or.inr (Or.inl (List.eq_of_mem_replicate h3))
    · exact Or.inr (Or.inr h3)

theorem foldl_append_singleton {α β : Type} (f : α → β) (l : List α) :
    ∀ init : List β, l.foldl (fun r x => r ++ [f x]) init = init ++ l.map f := by
  induction l with
  | nil => intro init; simp
  | cons a l ih => intro init; rw [List.foldl_cons, ih]; simp

/-- The result of `GetInsertedKnotElements`: one list for each knot vector, in input order. -/
theorem getInsertedKnotElements_eq (C : Container) (eps : ℚ) (Ks : List (List ℚ)) :
    GetInsertedKnotElements C eps Ks =
      Ks.map (fun kv =>
        (finalMapOf C eps Ks).foldl
          (elementsStep C eps (GetKnotMultiplicityMap C eps kv)) []) := by
  unfold GetInsertedKnotElements
  simp only
  rw [foldl_append_singleton (fun kv =>
    (finalMapOf C eps Ks).foldl (elementsStep C eps (GetKnotMultiplicityMap C eps kv)) []) Ks []]
  rfl

theorem getInsertedKnotElements_getD (C : Container) (eps : ℚ) (Ks : List (List ℚ)) (i : Nat)
    (hi : i < Ks.length) :
    (GetInsertedKnotElements C eps Ks).getD i [] =
      (finalMapOf C eps Ks).foldl
        (elementsStep C eps (GetKnotMultiplicityMap C eps (Ks.getD i []))) [] := by
  rw [getInsertedKnotElements_eq, List.getD_eq_getElem _ _ (by simpa using hi),
    List.getElem_map, List.getD_eq_getElem _ _ hi]

theorem subset_flatten (Ks : List (List ℚ)) : ∀ K ∈ Ks, K ⊆ Ks.flatten :=
  fun K hK _ hx => List.mem_flatten.mpr ⟨K, hK, hx⟩

theorem getD_mem (Ks : List (List ℚ)) (i : Nat) (hi : i < Ks.length) : Ks.getD i [] ∈ Ks := by
  rw [List.getD_eq_getElem _ _ hi]
  exact List.getElem_mem hi

/-- The assignment `map[key] = value` through a found entry keeps the keys of the map. -/
theorem keys_map_value (m : KnotMap) (x : ℚ) (c : Int) :
    KnotMap.keys (m.map (fun e => if e.1 = x then (e.1, c) else e)) = KnotMap.keys m := by
  unfold KnotMap.keys
  rw [List.map_map]
  apply List.map_congr_left
  intro e _
  simp only [Function.comp]
  split_ifs <;> rfl

/-- One step of the loop that builds `finalMap` adds at most the key of the entry it reads. -/
theorem finalMapStep_keys_subset (C : Container) (eps : ℚ) (m : KnotMap) (it : ℚ × Int) :
    ∀ k ∈ KnotMap.keys (finalMapStep C eps m it), k = it.1 ∨ k ∈ KnotMap.keys m := by
  intro k hk
  unfold finalMapStep at hk
  cases hf : KnotMap.find C eps m it.1 with
  | none =>
    simp only [hf, KnotMap.insert] at hk
    have hp : (KnotMap.keys (C.place m (it.1, it.2))).Perm (it.1 :: KnotMap.keys m) :=
      (C.place_perm m (it.1, it.2)).map Prod.fst
    exact List.mem_cons.1 (hp.subset hk)
  | some got =>
    simp only [hf, KnotMap.assign] at hk
    split_ifs at hk
    · rw [keys_map_value] at hk
      exact Or.inr hk
    · exact Or.inr hk

theorem foldl_finalMapStep_keys_subset (C : Container) (eps : ℚ) (l : KnotMap) :
    ∀ m : KnotMap, ∀ k ∈ KnotMap.keys (l.foldl (finalMapStep C eps) m),
      k ∈ KnotMap.keys l ∨ k ∈ KnotMap.keys m := by
  induction l with
  | nil => intro m k hk; exact Or.inr hk
  | cons it l ih =>
    intro m k hk
    rw [List.foldl_cons] at hk
    rcases ih _ k hk with h | h
    · exact Or.inl (by unfold KnotMap.keys at h ⊢; exact List.mem_cons_of_mem _ h)
    · rcases finalMapStep_keys_subset C eps m it k h with h2 | h2
      · exact Or.inl (by unfold KnotMap.keys; rw [h2]; exact List.mem_cons_self _ _)
      · exact Or.inr h2

/-- Every key of `finalMap` is a knot of one of the input vectors. -/
theorem finalMapOf_keys_subset (C : Container) {eps : ℚ} (heps : 0 < eps)
    (Ks : List (List ℚ)) : ∀ k ∈ KnotMap.keys (finalMapOf C eps Ks), k ∈ Ks.flatten := by
  have h : ∀ (L : List (List ℚ)) (m : KnotMap),
      ∀ k ∈ KnotMap.keys (L.foldl (fun finalMap kv =>
        (GetKnotMultiplicityMap C eps kv).foldl (finalMapStep C eps) finalMap) m),
        k ∈ L.flatten ∨ k ∈ KnotMap.keys m := by
    intro L
    induction L with
    | nil => intro m k hk; exact Or.inr hk
    | cons K L ih =>
      intro m k hk
      rw [List.foldl_cons] at hk
      rw [List.flatten_cons, List.mem_append]
      rcases ih _ k hk with h1 | h1
      · exact Or.inl (Or.inr h1)
      · rcases foldl_finalMapStep_keys_subset C eps _ m k h1 with h2 | h2
        · exact Or.inl (Or.inl (map_keys_subset C heps K k h2))
        · exact Or.inr h2
  intro k hk
  rcases h Ks [] k hk with h1 | h1
  · exact h1
  · simp [KnotMap.keys] at h1

/-- Every knot in a list returned by `GetInsertedKnotElements` is a knot of one of the input
vectors. -/
theorem elements_subset (C : Container) {eps : ℚ} (heps : 0 < eps) (Ks : List (List ℚ))
    (i : Nat) (hi : i < Ks.length) (x : ℚ)
    (hx : x ∈ (GetInsertedKnotElements C eps Ks).getD i []) : x ∈ Ks.flatten := by
  rw [getInsertedKnotElements_getD C eps Ks i hi] at hx
  rcases foldl_elementsStep_mem C eps _ x _ [] hx with h | h
  · exact absurd h (List.not_mem_nil x)
  · exact finalMapOf_keys_subset C heps Ks x h

/-- The greatest value that the loop building `finalMap` has seen for the key `k` among the
entries `l`, starting from `a`. -/
theorem foldl_max_not_mem (k : ℚ) (l : KnotMap) :
    ∀ a : Int, k ∉ KnotMap.keys l →
      l.foldl (fun a it => if k = it.1 then max a it.2 else a) a = a := by
  induction l with
  | nil => intro a _; rfl
  | cons it l ih =>
    intro a hk
    simp only [KnotMap.keys, List.map_cons, List.mem_cons, not_or] at hk
    rw [List.foldl_cons, if_neg hk.1]
    exact ih a hk.2

theorem foldl_max_mem (k : ℚ) (c : Int) (l : KnotMap) :
    ∀ a : Int, (KnotMap.keys l).Nodup → (k, c) ∈ l →
      l.foldl (fun a it => if k = it.1 then max a it.2 else a) a = max a c := by
  induction l with
  | nil => intro a _ h; exact absurd h (List.not_mem_nil _)
  | cons it l ih =>
    intro a hnd hmem
    simp only [KnotMap.keys, List.map_cons, List.nodup_cons] at hnd
    rw [List.foldl_cons]
    rcases List.mem_cons.1 hmem with h | h
    · have hk : k = it.1 := by rw [← h]
      have hc : c = it.2 := by rw [← h]
      rw [if_pos hk, ← hc]
      apply foldl_max_not_mem k l
      rw [hk]
      exact hnd.1
    · have hne : k ≠ it.1 := by
        intro heq
        apply hnd.1
        rw [← heq]
        exact List.mem_map.2 ⟨(k, c), h, rfl⟩
      rw [if_neg hne]
      exact ih a hnd.2 h

/-- Where no lookup matches two different knots, one step of the loop that builds `finalMap`
keeps the keys distinct, raises the value of the key it reads to at least the count it reads, and
leaves the other values as they are. -/
theorem finalMapStep_inv (C : Container) {eps : ℚ} (heps : 0 < eps) {E : List ℚ}
    (hex : ExactLookup C eps E) (m : KnotMap) (V : ℚ → Int) (it : ℚ × Int)
    (hnd : (KnotMap.keys m).Nodup) (hval : ∀ e ∈ m, e.1 ∈ E ∧ e.2 = V e.1)
    (hoff : ∀ k, k ∉ KnotMap.keys m → V k = 0) (hit : it.1 ∈ E) (hc : 0 ≤ it.2) :
    (KnotMap.keys (finalMapStep C eps m it)).Nodup ∧
    (∀ e ∈ finalMapStep C eps m it,
      e.1 ∈ E ∧ e.2 = if e.1 = it.1 then max (V e.1) it.2 else V e.1) ∧
    (∀ k, k ∈ KnotMap.keys (finalMapStep C eps m it) ↔ k = it.1 ∨ k ∈ KnotMap.keys m) := by
  unfold finalMapStep
  cases hf : KnotMap.find C eps m it.1 with
  | none =>
    simp only [hf, KnotMap.insert]
    have hx : it.1 ∉ KnotMap.keys m := find_none heps hf
    have hperm := C.place_perm m (it.1, it.2)
    have hp : (KnotMap.keys (C.place m (it.1, it.2))).Perm (it.1 :: KnotMap.keys m) :=
      hperm.map Prod.fst
    refine ⟨?_, ?_, ?_⟩
    · rw [hp.nodup_iff, List.nodup_cons]
      exact ⟨hx, hnd⟩
    · intro e he
      rcases List.mem_cons.1 (hperm.subset he) with h | h
      · subst h
        simp only [if_true]
        rw [hoff _ hx, max_eq_right hc]
        exact ⟨hit, rfl⟩
      · have hne : e.1 ≠ it.1 := by
          intro heq
          apply hx
          rw [← heq]
          exact List.mem_map.2 ⟨e, h, rfl⟩
        rw [if_neg hne]
        exact hval e h
    · intro k
      rw [hp.mem_iff, List.mem_cons]
  | some got =>
    obtain ⟨hg, hnear⟩ := find_some hf
    obtain ⟨hgE, hgV⟩ := hval got hg
    have hgx : got.1 = it.1 := hex m it.1 got (find_some_bucket hf) hgE hit hnear
    have hxk : it.1 ∈ KnotMap.keys m := by
      rw [← hgx]
      exact List.mem_map.2 ⟨got, hg, rfl⟩
    have hkeys : ∀ k, k ∈ KnotMap.keys m ↔ k = it.1 ∨ k ∈ KnotMap.keys m := by
      intro k
      constructor
      · exact Or.inr
      · rintro (h | h)
        · rw [h]; exact hxk
        · exact h
    by_cases hlt : got.2 < it.2
    · simp only [hf, hlt, if_true, KnotMap.assign]
      refine ⟨?_, ?_, ?_⟩
      · rw [keys_map_value]
        exact hnd
      · intro e he
        rw [List.mem_map] at he
        obtain ⟨e0, he0, hfe⟩ := he
        obtain ⟨h1, h2⟩ := hval e0 he0
        by_cases hk : e0.1 = got.1
        · rw [if_pos hk] at hfe
          rw [← hfe]
          simp only
          rw [if_pos (hk.trans hgx), hk, ← hgV, max_eq_right (le_of_lt hlt)]
          exact ⟨hgE, rfl⟩
        · rw [if_neg hk] at hfe
          rw [← hfe, if_neg (fun h => hk (h.trans hgx.symm))]
          exact ⟨h1, h2⟩
      · intro k
        rw [keys_map_value]
        exact hkeys k
    · simp only [hf, hlt, if_false]
      refine ⟨hnd, ?_, hkeys⟩
      intro e he
      obtain ⟨h1, h2⟩ := hval e he
      refine ⟨h1, ?_⟩
      by_cases hk : e.1 = it.1
      · rw [if_pos hk, h2, hk, ← hgx, ← hgV]
        exact (max_eq_left (not_lt.1 hlt)).symm
      · rw [if_neg hk]
        exact h2

theorem foldl_finalMapStep_inv (C : Container) {eps : ℚ} (heps : 0 < eps) {E : List ℚ}
    (hex : ExactLookup C eps E) (l : KnotMap) :
    ∀ (m : KnotMap) (V : ℚ → Int), (KnotMap.keys m).Nodup →
      (∀ e ∈ m, e.1 ∈ E ∧ e.2 = V e.1) → (∀ k, k ∉ KnotMap.keys m → V k = 0) →
      (∀ it ∈ l, it.1 ∈ E ∧ 0 ≤ it.2) →
      (KnotMap.keys (l.foldl (finalMapStep C eps) m)).Nodup ∧
      (∀ e ∈ l.foldl (finalMapStep C eps) m, e.1 ∈ E ∧
        e.2 = l.foldl (fun a it => if e.1 = it.1 then max a it.2 else a) (V e.1)) ∧
      (∀ k, k ∈ KnotMap.keys (l.foldl (finalMapStep C eps) m) ↔
        k ∈ KnotMap.keys l ∨ k ∈ KnotMap.keys m) := by
  induction l with
  | nil =>
    intro m V hnd hval _ _
    refine ⟨hnd, hval, ?_⟩
    intro k
    simp [KnotMap.keys]
  | cons it l ih =>
    intro m V hnd hval hoff hl
    obtain ⟨hit, hc⟩ := hl it (List.mem_cons_self _ _)
    obtain ⟨s1, s2, s3⟩ := finalMapStep_inv C heps hex m V it hnd hval hoff hit hc
    have hoff2 : ∀ k, k ∉ KnotMap.keys (finalMapStep C eps m it) →
        (fun k => if k = it.1 then max (V k) it.2 else V k) k = 0 := by
      intro k hk
      rw [s3] at hk
      simp only [not_or] at hk
      simp only [if_neg hk.1]
      exact hoff k hk.2
    obtain ⟨a1, a2, a3⟩ := ih (finalMapStep C eps m it)
      (fun k => if k = it.1 then max (V k) it.2 else V k) s1 s2 hoff2
      (fun x hx => hl x (List.mem_cons_of_mem _ hx))
    rw [List.foldl_cons]
    refine ⟨a1, ?_, ?_⟩
    · intro e he
      obtain ⟨b1, b2⟩ := a2 e he
      refine ⟨b1, ?_⟩
      rw [b2, List.foldl_cons]
    · intro k
      rw [a3, s3]
      simp only [KnotMap.keys, List.map_cons, List.mem_cons]
      tauto

theorem foldl_max_ge (eps : ℚ) (k : ℚ) (Ks : List (List ℚ)) :
    ∀ a : Int, a ≤ Ks.foldl (fun acc kv => max acc (GetKnotMultiplicity eps kv k)) a ∧
      ∀ K ∈ Ks, GetKnotMultiplicity eps K k ≤
        Ks.foldl (fun acc kv => max acc (GetKnotMultiplicity eps kv k)) a := by
  induction Ks with
  | nil => intro a; exact ⟨le_refl _, fun K hK => absurd hK (List.not_mem_nil K)⟩
  | cons K0 Ks ih =>
    intro a
    rw [List.foldl_cons]
    obtain ⟨h1, h2⟩ := ih (max a (GetKnotMultiplicity eps K0 k))
    refine ⟨le_trans (le_max_left _ _) h1, ?_⟩
    intro K hK
    rcases List.mem_cons.mp hK with rfl | h
    · exact le_trans (le_max_right _ _) h1
    · exact h2 K h

/-- Where the tolerance comparison is exact, a number that is not a knot of `K` has
multiplicity `0` in `K`. -/
theorem multiplicity_eq_zero_exact {eps : ℚ} (heps : 0 < eps) {E K : List ℚ} (hKE : K ⊆ E)
    (hex : ToleranceExact eps E) {k : ℚ} (hk : k ∈ E) (hnot : k ∉ K) :
    GetKnotMultiplicity eps K k = 0 := by
  rw [← count_eq_multiplicity heps E K hKE hex k hk, List.count_eq_zero_of_not_mem hnot]
  rfl

/-- Where no lookup matches two different knots, reading the whole multiplicity map of `K`
raises the value seen for `k` to at least the multiplicity of `k` in `K` when `k` is a knot of
`K`. -/
theorem foldl_max_map (C : Container) {eps : ℚ} (heps : 0 < eps) {E K : List ℚ} (hKE : K ⊆ E)
    (hex : ExactLookup C eps E) (k : ℚ) (a : Int) (ha : 0 ≤ a) :
    (GetKnotMultiplicityMap C eps K).foldl (fun a it => if k = it.1 then max a it.2 else a) a =
      max a (if k ∈ K then GetKnotMultiplicity eps K k else 0) := by
  by_cases hk : k ∈ K
  · rw [if_pos hk]
    exact foldl_max_mem k _ _ a (map_keys_nodup C heps K) (map_key_mem_exact C heps hKE hex hk)
  · rw [if_neg hk, max_eq_left ha]
    exact foldl_max_not_mem k _ a (fun h => hk (map_keys_subset C heps K k h))

/-- Where no lookup matches two different knots, the loop that builds `finalMap` keeps the keys
distinct, holds for each key the greatest multiplicity read for it, and has as keys the knots
read so far. -/
theorem finalMap_inv (C : Container) {eps : ℚ} (heps : 0 < eps) {E : List ℚ}
    (hex : ExactLookup C eps E) (Ks : List (List ℚ)) :
    ∀ (m : KnotMap) (V : ℚ → Int), (KnotMap.keys m).Nodup →
      (∀ e ∈ m, e.1 ∈ E ∧ e.2 = V e.1) → (∀ k, k ∉ KnotMap.keys m → V k = 0) →
      (∀ k, 0 ≤ V k) → (∀ K ∈ Ks, K ⊆ E) →
      (KnotMap.keys (Ks.foldl (fun finalMap kv =>
        (GetKnotMultiplicityMap C eps kv).foldl (finalMapStep C eps) finalMap) m)).Nodup ∧
      (∀ e ∈ Ks.foldl (fun finalMap kv =>
          (GetKnotMultiplicityMap C eps kv).foldl (finalMapStep C eps) finalMap) m,
        e.1 ∈ E ∧ e.2 = Ks.foldl (fun acc K =>
          max acc (if e.1 ∈ K then GetKnotMultiplicity eps K e.1 else 0)) (V e.1)) ∧
      (∀ k, k ∈ KnotMap.keys (Ks.foldl (fun finalMap kv =>
          (GetKnotMultiplicityMap C eps kv).foldl (finalMapStep C eps) finalMap) m) ↔
        k ∈ Ks.flatten ∨ k ∈ KnotMap.keys m) := by
  induction Ks with
  | nil =>
    intro m V hnd hval _ _ _
    refine ⟨hnd, hval, ?_⟩
    intro k
    simp
  | cons K Ks ih =>
    intro m V hnd hval hoff hV hKs
    have hKE : K ⊆ E := hKs K (List.mem_cons_self _ _)
    obtain ⟨a1, a2, a3⟩ := foldl_finalMapStep_inv C heps hex (GetKnotMultiplicityMap C eps K)
      m V hnd hval hoff (fun it hit => by
        obtain ⟨h1, h2⟩ := map_mem C heps K it hit
        exact ⟨hKE h1, by rw [h2]; exact multiplicity_nonneg eps K it.1⟩)
    have hval1 : ∀ e ∈ (GetKnotMultiplicityMap C eps K).foldl (finalMapStep C eps) m,
        e.1 ∈ E ∧
          e.2 = (fun k => max (V k) (if k ∈ K then GetKnotMultiplicity eps K k else 0)) e.1 := by
      intro e he
      obtain ⟨b1, b2⟩ := a2 e he
      refine ⟨b1, ?_⟩
      rw [b2]
      exact foldl_max_map C heps hKE hex e.1 (V e.1) (hV e.1)
    have hoff1 : ∀ k,
        k ∉ KnotMap.keys ((GetKnotMultiplicityMap C eps K).foldl (finalMapStep C eps) m) →
        (fun k => max (V k) (if k ∈ K then GetKnotMultiplicity eps K k else 0)) k = 0 := by
      intro k hk
      rw [a3] at hk
      simp only [not_or] at hk
      have hkK : k ∉ K := fun h => hk.1 ((mem_keys_iff_exact C heps hKE hex k).2 h)
      simp only [if_neg hkK]
      rw [hoff k hk.2]
      rfl
    have hV1 : ∀ k,
        0 ≤ (fun k => max (V k) (if k ∈ K then GetKnotMultiplicity eps K k else 0)) k :=
      fun k => le_max_of_le_left (hV k)
    obtain ⟨c1, c2, c3⟩ := ih _ _ a1 hval1 hoff1 hV1
      (fun K2 h2 => hKs K2 (List.mem_cons_of_mem _ h2))
    rw [List.foldl_cons]
    refine ⟨c1, ?_, ?_⟩
    · intro e he
      obtain ⟨d1, d2⟩ := c2 e he
      refine ⟨d1, ?_⟩
      rw [d2, List.foldl_cons]
    · intro k
      rw [c3, a3, mem_keys_iff_exact C heps hKE hex k, List.flatten_cons, List.mem_append]
      tauto

/-- Where no lookup matches two different knots of the input vectors, `finalMap` has distinct
keys, which are the knots of the input vectors, and holds for each key the greatest of its
multiplicities in the vectors it is a knot of. -/
theorem finalMapOf_lookup (C : Container) {eps : ℚ} (heps : 0 < eps) (Ks : List (List ℚ))
    (hlook : ExactLookup C eps Ks.flatten) :
    (KnotMap.keys (finalMapOf C eps Ks)).Nodup ∧
    (∀ e ∈ finalMapOf C eps Ks, e.2 = Ks.foldl (fun acc K =>
      max acc (if e.1 ∈ K then GetKnotMultiplicity eps K e.1 else 0)) 0) ∧
    (∀ k, k ∈ KnotMap.keys (finalMapOf C eps Ks) ↔ k ∈ Ks.flatten) := by
  obtain ⟨a1, a2, a3⟩ := finalMap_inv C heps hlook Ks [] (fun _ => 0) List.nodup_nil
    (fun e he => absurd he (List.not_mem_nil e)) (fun _ _ => rfl) (fun _ => le_refl _)
    (subset_flatten Ks)
  refine ⟨a1, fun e he => (a2 e he).2, ?_⟩
  intro k
  have h := a3 k
  simp only [KnotMap.keys, List.map_nil, List.not_mem_nil, or_false] at h
  exact h

/-- Where no lookup matches two different knots of the input vectors, the number of copies of a
knot `k` in the list that `GetInsertedKnotElements` builds for the knot vector `K`: the greatest
multiplicity of `k` in the vectors it is a knot of, less its multiplicity in `K` when it is a
knot of `K`. -/
theorem elements_count_lookup (C : Container) {eps : ℚ} (heps : 0 < eps) (Ks : List (List ℚ))
    (hlook : ExactLookup C eps Ks.flatten) (K : List ℚ) (hK : K ⊆ Ks.flatten) (k : ℚ)
    (hk : k ∈ Ks.flatten) :
    ((finalMapOf C eps Ks).foldl (elementsStep C eps (GetKnotMultiplicityMap C eps K)) []).count
        k =
      (Ks.foldl (fun acc K2 =>
          max acc (if k ∈ K2 then GetKnotMultiplicity eps K2 k else 0)) 0 -
        (if k ∈ K then GetKnotMultiplicity eps K k else 0)).toNat := by
  obtain ⟨f1, f2, f3⟩ := finalMapOf_lookup C heps Ks hlook
  have hemit : ∀ it ∈ finalMapOf C eps Ks, it.1 = k →
      emitN C eps (GetKnotMultiplicityMap C eps K) it =
        (Ks.foldl (fun acc K2 =>
            max acc (if k ∈ K2 then GetKnotMultiplicity eps K2 k else 0)) 0 -
          (if k ∈ K then GetKnotMultiplicity eps K k else 0)).toNat := by
    intro it hit hitk
    have h2 := f2 it hit
    unfold emitN
    rw [hitk] at h2 ⊢
    rw [find_map_exact C heps hK hlook hk, h2]
    by_cases hkK : k ∈ K
    · simp only [hkK, if_true]
    · simp only [hkK, if_false, sub_zero]
  unfold List.count
  rw [foldl_elementsStep_countP C eps _ (fun x => x == k) (finalMapOf C eps Ks) [],
    sum_ite_key _ f1 k _ _ hemit, if_pos ((f3 k).2 hk), List.countP_nil, Nat.zero_add]

/-- Where the tolerance comparison is exact on the knots of the input vectors, the number of
copies of a knot in the list that `GetInsertedKnotElements` returns for vector `i` is the greatest
multiplicity of the knot minus its multiplicity in vector `i`. -/
theorem elements_count (C : Container) {eps : ℚ} (heps : 0 < eps) (Ks : List (List ℚ))
    (hex : ToleranceExact eps Ks.flatten) (i : Nat) (hi : i < Ks.length) (k : ℚ)
    (hk : k ∈ Ks.flatten) :
    ((((GetInsertedKnotElements C eps Ks).getD i []).count k : Nat) : Int) =
      maxMultiplicity eps Ks k - GetKnotMultiplicity eps (Ks.getD i []) k := by
  have hKi : Ks.getD i [] ⊆ Ks.flatten := subset_flatten Ks _ (getD_mem Ks i hi)
  have hge : GetKnotMultiplicity eps (Ks.getD i []) k ≤ maxMultiplicity eps Ks k :=
    (foldl_max_ge eps k Ks 0).2 _ (getD_mem Ks i hi)
  have hown : ∀ K : List ℚ, K ⊆ Ks.flatten →
      (if k ∈ K then GetKnotMultiplicity eps K k else 0) = GetKnotMultiplicity eps K k := by
    intro K hK
    by_cases hkK : k ∈ K
    · rw [if_pos hkK]
    · rw [if_neg hkK, multiplicity_eq_zero_exact heps hK hex hk hkK]
  have hcongr : ∀ (L : List (List ℚ)), (∀ K ∈ L, K ⊆ Ks.flatten) → ∀ a : Int,
      L.foldl (fun acc K => max acc (if k ∈ K then GetKnotMultiplicity eps K k else 0)) a =
        L.foldl (fun acc kv => max acc (GetKnotMultiplicity eps kv k)) a := by
    intro L
    induction L with
    | nil => intro _ a; rfl
    | cons K L ih =>
      intro hL a
      rw [List.foldl_cons, List.foldl_cons, hown K (hL K (List.mem_cons_self _ _))]
      exact ih (fun K2 h2 => hL K2 (List.mem_cons_of_mem _ h2)) _
  rw [getInsertedKnotElements_getD C eps Ks i hi,
    elements_count_lookup C heps Ks (exactLookup_of_exact C hex) _ hKi k hk,
    hcongr Ks (subset_flatten Ks) 0, hown _ hKi]
  exact Int.toNat_of_nonneg (sub_nonneg.2 hge)

/-- C13 (as stated, refuted): with tolerance `1/10000` and the knot vectors `[0, 0.00001]` and
`[0]`.  The knot `0.00001` has greatest multiplicity `2` and multiplicity `1` in the second
vector (one copy in the first vector, none in the second), so `result[1]` should hold it once.
On the libstdc++ container `result[1]` is `[0, 0.00001, 0.00001]` and holds it twice; on a
linear-scan map `result[1]` is `[0]` and does not hold it. -/
theorem C13_nway_counterexample :
    GetInsertedKnotElements Container.libstdcxx (1/10000) [[0, 1/100000], [0]] =
      [[], [0, 1/100000, 1/100000]] ∧
    GetInsertedKnotElements Container.linearScan (1/10000) [[0, 1/100000], [0]] = [[], [0]] ∧
    maxMultiplicity (1/10000) [[0, 1/100000], [0]] (1/100000) = 2 ∧
    GetKnotMultiplicity (1/10000) [0] (1/100000) = 1 ∧
    ([0, 1/100000] : List ℚ).count (1/100000) = 1 ∧ ([0] : List ℚ).count (1/100000) = 0 ∧
    ([0, 1/100000, 1/100000] : List ℚ).count (1/100000) = 2 := by
  refine ⟨?_, ?_, ?_, ?_, ?_, ?_, ?_⟩
  · norm_num [GetInsertedKnotElements, finalMapOf, finalMapStep, elementsStep, emplaceTimes,
      GetKnotMultiplicityMap, multiplicityMapStep, KnotMap.find, KnotMap.insert, KnotMap.assign,
      Container.libstdcxx, Container.chained, Container.libstdcxxBucket, chainInsert,
      CustomDoubleEqual, GetKnotMultiplicity, List.countP_cons, IsAlmostEqualTo, abs_lt,
      List.filter, List.find?]
    rfl
  · norm_num [GetInsertedKnotElements, finalMapOf, finalMapStep, elementsStep, emplaceTimes,
      GetKnotMultiplicityMap, multiplicityMapStep, KnotMap.find, KnotMap.insert, KnotMap.assign,
      Container.linearScan, CustomDoubleEqual, GetKnotMultiplicity, List.countP_cons,
      IsAlmostEqualTo, abs_lt, List.filter, List.find?]
  · norm_num [maxMultiplicity, GetKnotMultiplicity, List.countP_cons, IsAlmostEqualTo, abs_lt]
  · norm_num [GetKnotMultiplicity, List.countP_cons, IsAlmostEqualTo, abs_lt]
  · norm_num [List.count_cons]
  · norm_num [List.count_cons]
  · norm_num [List.count_cons]

/-- C13 (amended): on every container, `GetInsertedKnotElements` returns one list for each input
vector, in input order, and every entry of a list is a knot of some input vector.  Where the
knots of the input vectors are equal under the tolerance only when they are the same number,
`result[i]` holds exactly `M(k) - m_i(k)` copies of every knot `k`, with `m_i(k)` the
multiplicity of `k` in vector `i` and `M(k)` the greatest of these multiplicities. -/
theorem C13_nway_deficits (C : Container) (eps : ℚ) (Ks : List (List ℚ)) (heps : 0 < eps) :
    (GetInsertedKnotElements C eps Ks).length = Ks.length ∧
    (∀ i : Nat, i < Ks.length →
      ∀ x ∈ (GetInsertedKnotElements C eps Ks).getD i [], x ∈ Ks.flatten) ∧
    (ToleranceExact eps Ks.flatten → ∀ i : Nat, i < Ks.length → ∀ k ∈ Ks.flatten,
      ((((GetInsertedKnotElements C eps Ks).getD i []).count k : Nat) : Int) =
        maxMultiplicity eps Ks k - GetKnotMultiplicity eps (Ks.getD i []) k) := by
  refine ⟨?_, fun i hi x hx => elements_subset C heps Ks i hi x hx,
    fun hex i hi k hk => elements_count C heps Ks hex i hi k hk⟩
  rw [getInsertedKnotElements_eq, List.length_map]

/-- C13 (amended), instance: the vectors `[0, 0, 1]` and `[0, 1, 1, 2]`, the second list and the
knot `0`, on the libstdc++ container. -/
theorem C13_nway_deficits_witness :
    (0 : ℚ) < 1/10000 ∧
    (GetInsertedKnotElements Container.libstdcxx (1/10000) [[0, 0, 1], [0, 1, 1, 2]]).length =
      2 ∧
    ((((GetInsertedKnotElements Container.libstdcxx (1/10000)
        [[0, 0, 1], [0, 1, 1, 2]]).getD 1 []).count 0 : Nat) : Int) =
      maxMultiplicity (1/10000) [[0, 0, 1], [0, 1, 1, 2]] 0 -
        GetKnotMultiplicity (1/10000) [0, 1, 1, 2] 0 :=
  ⟨by norm_num,
    (C13_nway_deficits Container.libstdcxx (1/10000) [[0, 0, 1], [0, 1, 1, 2]]
      (by norm_num)).1,
    (C13_nway_deficits Container.libstdcxx (1/10000) [[0, 0, 1], [0, 1, 1, 2]]
      (by norm_num)).2.2 (by simpa using toleranceExact_pair) 1 (by simp) 0 (by simp)⟩

/-- C14 (as stated, refuted): with tolerance `1/10000`, for `K0 = [0, 121 * 2^-20]` and
`K1 = [71 * 2^-20, 71 * 2^-20]` the pairwise operation returns `insert0 = [0, 121 * 2^-20]`,
while the N-way operation returns `result[0] = [0]`: on the libstdc++ container, where the three
knots share a bucket and are compared, and on a linear-scan map. -/
theorem C14_nway_counterexample :
    GetInsertedKnotElement2 Container.libstdcxx (1/10000) [0, 121/1048576]
        [71/1048576, 71/1048576] [] [] = ([0, 121/1048576], []) ∧
    GetInsertedKnotElements Container.libstdcxx (1/10000)
        [[0, 121/1048576], [71/1048576, 71/1048576]] = [[0], []] ∧
    GetInsertedKnotElement2 Container.linearScan (1/10000) [0, 121/1048576]
        [71/1048576, 71/1048576] [] [] = ([0, 121/1048576], []) ∧
    GetInsertedKnotElements Container.linearScan (1/10000)
        [[0, 121/1048576], [71/1048576, 71/1048576]] = [[0], []] := by
  refine ⟨?_, ?_, ?_, ?_⟩
  · norm_num [GetInsertedKnotElement2, insertStep0, insertStep1, emplaceTimes, stdSort,
      GetKnotMultiplicityMap, multiplicityMapStep, KnotMap.find, KnotMap.insert,
      Container.libstdcxx, Container.chained, Container.libstdcxxBucket, chainInsert,
      CustomDoubleEqual, GetKnotMultiplicity, List.countP_cons, IsAlmostEqualTo, abs_lt,
      List.filter, List.find?]
  · norm_num [GetInsertedKnotElements, finalMapOf, finalMapStep, elementsStep, emplaceTimes,
      GetKnotMultiplicityMap, multiplicityMapStep, KnotMap.find, KnotMap.insert, KnotMap.assign,
      Container.libstdcxx, Container.chained, Container.libstdcxxBucket, chainInsert,
      CustomDoubleEqual, GetKnotMultiplicity, List.countP_cons, IsAlmostEqualTo, abs_lt,
      List.filter, List.find?]
  · norm_num [GetInsertedKnotElement2, insertStep0, insertStep1, emplaceTimes, stdSort,
      GetKnotMultiplicityMap, multiplicityMapStep, KnotMap.find, KnotMap.insert,
      Container.linearScan, CustomDoubleEqual, GetKnotMultiplicity, List.countP_cons,
      IsAlmostEqualTo, abs_lt, List.filter, List.find?]
  · norm_num [GetInsertedKnotElements, finalMapOf, finalMapStep, elementsStep, emplaceTimes,
      GetKnotMultiplicityMap, multiplicityMapStep, KnotMap.find, KnotMap.insert, KnotMap.assign,
      Container.linearScan, CustomDoubleEqual, GetKnotMultiplicity, List.countP_cons,
      IsAlmostEqualTo, abs_lt, List.filter, List.find?]

/-- C14 (amended): whenever no lookup of the hash map matches two different knots of `K0` and
`K1` (on every container when no two different knots are within the tolerance of each other; on
a given container also when such knots are never compared),
`GetInsertedKnotElements([K0, K1])` returns two lists, `result[0]` holds the same knots with the
same counts as the list `insert0` of the pairwise `GetInsertedKnotElement(K0, K1)` called with
empty output lists, `result[1]` the same as `insert1`, and they are equal once `result[0]` and
`result[1]` are sorted in ascending order. -/
theorem C14_nway_refines_pairwise (C : Container) (eps : ℚ) (K0 K1 : List ℚ) (heps : 0 < eps)
    (h : ToleranceExact eps (K0 ++ K1) ∨ ExactLookup C eps (K0 ++ K1)) :
    (GetInsertedKnotElements C eps [K0, K1]).length = 2 ∧
    ((GetInsertedKnotElements C eps [K0, K1]).getD 0 []).Perm
      (GetInsertedKnotElement2 C eps K0 K1 [] []).1 ∧
    ((GetInsertedKnotElements C eps [K0, K1]).getD 1 []).Perm
      (GetInsertedKnotElement2 C eps K0 K1 [] []).2 ∧
    stdSort ((GetInsertedKnotElements C eps [K0, K1]).getD 0 []) =
      (GetInsertedKnotElement2 C eps K0 K1 [] []).1 ∧
    stdSort ((GetInsertedKnotElements C eps [K0, K1]).getD 1 []) =
      (GetInsertedKnotElement2 C eps K0 K1 [] []).2 := by
  have hlook : ExactLookup C eps (K0 ++ K1) := by
    rcases h with hex | hl
    · exact exactLookup_of_exact C hex
    · exact hl
  have hfl : [K0, K1].flatten = K0 ++ K1 := by simp
  have hlookf : ExactLookup C eps [K0, K1].flatten := by rw [hfl]; exact hlook
  have h0 : K0 ⊆ K0 ++ K1 := List.subset_append_left K0 K1
  have h1 : K1 ⊆ K0 ++ K1 := List.subset_append_right K0 K1
  have hr0 := getInsertedKnotElements_getD C eps [K0, K1] 0 (by simp)
  have hr1 := getInsertedKnotElements_getD C eps [K0, K1] 1 (by simp)
  simp only [List.getD_cons_zero, List.getD_cons_succ] at hr0 hr1
  have hcount : ∀ v : ℚ,
      ((GetInsertedKnotElements C eps [K0, K1]).getD 0 []).count v =
          (GetInsertedKnotElement2 C eps K0 K1 [] []).1.count v ∧
      ((GetInsertedKnotElements C eps [K0, K1]).getD 1 []).count v =
          (GetInsertedKnotElement2 C eps K0 K1 [] []).2.count v := by
    intro v
    by_cases hv : v ∈ K0 ++ K1
    · obtain ⟨c0, c1⟩ := inserted_count_key C heps (K0 ++ K1) K0 K1 h0 h1 hlook v hv
      have e0 := elements_count_lookup C heps [K0, K1] hlookf K0 (by rw [hfl]; exact h0) v
        (by rw [hfl]; exact hv)
      have e1 := elements_count_lookup C heps [K0, K1] hlookf K1 (by rw [hfl]; exact h1) v
        (by rw [hfl]; exact hv)
      simp only [List.foldl_cons, List.foldl_nil] at e0 e1
      have n0 := multiplicity_nonneg eps K0 v
      have n1 := multiplicity_nonneg eps K1 v
      rw [hr0, hr1, e0, e1, c0, c1]
      clear c0 c1 e0 e1 hr0 hr1
      have t1 := Int.toNat_eq_max (GetKnotMultiplicity eps K1 v - GetKnotMultiplicity eps K0 v)
      have t2 := Int.toNat_eq_max (GetKnotMultiplicity eps K0 v - GetKnotMultiplicity eps K1 v)
      have t3 := Int.toNat_eq_max (GetKnotMultiplicity eps K0 v)
      have t4 := Int.toNat_eq_max (GetKnotMultiplicity eps K1 v)
      by_cases p0 : v ∈ K0 <;> by_cases p1 : v ∈ K1 <;>
        simp only [p0, p1, if_true, if_false, Nat.add_zero, Nat.zero_add, sub_zero,
          max_self, max_eq_left n0, max_eq_right n0, max_eq_right n1] <;>
        constructor <;> first | trivial | omega
    · have z0 : ((GetInsertedKnotElements C eps [K0, K1]).getD 0 []).count v = 0 :=
        List.count_eq_zero_of_not_mem
          (fun h => hv (hfl ▸ elements_subset C heps [K0, K1] 0 (by simp) v h))
      have z1 : ((GetInsertedKnotElements C eps [K0, K1]).getD 1 []).count v = 0 :=
        List.count_eq_zero_of_not_mem
          (fun h => hv (hfl ▸ elements_subset C heps [K0, K1] 1 (by simp) v h))
      have w0 : (GetInsertedKnotElement2 C eps K0 K1 [] []).1.count v = 0 := by
        apply List.count_eq_zero_of_not_mem
        intro h
        rcases (inserted_subset C heps K0 K1 [] [] v).1 h with h2 | h2 | h2
        · simp at h2
        · exact hv (h0 h2)
        · exact hv (h1 h2)
      have w1 : (GetInsertedKnotElement2 C eps K0 K1 [] []).2.count v = 0 := by
        apply List.count_eq_zero_of_not_mem
        intro h
        rcases (inserted_subset C heps K0 K1 [] [] v).2 h with h2 | h2
        · simp at h2
        · exact hv (h0 h2)
      rw [z0, z1, w0, w1]
      exact ⟨rfl, rfl⟩
  have p0 : ((GetInsertedKnotElements C eps [K0, K1]).getD 0 []).Perm
      (GetInsertedKnotElement2 C eps K0 K1 [] []).1 :=
    List.perm_iff_count.mpr (fun v => (hcount v).1)
  have p1 : ((GetInsertedKnotElements C eps [K0, K1]).getD 1 []).Perm
      (GetInsertedKnotElement2 C eps K0 K1 [] []).2 :=
    List.perm_iff_count.mpr (fun v => (hcount v).2)
  have s0 : (GetInsertedKnotElement2 C eps K0 K1 [] []).1.Sorted (· ≤ ·) :=
    List.sorted_insertionSort _ _
  have s1 : (GetInsertedKnotElement2 C eps K0 K1 [] []).2.Sorted (· ≤ ·) :=
    List.sorted_insertionSort _ _
  refine ⟨by rw [getInsertedKnotElements_eq]; rfl, p0, p1, ?_, ?_⟩
  · exact List.eq_of_perm_of_sorted ((List.perm_insertionSort _ _).trans p0)
      (List.sorted_insertionSort _ _) s0
  · exact List.eq_of_perm_of_sorted ((List.perm_insertionSort _ _).trans p1)
      (List.sorted_insertionSort _ _) s1

/-- C14 (amended), instance: on the libstdc++ container with tolerance `1/10000`,
`K0 = [0, 0.00012]` and `K1 = [0.00006, 0.00006]`, whose knots lie in different buckets. -/
theorem C14_nway_refines_pairwise_witness :
    (0 : ℚ) < 1/10000 ∧
    ExactLookup Container.libstdcxx (1/10000) ([0, 3/25000] ++ [3/50000, 3/50000]) ∧
    stdSort ((GetInsertedKnotElements Container.libstdcxx (1/10000)
        [[0, 3/25000], [3/50000, 3/50000]]).getD 0 []) =
      (GetInsertedKnotElement2 Container.libstdcxx (1/10000) [0, 3/25000] [3/50000, 3/50000]
        [] []).1 :=
  ⟨by norm_num, exactLookup_example,
    (C14_nway_refines_pairwise Container.libstdcxx (1/10000) [0, 3/25000] [3/50000, 3/50000]
      (by norm_num) (Or.inr exactLookup_example)).2.2.2.1⟩

/-! ### Curve evaluation -/

theorem validate_eq {T : Type} (degree : Int) (knotVector : List ℚ) (paramT : ℚ)
    (controlPoints : List T) :
    validate degree knotVector paramT controlPoints =
      if degree > 0 ∧ knotVector.length > 0 ∧ knotVector.Sorted (· ≤ ·) ∧
          (knotVector.getD 0 0 ≤ paramT ∧ paramT ≤ knotVector.getD (knotVector.length - 1) 0) ∧
          controlPoints.length > 0 ∧
          (knotVector.length : Int) = (controlPoints.length : Int) + degree + 1
      then Except.ok () else Except.error Fault.invalidArgument := by
  simp only [validate, VALIDATE_ARGUMENT, VALIDATE_ARGUMENT_RANGE,
    ValidationUtils.IsValidKnotVector, ValidationUtils.IsValidBspline, bind, Except.bind,
    decide_eq_true_eq]
  split_ifs <;> first | rfl | (exfalso; tauto)

theorem foldlM_except_ok {σ ι : Type} (f : σ → ι → Except Fault σ) (g : σ → ι → σ)
    (l : List ι) (h : ∀ i ∈ l, ∀ s, f s i = Except.ok (g s i)) :
    ∀ init : σ, l.foldlM f init = Except.ok (l.foldl g init) := by
  induction l with
  | nil => intro init; rfl
  | cons a l ih =>
    intro init
    rw [List.foldlM_cons, h a (List.mem_cons_self _ _) init]
    exact ih (fun i hi => h i (List.mem_cons_of_mem _ hi)) (g init a)

theorem foldl_add_eq_sum {T ι : Type} [AddCommMonoid T] (w : ι → T) (l : List ι) :
    ∀ init : T, l.foldl (fun p i => p + w i) init = init + (l.map w).sum := by
  induction l with
  | nil => intro init; simp
  | cons a l ih => intro init; simp [ih, add_assoc]

theorem vectorAt_of_lt {α : Type} (v : List α) (d : α) (index : Int) (h0 : 0 ≤ index)
    (h1 : index.toNat < v.length) : vectorAt v index = Except.ok (v.getD index.toNat d) := by
  unfold vectorAt
  rw [if_pos h0, List.getElem?_eq_getElem h1, List.getD_eq_getElem _ _ h1]

theorem vectorAt_cases {α : Type} (v : List α) (index : Int) :
    (∃ a, vectorAt v index = Except.ok a) ∨
      vectorAt v index = Except.error Fault.undefinedBehaviour := by
  unfold vectorAt
  split_ifs
  · cases v[index.toNat]? with
    | none => exact Or.inr rfl
    | some a => exact Or.inl ⟨a, rfl⟩
  · exact Or.inr rfl

theorem vectorAt_outside {α : Type} (v : List α) (index : Int)
    (h : index < 0 ∨ (v.length : Int) ≤ index) :
    vectorAt v index = Except.error Fault.undefinedBehaviour := by
  unfold vectorAt
  split_ifs with h0
  · have : v.length ≤ index.toNat := by omega
    rw [List.getElem?_eq_none this]
  · rfl

/-- A loop whose steps can only fail in one way, and one of whose steps always fails, fails. -/
theorem foldlM_error {σ ι : Type} (f : σ → ι → Except Fault σ) (e : Fault) (l : List ι)
    (hall : ∀ s, ∀ i ∈ l, (∃ s2, f s i = Except.ok s2) ∨ f s i = Except.error e)
    (hex : ∃ i ∈ l, ∀ s, f s i = Except.error e) :
    ∀ s, l.foldlM f s = Except.error e := by
  induction l with
  | nil => obtain ⟨i, hi, _⟩ := hex; simp at hi
  | cons a l ih =>
    intro s
    rw [List.foldlM_cons]
    rcases hall s a (List.mem_cons_self _ _) with ⟨s2, h1⟩ | h1
    · rw [h1]
      obtain ⟨i, hi, hf⟩ := hex
      rcases List.mem_cons.mp hi with rfl | hi2
      · rw [hf s] at h1
        exact Except.noConfusion h1
      · exact ih (fun s i hi => hall s i (List.mem_cons_of_mem _ hi)) ⟨i, hi2, hf⟩ s2
    · rw [h1]
      rfl

/-- The evaluation loop of `GetPointOnCurve` when every index it reads is inside its vector. -/
theorem pointLoop_eq_sum {T : Type} [AddCommMonoid T] [Module ℚ T] (N : List ℚ)
    (controlPoints : List T) (spanIndex degree : Int) (hd : 0 ≤ degree)
    (hN : N.length = (degree + 1).toNat) (hlo : degree ≤ spanIndex)
    (hhi : spanIndex < controlPoints.length) :
    (List.range (degree + 1).toNat).foldlM (pointStep N controlPoints spanIndex degree) 0 =
      Except.ok (((List.range (degree + 1).toNat).map fun i : Nat =>
        N.getD i 0 • controlPoints.getD (spanIndex - degree + i).toNat 0).sum) := by
  rw [foldlM_except_ok (pointStep N controlPoints spanIndex degree)
    (fun p i => p + N.getD i 0 • controlPoints.getD (spanIndex - degree + i).toNat 0),
    foldl_add_eq_sum, zero_add]
  intro i hi s
  rw [List.mem_range] at hi
  unfold pointStep
  rw [vectorAt_of_lt N 0 i (by omega) (by omega),
    vectorAt_of_lt controlPoints 0 (spanIndex - degree + i) (by omega) (by omega)]
  simp [bind, Except.bind, pure, Except.pure]

theorem basisFunctions_length (spanIndex degree : Int) (knotVector : List ℚ) (paramT : ℚ) :
    (BasisFunctions spanIndex degree knotVector paramT).length = (degree + 1).toNat := by
  simp [BasisFunctions]

theorem pointStep_cases {T : Type} [AddCommMonoid T] [Module ℚ T] (N : List ℚ)
    (controlPoints : List T) (spanIndex degree : Int) (point : T) (i : Nat) :
    (∃ q, pointStep N controlPoints spanIndex degree point i = Except.ok q) ∨
      pointStep N controlPoints spanIndex degree point i =
        Except.error Fault.undefinedBehaviour := by
  unfold pointStep
  simp only [bind, Except.bind, pure, Except.pure]
  rcases vectorAt_cases N (i : Int) with ⟨n, h1⟩ | h1
  · rw [h1]
    simp only []
    rcases vectorAt_cases controlPoints (spanIndex - degree + (i : Int)) with ⟨cp, h2⟩ | h2
    · rw [h2]; exact Or.inl ⟨_, rfl⟩
    · rw [h2]; exact Or.inr rfl
  · rw [h1]; exact Or.inr rfl

/-- A step of the evaluation loop that reads a control point outside `controlPoints`. -/
theorem pointStep_outside {T : Type} [AddCommMonoid T] [Module ℚ T] (N : List ℚ)
    (controlPoints : List T) (spanIndex degree : Int) (point : T) (i : Nat)
    (h : spanIndex - degree + (i : Int) < 0 ∨
      (controlPoints.length : Int) ≤ spanIndex - degree + (i : Int)) :
    pointStep N controlPoints spanIndex degree point i =
      Except.error Fault.undefinedBehaviour := by
  unfold pointStep
  simp only [bind, Except.bind, pure, Except.pure]
  rcases vectorAt_cases N (i : Int) with ⟨n, h1⟩ | h1
  · rw [h1]
    simp only []
    rw [vectorAt_outside controlPoints _ h]
  · rw [h1]

/-- With fewer than `degree + 1` control points `GetPointOnCurve` reads outside
`controlPoints` (or outside `N`), whatever the basis function evaluator returns. -/
theorem getPointOnCurve_few_points {T : Type} [AddCommMonoid T] [Module ℚ T]
    (P : BasisEvaluator) (degree : Int) (K : List ℚ) (t : ℚ) (controlPoints : List T)
    (hv : validate degree K t controlPoints = Except.ok ())
    (hn : (controlPoints.length : Int) < degree + 1) :
    GetPointOnCurve P degree K t controlPoints = Except.error Fault.undefinedBehaviour := by
  have hdeg : degree > 0 := by
    rw [validate_eq] at hv
    by_contra hneg
    rw [if_neg (fun h => hneg h.1)] at hv
    exact Except.noConfusion hv
  unfold GetPointOnCurve
  rw [hv]
  simp only [bind, Except.bind]
  apply foldlM_error _ Fault.undefinedBehaviour (List.range (degree + 1).toNat)
    (fun s i _ => pointStep_cases _ controlPoints _ degree s i)
  by_cases h0 : P.GetKnotSpanIndex degree K t - degree < 0
  · refine ⟨0, by rw [List.mem_range]; omega, fun s => ?_⟩
    exact pointStep_outside _ controlPoints _ degree s 0 (Or.inl (by simpa using h0))
  · refine ⟨degree.toNat, by rw [List.mem_range]; omega, fun s => ?_⟩
    exact pointStep_outside _ controlPoints _ degree s degree.toNat
      (Or.inr (by rw [Int.toNat_of_nonneg (le_of_lt hdeg)]; omega))

theorem scenario_span : GetKnotSpanIndex 2 [0, 0, 0, 1, 1, 1] (1/2) = 2 := by
  simp [GetKnotSpanIndex, knotAt, List.range, List.range.loop]

theorem scenario_basis : BasisFunctions 2 2 [0, 0, 0, 1, 1, 1] (1/2) = [1/4, 1/2, 1/4] := by
  simp [BasisFunctions, basisN, knotAt, List.range, List.range.loop]
  norm_num

theorem scenario_point :
    GetPointOnCurve Polynomials.evaluator 2 [0, 0, 0, 1, 1, 1] (1/2)
      ([(0, 0), (1, 2), (2, 0)] : List (ℚ × ℚ)) = Except.ok (1, 1) := by
  simp only [GetPointOnCurve, Polynomials.evaluator, scenario_span, scenario_basis]
  simp [validate, VALIDATE_ARGUMENT, VALIDATE_ARGUMENT_RANGE, ValidationUtils.IsValidKnotVector,
    ValidationUtils.IsValidBspline, List.range, List.range.loop, pointStep, vectorAt, bind,
    Except.bind, pure, Except.pure]
  norm_num

/-- C4 (as stated, refuted): inputs that meet every listed condition and for which no weighted
sum is returned, whatever the basis function evaluator returns.  With no control point (degree 1,
knots `[0, 1]`, `t = 0`) the call fails with an invalid argument; with one control point and
degree 2 (knots `[0, 0, 1, 1]`, `t = 0`) the loop reads three consecutive entries of the
one-element control point vector. -/
theorem C4_point_counterexample :
    ((1 : Int) > 0 ∧ ([0, 1] : List ℚ) ≠ [] ∧ List.Sorted (· ≤ ·) ([0, 1] : List ℚ) ∧
      ([0, 1] : List ℚ).getD 0 0 ≤ 0 ∧ (0 : ℚ) ≤ ([0, 1] : List ℚ).getD 1 0 ∧
      (([0, 1] : List ℚ).length : Int) = (([] : List (ℚ × ℚ)).length : Int) + 1 + 1 ∧
      ∀ P : BasisEvaluator, GetPointOnCurve P 1 [0, 1] 0 ([] : List (ℚ × ℚ)) =
        Except.error Fault.invalidArgument) ∧
    ((2 : Int) > 0 ∧ ([0, 0, 1, 1] : List ℚ) ≠ [] ∧
      List.Sorted (· ≤ ·) ([0, 0, 1, 1] : List ℚ) ∧
      ([0, 0, 1, 1] : List ℚ).getD 0 0 ≤ 0 ∧ (0 : ℚ) ≤ ([0, 0, 1, 1] : List ℚ).getD 3 0 ∧
      (([0, 0, 1, 1] : List ℚ).length : Int) = (([(0, 0)] : List (ℚ × ℚ)).length : Int) + 2 + 1 ∧
      ∀ P : BasisEvaluator, GetPointOnCurve P 2 [0, 0, 1, 1] 0 ([(0, 0)] : List (ℚ × ℚ)) =
        Except.error Fault.undefinedBehaviour) := by
  refine ⟨⟨by norm_num, by simp, by norm_num, by norm_num, by norm_num, by norm_num, ?_⟩,
    ⟨by norm_num, by simp, by norm_num, by norm_num, by norm_num, by norm_num, ?_⟩⟩
  · intro P
    have hv : validate 1 [0, 1] 0 ([] : List (ℚ × ℚ)) = Except.error Fault.invalidArgument := by
      rw [validate_eq, if_neg]
      norm_num
    unfold GetPointOnCurve
    rw [hv]
    rfl
  · intro P
    have hv : validate 2 [0, 0, 1, 1] 0 ([(0, 0)] : List (ℚ × ℚ)) = Except.ok () := by
      rw [validate_eq, if_pos]
      norm_num
    exact getPointOnCurve_few_points P 2 [0, 0, 1, 1] 0 [(0, 0)] hv (by norm_num)

/-- C4 (amended): for every input with degree > 0, a non-empty non-decreasing knot vector `K`,
`t` within `[K.front, K.back]`, at least one control point and
`K.size = controlPoints.size + degree + 1`, for which `BasisFunctions` returns `degree + 1` values
`N` and the span index `span` returned by `GetKnotSpanIndex` satisfies
`degree <= span < controlPoints.size`, `GetPointOnCurve` returns the sum over `i = 0..degree` of
`N[i] * controlPoints[span - degree + i]`, starting from the zero point; for degree 2,
`K = [0,0,0,1,1,1]`, control points `[(0,0),(1,2),(2,0)]` and `t = 1/2` it returns `(1,1)`. -/
theorem C4_point_is_weighted_sum :
    (∀ (T : Type) [AddCommMonoid T] [Module ℚ T] (P : BasisEvaluator) (degree : Int)
        (K : List ℚ) (t : ℚ) (controlPoints : List T),
      degree > 0 → K ≠ [] → K.Sorted (· ≤ ·) →
      K.getD 0 0 ≤ t → t ≤ K.getD (K.length - 1) 0 →
      controlPoints ≠ [] →
      (K.length : Int) = (controlPoints.length : Int) + degree + 1 →
      (P.BasisFunctions (P.GetKnotSpanIndex degree K t) degree K t).length = (degree + 1).toNat →
      degree ≤ P.GetKnotSpanIndex degree K t →
      P.GetKnotSpanIndex degree K t < controlPoints.length →
      GetPointOnCurve P degree K t controlPoints =
        Except.ok (((List.range (degree + 1).toNat).map fun i : Nat =>
          (P.BasisFunctions (P.GetKnotSpanIndex degree K t) degree K t).getD i 0 •
            controlPoints.getD (P.GetKnotSpanIndex degree K t - degree + i).toNat 0).sum)) ∧
    GetPointOnCurve Polynomials.evaluator 2 [0, 0, 0, 1, 1, 1] (1/2)
      ([(0, 0), (1, 2), (2, 0)] : List (ℚ × ℚ)) = Except.ok (1, 1) := by
  refine ⟨?_, scenario_point⟩
  intro T _ _ P degree K t controlPoints hd hK hs hlo hhi hcp hlen hN hspan0 hspan1
  have hv : validate degree K t controlPoints = Except.ok () := by
    rw [validate_eq, if_pos]
    exact ⟨hd, List.length_pos.mpr hK, hs, ⟨hlo, hhi⟩, List.length_pos.mpr hcp, hlen⟩
  unfold GetPointOnCurve
  rw [hv]
  exact pointLoop_eq_sum _ controlPoints _ degree (le_of_lt hd) hN hspan0 hspan1

/-- C4 (amended), instance: the scenario of the claim. -/
theorem C4_point_is_weighted_sum_witness :
    GetPointOnCurve Polynomials.evaluator 2 [0, 0, 0, 1, 1, 1] (1/2)
      ([(0, 0), (1, 2), (2, 0)] : List (ℚ × ℚ)) =
      Except.ok (((List.range ((2 : Int) + 1).toNat).map fun i : Nat =>
        (Polynomials.evaluator.BasisFunctions
            (Polynomials.evaluator.GetKnotSpanIndex 2 [0, 0, 0, 1, 1, 1] (1/2)) 2
            [0, 0, 0, 1, 1, 1] (1/2)).getD i 0 •
          ([(0, 0), (1, 2), (2, 0)] : List (ℚ × ℚ)).getD
            (Polynomials.evaluator.GetKnotSpanIndex 2 [0, 0, 0, 1, 1, 1] (1/2) - 2 + i).toNat
            0).sum) :=
  C4_point_is_weighted_sum.1 (ℚ × ℚ) Polynomials.evaluator 2 [0, 0, 0, 1, 1, 1] (1/2)
    [(0, 0), (1, 2), (2, 0)] (by norm_num) (by simp) (by norm_num) (by norm_num) (by norm_num)
    (by simp) (by norm_num)
    (basisFunctions_length _ _ _ _)
    (by show (2 : Int) ≤ GetKnotSpanIndex 2 [0, 0, 0, 1, 1, 1] (1/2); rw [scenario_span])
    (by show GetKnotSpanIndex 2 [0, 0, 0, 1, 1, 1] (1/2) < (3 : Nat); rw [scenario_span]; norm_num)

theorem getD_set_self {α : Type} (ds : List α) (k : Nat) (x d : α) (hk : k < ds.length) :
    (ds.set k x).getD k d = x := by
  rw [List.getD_eq_getElem _ _ (by simpa using hk)]
  simp

theorem set_getD_self {α : Type} (ds : List α) (k : Nat) (d : α) (hk : k < ds.length) :
    ds.set k (ds.getD k d) = ds := by
  rw [List.getD_eq_getElem _ _ hk]
  apply List.ext_getElem
  · simp
  · intro i h1 h2
    rw [List.getElem_set]
    split_ifs with h
    · subst h; rfl
    · rfl

theorem getD_map_range {α : Type} (f : Nat → α) (n k : Nat) (d : α) (hk : k < n) :
    ((List.range n).map f).getD k d = f k := by
  rw [List.getD_eq_getElem _ _ (by simpa using hk)]
  simp

theorem foldlM_accumulate {T : Type} [AddCommMonoid T] (f : List T → Nat → Except Fault (List T))
    (w : Nat → T) (k : Nat) (l : List Nat)
    (h : ∀ j ∈ l, ∀ ds : List T, k < ds.length →
      f ds j = Except.ok (ds.set k (ds.getD k 0 + w j))) :
    ∀ ds : List T, k < ds.length →
      l.foldlM f ds = Except.ok (ds.set k (ds.getD k 0 + (l.map w).sum)) := by
  induction l with
  | nil =>
    intro ds hk
    rw [List.map_nil, List.sum_nil, add_zero, set_getD_self ds k 0 hk]
    rfl
  | cons j l ih =>
    intro ds hk
    rw [List.foldlM_cons, h j (List.mem_cons_self _ _) ds hk]
    have hk2 : k < (ds.set k (ds.getD k 0 + w j)).length := by simpa using hk
    have := ih (fun i hi => h i (List.mem_cons_of_mem _ hi)) _ hk2
    simp only [bind, Except.bind]
    rw [this, getD_set_self ds k _ 0 hk, List.set_set, List.map_cons, List.sum_cons, add_assoc]

theorem foldlM_rows {T : Type} [AddCommMonoid T] (g : List T → Nat → Except Fault (List T))
    (S : Nat → T) (n : Nat) (c : Nat) (hc : c ≤ n)
    (h : ∀ k, k < c → ∀ ds : List T, k < ds.length →
      g ds k = Except.ok (ds.set k (ds.getD k 0 + S k))) :
    (List.range c).foldlM g (List.replicate n 0) =
      Except.ok ((List.range n).map fun k => if k < c then S k else 0) := by
  induction c with
  | zero =>
    simp only [List.range_zero, List.foldlM_nil, Nat.not_lt_zero, if_false]
    congr 1
    apply List.ext_getElem <;> simp
  | succ c ih =>
    have ih2 := ih (by omega) (fun k hk => h k (by omega))
    rw [List.range_succ, List.foldlM_append, ih2]
    simp only [bind, Except.bind, List.foldlM_cons, List.foldlM_nil]
    rw [h c (by omega) _ (by simp; omega), getD_map_range _ n c 0 (by omega)]
    simp only [pure, Except.pure, lt_irrefl, if_false, zero_add]
    congr 1
    apply List.ext_getElem
    · simp
    · intro i h1 h2
      rw [List.getElem_set]
      by_cases hci : c = i
      · subst hci
        simp
      · have : (i < c + 1) ↔ (i < c) := by omega
        simp [hci, this]

theorem vectorAt_nat {α : Type} (v : List α) (d : α) (i : Nat) (h : i < v.length) :
    vectorAt v (i : Int) = Except.ok (v.getD i d) :=
  vectorAt_of_lt v d (i : Int) (Int.natCast_nonneg i) (by simpa using h)

theorem derivativeStep_ok {T : Type} [AddCommMonoid T] [Module ℚ T] (nders : List (List ℚ))
    (controlPoints : List T) (spanIndex degree : Int) (k : Nat) (derivatives : List T) (j : Nat)
    (hk : k < nders.length) (hj : j < (nders.getD k []).length)
    (h0 : 0 ≤ spanIndex - degree + (j : Int))
    (h1 : (spanIndex - degree + (j : Int)).toNat < controlPoints.length)
    (hds : k < derivatives.length) :
    derivativeStep nders controlPoints spanIndex degree k derivatives j =
      Except.ok (derivatives.set k (derivatives.getD k 0 +
        (nders.getD k []).getD j 0 •
          controlPoints.getD (spanIndex - degree + (j : Int)).toNat 0)) := by
  unfold derivativeStep
  rw [vectorAt_nat nders [] k hk]
  simp only [bind, Except.bind]
  rw [vectorAt_nat _ 0 j hj]
  simp only []
  rw [vectorAt_of_lt controlPoints 0 _ h0 h1]
  simp only []
  rw [vectorAt_nat derivatives 0 k hds]
  rfl

/-- What `ComputeDerivatives` returns when the table of basis derivatives has the rows and
columns that are read and the span index addresses `degree + 1` control points: entry `k` is the
sum over `j` of `nders[k][j] * controlPoints[span - degree + j]` for `k <= min(derivative,
degree)`, and the zero point above. -/
theorem computeDerivatives_eq {T : Type} [AddCommMonoid T] [Module ℚ T] (P : BasisEvaluator)
    (degree derivative : Int) (K : List ℚ) (t : ℚ) (controlPoints : List T)
    (hv : validate degree K t controlPoints = Except.ok ()) (hd : 0 ≤ derivative)
    (hrows : (min derivative degree + 1).toNat ≤
      (P.BasisFunctionsDerivatives (P.GetKnotSpanIndex degree K t) degree
        (min derivative degree) K t).length)
    (hcols : ∀ k : Nat, k < (min derivative degree + 1).toNat →
      (degree + 1).toNat ≤
        ((P.BasisFunctionsDerivatives (P.GetKnotSpanIndex degree K t) degree
          (min derivative degree) K t).getD k []).length)
    (hlo : degree ≤ P.GetKnotSpanIndex degree K t)
    (hhi : P.GetKnotSpanIndex degree K t < controlPoints.length) :
    ComputeDerivatives P degree derivative K t controlPoints =
      Except.ok ((List.range (derivative + 1).toNat).map fun k : Nat =>
        if k < (min derivative degree + 1).toNat then
          ((List.range (degree + 1).toNat).map fun j : Nat =>
            ((P.BasisFunctionsDerivatives (P.GetKnotSpanIndex degree K t) degree
                (min derivative degree) K t).getD k []).getD j 0 •
              controlPoints.getD (P.GetKnotSpanIndex degree K t - degree + (j : Int)).toNat
                0).sum
        else 0) := by
  have hdeg : degree > 0 := by
    rw [validate_eq] at hv
    by_contra hneg
    rw [if_neg (fun h => hneg h.1)] at hv
    exact Except.noConfusion hv
  unfold ComputeDerivatives
  rw [hv]
  simp only [bind, Except.bind]
  rw [if_neg (by omega)]
  simp only [pure, Except.pure]
  apply foldlM_rows _ _ _ _ (by omega)
  intro k hk ds hds
  apply foldlM_accumulate _ _ k _ _ ds hds
  intro j hj ds2 hds2
  rw [List.mem_range] at hj
  exact derivativeStep_ok _ controlPoints _ degree k ds2 j (by omega)
    (lt_of_lt_of_le hj (hcols k hk)) (by omega) (by omega) hds2

theorem basisFunctionsDerivatives_length (s d n : Int) (K : List ℚ) (t : ℚ) :
    (BasisFunctionsDerivatives s d n K t).length = (n + 1).toNat := by
  simp [BasisFunctionsDerivatives]

theorem basisFunctionsDerivatives_row (s d n : Int) (K : List ℚ) (t : ℚ) (k : Nat)
    (hk : k < (n + 1).toNat) :
    (BasisFunctionsDerivatives s d n K t).getD k [] =
      (List.range (d + 1).toNat).map fun j : Nat =>
        basisD s K t k d.toNat (s - d + (j : Int)) := by
  unfold BasisFunctionsDerivatives
  rw [getD_map_range _ _ k [] hk]

/-- The span index of the modelled evaluator addresses `degree + 1` control points. -/
theorem getKnotSpanIndex_range (degree : Int) (K : List ℚ) (t : ℚ) (count : Nat)
    (hlen : (K.length : Int) = (count : Int) + degree + 1) (hn : degree + 1 ≤ count) :
    degree ≤ GetKnotSpanIndex degree K t ∧ GetKnotSpanIndex degree K t < count := by
  unfold GetKnotSpanIndex
  simp only []
  split_ifs with h1
  · omega
  · cases hf : (List.range ((K.length : Int) - degree - 2 - degree + 1).toNat).reverse.find?
        (fun j : Nat => decide (knotAt K (degree + (j : Int)) ≤ t)) with
    | none => simp only []; omega
    | some j =>
      simp only []
      have hmem := List.mem_of_find?_eq_some hf
      rw [List.mem_reverse, List.mem_range] at hmem
      omega

theorem derivativeStep_cases {T : Type} [AddCommMonoid T] [Module ℚ T] (nders : List (List ℚ))
    (controlPoints : List T) (spanIndex degree : Int) (k : Nat) (derivatives : List T)
    (j : Nat) :
    (∃ ds, derivativeStep nders controlPoints spanIndex degree k derivatives j = Except.ok ds) ∨
      derivativeStep nders controlPoints spanIndex degree k derivatives j =
        Except.error Fault.undefinedBehaviour := by
  unfold derivativeStep
  simp only [bind, Except.bind, pure, Except.pure]
  rcases vectorAt_cases nders (k : Int) with ⟨row, h1⟩ | h1
  · rw [h1]
    simp only []
    rcases vectorAt_cases row (j : Int) with ⟨nd, h2⟩ | h2
    · rw [h2]
      simp only []
      rcases vectorAt_cases controlPoints (spanIndex - degree + (j : Int)) with ⟨cp, h3⟩ | h3
      · rw [h3]
        simp only []
        rcases vectorAt_cases derivatives (k : Int) with ⟨dk, h4⟩ | h4
        · rw [h4]; exact Or.inl ⟨_, rfl⟩
        · rw [h4]; exact Or.inr rfl
      · rw [h3]; exact Or.inr rfl
    · rw [h2]; exact Or.inr rfl
  · rw [h1]; exact Or.inr rfl

theorem derivativeStep_outside {T : Type} [AddCommMonoid T] [Module ℚ T]
    (nders : List (List ℚ)) (controlPoints : List T) (spanIndex degree : Int) (k : Nat)
    (derivatives : List T) (j : Nat)
    (h : spanIndex - degree + (j : Int) < 0 ∨
      (controlPoints.length : Int) ≤ spanIndex - degree + (j : Int)) :
    derivativeStep nders controlPoints spanIndex degree k derivatives j =
      Except.error Fault.undefinedBehaviour := by
  unfold derivativeStep
  simp only [bind, Except.bind, pure, Except.pure]
  rcases vectorAt_cases nders (k : Int) with ⟨row, h1⟩ | h1
  · rw [h1]
    simp only []
    rcases vectorAt_cases row (j : Int) with ⟨nd, h2⟩ | h2
    · rw [h2]
      simp only []
      rw [vectorAt_outside controlPoints _ h]
    · rw [h2]
  · rw [h1]

/-- With fewer than `degree + 1` control points `ComputeDerivatives` reads outside
`controlPoints`, whatever the span index is. -/
theorem computeDerivatives_few_points {T : Type} [AddCommMonoid T] [Module ℚ T]
    (P : BasisEvaluator) (degree derivative : Int) (K : List ℚ) (t : ℚ)
    (controlPoints : List T)
    (hv : validate degree K t controlPoints = Except.ok ()) (hd : 0 ≤ derivative)
    (hn : (controlPoints.length : Int) < degree + 1) :
    ComputeDerivatives P degree derivative K t controlPoints =
      Except.error Fault.undefinedBehaviour := by
  have hdeg : degree > 0 := by
    rw [validate_eq] at hv
    by_contra hneg
    rw [if_neg (fun h => hneg h.1)] at hv
    exact Except.noConfusion hv
  unfold ComputeDerivatives
  rw [hv]
  simp only [bind, Except.bind]
  rw [if_neg (by omega)]
  simp only [pure, Except.pure]
  obtain ⟨c, hc⟩ : ∃ c : Nat, (min derivative degree + 1).toNat = c + 1 :=
    ⟨(min derivative degree).toNat, by omega⟩
  rw [hc, List.range_succ_eq_map, List.foldlM_cons]
  rw [foldlM_error _ Fault.undefinedBehaviour (List.range (degree + 1).toNat)
    (fun s i _ => derivativeStep_cases _ controlPoints _ degree 0 s i)]
  · rfl
  · by_cases h0 : P.GetKnotSpanIndex degree K t - degree < 0
    · refine ⟨0, by rw [List.mem_range]; omega, fun s => ?_⟩
      exact derivativeStep_outside _ controlPoints _ degree 0 s 0 (Or.inl (by simpa using h0))
    · refine ⟨degree.toNat, by rw [List.mem_range]; omega, fun s => ?_⟩
      exact derivativeStep_outside _ controlPoints _ degree 0 s degree.toNat
        (Or.inr (by rw [Int.toNat_of_nonneg (le_of_lt hdeg)]; omega))

/-- A loop that writes `F i` into entry `i` of a vector, for `i = 0, ..., m - 1`. -/
theorem foldlM_fill {α : Type} (step : List α → Nat → Except Fault (List α)) (F : Nat → α)
    (d : α) (n : Nat)
    (hstep : ∀ (s : List α) (i : Nat), i < n → s.length = n →
      step s i = Except.ok (s.set i (F i))) :
    ∀ (m : Nat), m ≤ n → ∀ s : List α, s.length = n →
      (List.range m).foldlM step s =
        Except.ok ((List.range n).map fun i => if i < m then F i else s.getD i d) := by
  intro m
  induction m with
  | zero =>
    intro _ s hs
    simp only [List.range_zero, List.foldlM_nil, Nat.not_lt_zero, if_false]
    congr 1
    apply List.ext_getElem
    · simp [hs]
    · intro i h1 h2
      simp [List.getElem?_eq_getElem h1]
  | succ m ih =>
    intro hm s hs
    rw [List.range_succ, List.foldlM_append, ih (by omega) s hs]
    simp only [bind, Except.bind, List.foldlM_cons, List.foldlM_nil]
    rw [hstep _ m (by omega) (by simp)]
    simp only [pure, Except.pure]
    congr 1
    apply List.ext_getElem
    · simp
    · intro i h1 h2
      simp only [List.length_set, List.length_map, List.length_range] at h1
      simp only [List.getElem_set, List.getElem_map, List.getElem_range]
      by_cases hi : m = i
      · subst hi; simp
      · have : (i < m + 1) = (i < m) := by
          apply propext; constructor <;> intro h <;> omega
        simp [hi, this]

theorem rescaleStep_ok (K : List ℚ) (k a mn : ℚ) (s : List ℚ) (i : Nat) (hi : i < K.length)
    (hs : s.length = K.length) :
    rescaleStep K k a mn s i = Except.ok (s.set i ((k * K.getD i 0 - a) + mn)) := by
  unfold rescaleStep
  rw [vectorAt_nat K 0 i hi, vectorAt_nat s 0 i (by omega)]
  rfl

/-- The result of `Rescale` on a non-empty knot vector. -/
theorem rescale_eq (K : List ℚ) (mn mx : ℚ) (hK : K ≠ []) :
    Rescale K mn mx = Except.ok (K.map fun v =>
      ((mx - mn) / (K.getD (K.length - 1) 0 - K.getD 0 0) * v - K.getD 0 0) + mn) := by
  have hlen : 0 < K.length := List.length_pos.mpr hK
  unfold Rescale
  rw [vectorAt_of_lt K 0 0 (le_refl _) (by simpa using hlen),
    vectorAt_of_lt K 0 ((K.length : Int) - 1) (by omega) (by omega)]
  simp only [bind, Except.bind]
  rw [foldlM_fill _ (fun i => ((mx - mn) / (K.getD (K.length - 1) 0 - K.getD 0 0) * K.getD i 0
      - K.getD 0 0) + mn) 0 K.length
    (fun s i hi hs => ?_) K.length (le_refl _) _ (by simp)]
  · congr 1
    apply List.ext_getElem
    · simp
    · intro i h1 h2
      simp only [List.length_map, List.length_range] at h1
      simp [h1, List.getD_eq_getElem _ _ h1]
  · have := rescaleStep_ok K ((mx - mn) / (K.getD (K.length - 1) 0 - K.getD 0 0)) (K.getD 0 0) mn
      s i hi hs
    simpa using this

/-- On the empty knot vector `Rescale` reads `knotVector[0]` past the end. -/
theorem rescale_nil (mn mx : ℚ) : Rescale [] mn mx = Except.error Fault.undefinedBehaviour := rfl

theorem ne_nil_of_ends_ne (K : List ℚ) (h : K.getD 0 0 ≠ K.getD (K.length - 1) 0) : K ≠ [] := by
  rintro rfl
  exact h rfl

theorem getD_map_of_lt (g : ℚ → ℚ) (K : List ℚ) (i : Nat) (hi : i < K.length) :
    (K.map g).getD i 0 = g (K.getD i 0) := by
  rw [List.getD_eq_getElem _ _ (by simpa using hi), List.getElem_map,
    List.getD_eq_getElem _ _ hi]

/-- C18: for a knot vector `K` whose first knot `origMin` differs from its last knot `origMax`,
and every `min` and `max`, `Rescale` returns a vector as long as `K` whose entry `i` is
`k * K[i] - origMin + min` with `k = (max - min) / (origMax - origMin)`. -/
theorem C18_rescale_formula (K : List ℚ) (min max : ℚ)
    (hne : K.getD 0 0 ≠ K.getD (K.length - 1) 0) :
    ∃ result : List ℚ, Rescale K min max = Except.ok result ∧ result.length = K.length ∧
      ∀ i : Nat, i < K.length →
        result.getD i 0 =
          (max - min) / (K.getD (K.length - 1) 0 - K.getD 0 0) * K.getD i 0 - K.getD 0 0 + min := by
  refine ⟨_, rescale_eq K min max (ne_nil_of_ends_ne K hne), by simp, ?_⟩
  intro i hi
  rw [getD_map_of_lt _ K i hi]

/-- C18, instance: `K = [0, 1, 3]` rescaled to `[1, 7]`. -/
theorem C18_rescale_formula_witness :
    ∃ result : List ℚ, Rescale [0, 1, 3] 1 7 = Except.ok result ∧ result.length = 3 ∧
      ∀ i : Nat, i < 3 →
        result.getD i 0 = (7 - 1) / ((3 : ℚ) - 0) * ([0, 1, 3] : List ℚ).getD i 0 - 0 + 1 :=
  C18_rescale_formula [0, 1, 3] 1 7 (by norm_num)

theorem rescale_example : Rescale [1, 2] 0 2 = Except.ok [1, 3] := by
  rw [rescale_eq _ _ _ (by simp)]
  norm_num

/-- C15 (not met by the code): `Rescale [1, 2] 0 2` is `[1, 3]`, so the first knot is not sent
to `min = 0` and the last knot is not sent to `max = 2`.  For every knot vector whose first knot
differs from its last, the result of `Rescale` starts at `min` and ends at `max` exactly when the
first knot is `0` or the new domain is as long as the old one. -/
theorem C15_rescale_ends :
    Rescale [1, 2] 0 2 = Except.ok [1, 3] ∧
    ∀ (K : List ℚ) (min max : ℚ), K.getD 0 0 ≠ K.getD (K.length - 1) 0 →
      ∃ result : List ℚ, Rescale K min max = Except.ok result ∧
        ((result.getD 0 0 = min ∧ result.getD (result.length - 1) 0 = max) ↔
          (K.getD 0 0 = 0 ∨ max - min = K.getD (K.length - 1) 0 - K.getD 0 0)) := by
  refine ⟨rescale_example, ?_⟩
  intro K min max hne
  have hK := ne_nil_of_ends_ne K hne
  have hlen : 0 < K.length := List.length_pos.mpr hK
  refine ⟨_, rescale_eq K min max hK, ?_⟩
  rw [List.length_map, getD_map_of_lt _ K 0 hlen, getD_map_of_lt _ K (K.length - 1) (by omega)]
  generalize K.getD 0 0 = a at *
  generalize K.getD (K.length - 1) 0 = b at *
  have hba : b - a ≠ 0 := sub_ne_zero.mpr (Ne.symm hne)
  constructor
  · rintro ⟨h1, -⟩
    have h2 : ((max - min) / (b - a) - 1) * a = 0 := by linarith
    rcases mul_eq_zero.mp h2 with h3 | h3
    · right
      have : (max - min) / (b - a) = 1 := by linarith
      rw [div_eq_one_iff_eq hba] at this
      exact this
    · exact Or.inl h3
  · rintro (h | h)
    · subst h
      constructor
      · ring
      · field_simp
    · rw [h, div_self hba]
      constructor
      · ring
      · linarith

/-- C15, instance: `K = [0, 1, 3]` rescaled to `[1, 7]`; the first knot is `0`. -/
theorem C15_rescale_ends_witness :
    ∃ result : List ℚ, Rescale [0, 1, 3] 1 7 = Except.ok result ∧
      ((result.getD 0 0 = 1 ∧ result.getD (result.length - 1) 0 = 7) ↔
        (([0, 1, 3] : List ℚ).getD 0 0 = 0 ∨
          (7 : ℚ) - 1 = ([0, 1, 3] : List ℚ).getD (([0, 1, 3] : List ℚ).length - 1) 0
            - ([0, 1, 3] : List ℚ).getD 0 0)) :=
  C15_rescale_ends.2 [0, 1, 3] 1 7 (by norm_num)

theorem map_add_eq_self_iff (K : List ℚ) (hK : K ≠ []) (c : ℚ) :
    K.map (fun v => v + c) = K ↔ c = 0 := by
  constructor
  · intro h
    cases K with
    | nil => exact absurd rfl hK
    | cons x K =>
      simp only [List.map_cons, List.cons.injEq] at h
      linarith [h.1]
  · rintro rfl
    simp

/-- Rescaling and rescaling back shifts every knot by the same amount. -/
theorem rescale_round_trip (K : List ℚ) (min max : ℚ)
    (hne : K.getD 0 0 ≠ K.getD (K.length - 1) 0) (hmm : min ≠ max) :
    (Rescale K min max).bind
        (fun r => Rescale r (K.getD 0 0) (K.getD (K.length - 1) 0)) =
      Except.ok (K.map fun v => v +
        ((min - K.getD 0 0) * (K.getD (K.length - 1) 0 - K.getD 0 0) / (max - min)
          - ((max - min) / (K.getD (K.length - 1) 0 - K.getD 0 0) * K.getD 0 0
              - K.getD 0 0 + min)
          + K.getD 0 0)) := by
  have hK := ne_nil_of_ends_ne K hne
  have hlen : 0 < K.length := List.length_pos.mpr hK
  rw [rescale_eq K min max hK]
  simp only [Except.bind]
  rw [rescale_eq _ _ _ (by simpa using hK)]
  rw [List.length_map, getD_map_of_lt _ K 0 hlen, getD_map_of_lt _ K (K.length - 1) (by omega),
    List.map_map]
  congr 1
  apply List.map_congr_left
  intro v _
  generalize K.getD 0 0 = a at *
  generalize K.getD (K.length - 1) 0 = b at *
  have hba : b - a ≠ 0 := sub_ne_zero.mpr (Ne.symm hne)
  have hm : max - min ≠ 0 := sub_ne_zero.mpr (Ne.symm hmm)
  simp only [Function.comp]
  have h1 : ((max - min) / (b - a) * b - a + min) - ((max - min) / (b - a) * a - a + min) =
      max - min := by
    field_simp
    ring
  rw [h1]
  field_simp
  ring

theorem round_trip_example :
    (Rescale [1, 2] 0 2).bind (fun r => Rescale r 1 2) = Except.ok [1/2, 3/2] := by
  rw [rescale_example]
  simp only [Except.bind]
  rw [rescale_eq _ _ _ (by simp)]
  norm_num

/-- C16 (not met by the code): rescaling `[1, 2]` to `[0, 2]` and back to `[1, 2]` gives
`[1/2, 3/2]`, not `[1, 2]`.  For every knot vector whose first knot `origMin` differs from its
last knot `origMax`, and `min` different from `max`, the round trip returns the original vector
exactly when the two domains have the same length or the first knot of the rescaled vector,
`k * origMin - origMin + min`, is `0`. -/
theorem C16_rescale_round_trip :
    (Rescale [1, 2] 0 2).bind (fun r => Rescale r 1 2) = Except.ok [1/2, 3/2] ∧
    ∀ (K : List ℚ) (min max : ℚ), K.getD 0 0 ≠ K.getD (K.length - 1) 0 → min ≠ max →
      ∃ back : List ℚ,
        (Rescale K min max).bind
          (fun r => Rescale r (K.getD 0 0) (K.getD (K.length - 1) 0)) = Except.ok back ∧
        (back = K ↔
          (max - min = K.getD (K.length - 1) 0 - K.getD 0 0 ∨
            (max - min) / (K.getD (K.length - 1) 0 - K.getD 0 0) * K.getD 0 0
              - K.getD 0 0 + min = 0)) := by
  refine ⟨round_trip_example, ?_⟩
  intro K min max hne hmm
  refine ⟨_, rescale_round_trip K min max hne hmm, ?_⟩
  rw [map_add_eq_self_iff K (ne_nil_of_ends_ne K hne)]
  generalize K.getD 0 0 = a at *
  generalize K.getD (K.length - 1) 0 = b at *
  have hba : b - a ≠ 0 := sub_ne_zero.mpr (Ne.symm hne)
  have hm : max - min ≠ 0 := sub_ne_zero.mpr (Ne.symm hmm)
  have key : (min - a) * (b - a) / (max - min) - ((max - min) / (b - a) * a - a + min) + a =
      ((b - a) - (max - min)) * ((max - min) / (b - a) * a - a + min) / (max - min) := by
    field_simp
    ring
  rw [key, div_eq_zero_iff, mul_eq_zero]
  constructor
  · rintro ((h | h) | h)
    · left; linarith
    · right; exact h
    · exact absurd h hm
  · rintro (h | h)
    · left; left; linarith
    · left; right; exact h

/-- C16, instance: `K = [0, 1, 3]` rescaled to `[0, 6]` and back. -/
theorem C16_rescale_round_trip_witness :
    ∃ back : List ℚ,
      (Rescale [0, 1, 3] 0 6).bind
        (fun r => Rescale r (([0, 1, 3] : List ℚ).getD 0 0)
          (([0, 1, 3] : List ℚ).getD (([0, 1, 3] : List ℚ).length - 1) 0)) = Except.ok back ∧
      (back = [0, 1, 3] ↔
        ((6 : ℚ) - 0 = ([0, 1, 3] : List ℚ).getD (([0, 1, 3] : List ℚ).length - 1) 0
            - ([0, 1, 3] : List ℚ).getD 0 0 ∨
          ((6 : ℚ) - 0) / (([0, 1, 3] : List ℚ).getD (([0, 1, 3] : List ℚ).length - 1) 0
              - ([0, 1, 3] : List ℚ).getD 0 0) * ([0, 1, 3] : List ℚ).getD 0 0
            - ([0, 1, 3] : List ℚ).getD 0 0 + 0 = 0)) :=
  C16_rescale_round_trip.2 [0, 1, 3] 0 6 (by norm_num) (by norm_num)

/-- Multiplicities in the image of a knot vector under `v ↦ k * v + c` with `k > 0`: the
tolerance is scaled by `k`. -/
theorem multiplicity_map_affine (eps k c : ℚ) (hk : 0 < k) (K : List ℚ) (x : ℚ) :
    GetKnotMultiplicity (k * eps) (K.map fun v => k * v + c) (k * x + c) =
      GetKnotMultiplicity eps K x := by
  unfold GetKnotMultiplicity
  rw [List.countP_map]
  congr 1
  apply List.countP_congr
  intro y _
  simp only [Function.comp, almostEqual_iff]
  have : k * x + c - (k * y + c) = k * (x - y) := by ring
  rw [this, abs_mul, abs_of_pos hk]
  exact ⟨fun h => lt_of_mul_lt_mul_left h hk.le, fun h => mul_lt_mul_of_pos_left h hk⟩

/-- C17 (as stated, refuted): with tolerance `1/10000`, rescaling `[0, 1/2, 1]` to the domain
`[0, 1/10000]` gives `[0, 1/20000, 1/10000]`, in which the first knot has multiplicity `2` under
the tolerance, while the first knot of `[0, 1/2, 1]` has multiplicity `1`. -/
theorem C17_rescale_counterexample :
    Rescale [0, 1/2, 1] 0 (1/10000) = Except.ok [0, 1/20000, 1/10000] ∧
    GetKnotMultiplicity (1/10000) [0, 1/20000, 1/10000] 0 = 2 ∧
    GetKnotMultiplicity (1/10000) [0, 1/2, 1] 0 = 1 := by
  refine ⟨?_, ?_, ?_⟩
  · rw [rescale_eq _ _ _ (by simp)]
    norm_num
  · norm_num [GetKnotMultiplicity, List.countP_cons, IsAlmostEqualTo, abs_lt]
  · norm_num [GetKnotMultiplicity, List.countP_cons, IsAlmostEqualTo, abs_lt]

/-- C17 (amended): for a knot vector `K` with first knot below its last knot and `min < max`,
`Rescale` returns a vector as long as `K` in which, for every index `i`, entry `i` occurs as often
as `K[i]` occurs in `K`, and has, under the tolerance scaled by
`k = (max - min) / (origMax - origMin)`, the multiplicity that `K[i]` has in `K` under the
tolerance itself. -/
theorem C17_rescale_multiplicity (eps : ℚ) (K : List ℚ) (min max : ℚ)
    (hlt : K.getD 0 0 < K.getD (K.length - 1) 0) (hmm : min < max) :
    ∃ result : List ℚ, Rescale K min max = Except.ok result ∧ result.length = K.length ∧
      ∀ i : Nat, i < K.length →
        result.count (result.getD i 0) = K.count (K.getD i 0) ∧
        GetKnotMultiplicity ((max - min) / (K.getD (K.length - 1) 0 - K.getD 0 0) * eps) result
            (result.getD i 0) =
          GetKnotMultiplicity eps K (K.getD i 0) := by
  have hK := ne_nil_of_ends_ne K (ne_of_lt hlt)
  have hk : 0 < (max - min) / (K.getD (K.length - 1) 0 - K.getD 0 0) :=
    div_pos (sub_pos.mpr hmm) (sub_pos.mpr hlt)
  refine ⟨_, rescale_eq K min max hK, by simp, ?_⟩
  intro i hi
  rw [getD_map_of_lt _ K i hi]
  generalize (max - min) / (K.getD (K.length - 1) 0 - K.getD 0 0) = k at *
  generalize K.getD 0 0 = a at *
  constructor
  · refine List.count_map_of_injective K (fun v : ℚ => k * v - a + min) ?_ (K.getD i 0)
    intro x y hxy
    simp only at hxy
    have : k * (x - y) = 0 := by linarith
    rcases mul_eq_zero.mp this with h | h
    · exact absurd h (ne_of_gt hk)
    · linarith
  · have e : (fun v : ℚ => k * v - a + min) = (fun v : ℚ => k * v + (min - a)) := by
      funext v; ring
    have e2 : k * K.getD i 0 - a + min = k * K.getD i 0 + (min - a) := by ring
    rw [e, e2]
    exact multiplicity_map_affine eps k (min - a) hk K (K.getD i 0)

/-- C17 (amended), instance: `K = [0, 0, 1, 2, 2]` rescaled to `[1, 5]`. -/
theorem C17_rescale_multiplicity_witness :
    ∃ result : List ℚ, Rescale [0, 0, 1, 2, 2] 1 5 = Except.ok result ∧ result.length = 5 ∧
      ∀ i : Nat, i < 5 →
        result.count (result.getD i 0) =
          ([0, 0, 1, 2, 2] : List ℚ).count (([0, 0, 1, 2, 2] : List ℚ).getD i 0) ∧
        GetKnotMultiplicity ((5 - 1) / ((2 : ℚ) - 0) * (1/10000)) result (result.getD i 0) =
          GetKnotMultiplicity (1/10000) [0, 0, 1, 2, 2] (([0, 0, 1, 2, 2] : List ℚ).getD i 0) :=
  C17_rescale_multiplicity (1/10000) [0, 0, 1, 2, 2] 1 5 (by norm_num) (by norm_num)

/-! ### The degree overload of `GetInsertedKnotElement` -/

/-- The result of the degree overload of `GetInsertedKnotElement`. -/
theorem getInsertedKnotElement_eq (eps : ℚ) (degree : Int) (K : List ℚ) (s e : ℚ) :
    GetInsertedKnotElement eps degree K s e =
      if degree ≥ 0 ∧ K.length > 0 ∧ K.Sorted (· ≤ ·) then
        Except.ok (List.replicate (max 0 (degree - GetKnotMultiplicity eps K s)).toNat s ++
          List.replicate (max 0 (degree - GetKnotMultiplicity eps K e)).toNat e)
      else Except.error Fault.invalidArgument := by
  have hrep : ∀ (v : List ℚ) (m : Int) (x : ℚ),
      (if m < degree then emplaceTimes v (degree - m) x else v) =
        v ++ List.replicate (max 0 (degree - m)).toNat x := by
    intro v m x
    unfold emplaceTimes
    split_ifs with h
    · rw [max_eq_right (by omega)]
    · rw [max_eq_left (by omega)]
      simp
  simp only [GetInsertedKnotElement, VALIDATE_ARGUMENT, ValidationUtils.IsValidKnotVector, bind,
    Except.bind, decide_eq_true_eq, hrep, pure, Except.pure, List.nil_append]
  split_ifs <;> first | rfl | (exfalso; tauto)

/-- C20: for `degree >= 0` and a non-empty non-decreasing `K`, the degree overload of
`GetInsertedKnotElement` returns `max(0, degree - mult(K, startParam))` copies of `startParam`
followed by `max(0, degree - mult(K, endParam))` copies of `endParam`; it fails with an
invalid-argument condition when `degree < 0`, `K` is empty or `K` is not non-decreasing. -/
theorem C20_inserted_knot_element (eps : ℚ) (degree : Int) (K : List ℚ) (s e : ℚ) :
    (0 ≤ degree → K ≠ [] → K.Sorted (· ≤ ·) →
      GetInsertedKnotElement eps degree K s e =
        Except.ok (List.replicate (max 0 (degree - GetKnotMultiplicity eps K s)).toNat s ++
          List.replicate (max 0 (degree - GetKnotMultiplicity eps K e)).toNat e)) ∧
    ((degree < 0 ∨ K = [] ∨ ¬ K.Sorted (· ≤ ·)) →
      GetInsertedKnotElement eps degree K s e = Except.error Fault.invalidArgument) := by
  rw [getInsertedKnotElement_eq]
  constructor
  · intro h1 h2 h3
    rw [if_pos ⟨h1, List.length_pos.mpr h2, h3⟩]
  · intro h
    rw [if_neg]
    rintro ⟨h1, h2, h3⟩
    rcases h with h | h | h
    · omega
    · exact absurd h (List.length_pos.mp h2)
    · exact h h3

/-- C20, instances: degree `3`, `K = [0, 0, 1, 2, 2]`, parameters `1` and `2`; and a knot vector
that is not non-decreasing. -/
theorem C20_inserted_knot_element_witness :
    GetInsertedKnotElement (1/10000) 3 [0, 0, 1, 2, 2] 1 2 = Except.ok [1, 1, 2] ∧
    GetInsertedKnotElement (1/10000) 3 [0, 2, 1] 1 2 = Except.error Fault.invalidArgument := by
  have h := C20_inserted_knot_element (1/10000) 3 [0, 0, 1, 2, 2] 1 2
  have h2 := C20_inserted_knot_element (1/10000) 3 [0, 2, 1] 1 2
  constructor
  · rw [h.1 (by norm_num) (by simp) (by simp)]
    norm_num [GetKnotMultiplicity, List.countP_cons, IsAlmostEqualTo, abs_lt]
    decide
  · exact h2.2 (Or.inr (Or.inr (by simp)))

/-- C19 (as stated, refuted): for degree `2`, `K = [0, 1]` and `startParam = endParam = 1/2` the
returned knots are four copies of `1/2`; merged into `K` they give `1/2` the multiplicity `4`,
not `2`. -/
theorem C19_full_degree_counterexample :
    GetInsertedKnotElement (1/10000) 2 [0, 1] (1/2) (1/2) = Except.ok [1/2, 1/2, 1/2, 1/2] ∧
    GetKnotMultiplicity (1/10000) [0, 1] (1/2) = 0 ∧
    GetKnotMultiplicity (1/10000) (mergeKnots [0, 1] [1/2, 1/2, 1/2, 1/2]) (1/2) = 4 := by
  refine ⟨?_, ?_, ?_⟩
  · rw [getInsertedKnotElement_eq, if_pos (by simp)]
    norm_num [GetKnotMultiplicity, List.countP_cons, IsAlmostEqualTo, abs_lt, List.replicate]
  · norm_num [GetKnotMultiplicity, List.countP_cons, IsAlmostEqualTo, abs_lt]
  · rw [mergeKnots, multiplicity_stdSort]
    norm_num [GetKnotMultiplicity, List.countP_cons, IsAlmostEqualTo, abs_lt]

theorem multiplicity_replicate (eps : ℚ) (n : Nat) (x k : ℚ) :
    GetKnotMultiplicity eps (List.replicate n x) k =
      if IsAlmostEqualTo eps k x = true then (n : Int) else 0 := by
  unfold GetKnotMultiplicity
  rw [List.countP_replicate]
  split_ifs <;> simp

/-- C19 (amended): for `degree >= 0`, a non-empty non-decreasing `K` and parameters `startParam`,
`endParam` that are not equal under the tolerance, merging the knots returned by the degree
overload of `GetInsertedKnotElement` into `K` gives each parameter the multiplicity `degree` if its
multiplicity in `K` was below `degree`, and its multiplicity in `K` otherwise. -/
theorem C19_full_degree (eps : ℚ) (degree : Int) (K : List ℚ) (s e : ℚ) (heps : 0 < eps)
    (hd : 0 ≤ degree) (hK : K ≠ []) (hs : K.Sorted (· ≤ ·))
    (hse : IsAlmostEqualTo eps s e = false) :
    ∃ ins : List ℚ, GetInsertedKnotElement eps degree K s e = Except.ok ins ∧
      GetKnotMultiplicity eps (mergeKnots K ins) s =
        (if GetKnotMultiplicity eps K s < degree then degree else GetKnotMultiplicity eps K s) ∧
      GetKnotMultiplicity eps (mergeKnots K ins) e =
        (if GetKnotMultiplicity eps K e < degree then degree else GetKnotMultiplicity eps K e) := by
  refine ⟨_, (by rw [getInsertedKnotElement_eq, if_pos ⟨hd, List.length_pos.mpr hK, hs⟩]), ?_, ?_⟩
  · rw [mergeKnots, multiplicity_stdSort, multiplicity_append, multiplicity_append,
      multiplicity_replicate, multiplicity_replicate, almostEqual_self heps, hse]
    simp only [if_true, Bool.false_eq_true, if_false, add_zero]
    rw [Int.toNat_of_nonneg (le_max_left _ _)]
    split_ifs with h
    · rw [max_eq_right (by omega)]; ring
    · rw [max_eq_left (by omega)]; ring
  · rw [almostEqual_comm] at hse
    rw [mergeKnots, multiplicity_stdSort, multiplicity_append, multiplicity_append,
      multiplicity_replicate, multiplicity_replicate, almostEqual_self heps, hse]
    simp only [if_true, Bool.false_eq_true, if_false, zero_add]
    rw [Int.toNat_of_nonneg (le_max_left _ _)]
    split_ifs with h
    · rw [max_eq_right (by omega)]; ring
    · rw [max_eq_left (by omega)]; ring

/-- C19 (amended), instance: degree `3`, `K = [0, 0, 1, 2, 2]`, parameters `1` and `2`. -/
theorem C19_full_degree_witness :
    ∃ ins : List ℚ, GetInsertedKnotElement (1/10000) 3 [0, 0, 1, 2, 2] 1 2 = Except.ok ins ∧
      GetKnotMultiplicity (1/10000) (mergeKnots [0, 0, 1, 2, 2] ins) 1 =
        (if GetKnotMultiplicity (1/10000) [0, 0, 1, 2, 2] 1 < 3 then 3
          else GetKnotMultiplicity (1/10000) [0, 0, 1, 2, 2] 1) ∧
      GetKnotMultiplicity (1/10000) (mergeKnots [0, 0, 1, 2, 2] ins) 2 =
        (if GetKnotMultiplicity (1/10000) [0, 0, 1, 2, 2] 2 < 3 then 3
          else GetKnotMultiplicity (1/10000) [0, 0, 1, 2, 2] 2) :=
  C19_full_degree (1/10000) 3 [0, 0, 1, 2, 2] 1 2 (by norm_num) (by norm_num) (by simp)
    (by simp) (by norm_num [IsAlmostEqualTo, abs_lt])

/-! ### `GetContinuity` -/

/-- The result of `KnotVectorUtils::GetContinuity`. -/
theorem getContinuity_eq (eps : ℚ) (degree : Int) (K : List ℚ) (knot : ℚ) :
    KnotVectorUtils.GetContinuity eps degree K knot =
      if degree > 0 then Except.ok (degree - GetKnotMultiplicity eps K knot)
      else Except.error Fault.invalidArgument := by
  simp only [KnotVectorUtils.GetContinuity, VALIDATE_ARGUMENT, bind, Except.bind,
    decide_eq_true_eq, pure, Except.pure]
  split_ifs <;> rfl

theorem continuity_example {eps : ℚ} (h0 : 0 < eps) (h1 : eps ≤ 1) :
    GetKnotMultiplicity eps [0, 0, 0, 0, 1, 1, 4, 4, 5, 5, 5, 5] 1 = 2 := by
  have e0 : ∀ a b : ℤ, IsAlmostEqualTo eps (a : ℚ) (b : ℚ) = decide (a = b) :=
    almostEqual_intCast h0 h1
  have h10 := e0 1 0
  have h11 := e0 1 1
  have h14 := e0 1 4
  have h15 := e0 1 5
  norm_num at h10 h11 h14 h15
  simp [GetKnotMultiplicity, List.countP_cons, h10, h11, h14, h15]

/-- C21: `GetContinuity` fails with an invalid-argument condition when `degree <= 0`, and for
`degree > 0` returns `degree` minus the multiplicity of `knot` in `K`, the number of entries of `K`
equal to `knot` under the tolerance; `BsplineCurve::GetContinuity` returns the same; and for every
tolerance in `(0, 1]`, `GetContinuity(3, [0,0,0,0,1,1,4,4,5,5,5,5], 1) = 1`. -/
theorem C21_continuity (eps : ℚ) (heps : 0 < eps) :
    (∀ (degree : Int) (K : List ℚ) (knot : ℚ), degree ≤ 0 →
      KnotVectorUtils.GetContinuity eps degree K knot = Except.error Fault.invalidArgument) ∧
    (∀ (degree : Int) (K : List ℚ) (knot : ℚ), 0 < degree →
      KnotVectorUtils.GetContinuity eps degree K knot =
        Except.ok (degree - GetKnotMultiplicity eps K knot)) ∧
    (∀ (degree : Int) (K : List ℚ) (knot : ℚ),
      BsplineCurve.GetContinuity eps degree K knot =
        KnotVectorUtils.GetContinuity eps degree K knot) ∧
    (eps ≤ 1 →
      KnotVectorUtils.GetContinuity eps 3 [0, 0, 0, 0, 1, 1, 4, 4, 5, 5, 5, 5] 1 =
        Except.ok 1) := by
  refine ⟨?_, ?_, fun _ _ _ => rfl, ?_⟩
  · intro degree K knot h
    rw [getContinuity_eq, if_neg (by omega)]
  · intro degree K knot h
    rw [getContinuity_eq, if_pos (by omega)]
  · intro h1
    rw [getContinuity_eq, if_pos (by norm_num), continuity_example heps h1]
    norm_num

/-- C21, instances: the scenario of the claim with tolerance `1/10000`, and degree `0`. -/
theorem C21_continuity_witness :
    (0 : ℚ) < 1/10000 ∧
    KnotVectorUtils.GetContinuity (1/10000) 3 [0, 0, 0, 0, 1, 1, 4, 4, 5, 5, 5, 5] 1 =
      Except.ok 1 ∧
    KnotVectorUtils.GetContinuity (1/10000) 0 [0, 0, 1, 1] 0 =
      Except.error Fault.invalidArgument :=
  ⟨by norm_num, (C21_continuity (1/10000) (by norm_num)).2.2.2 (by norm_num),
    (C21_continuity (1/10000) (by norm_num)).1 0 [0, 0, 1, 1] 0 (by norm_num)⟩

/-! ### Argument checks and entries of the derivative sequence -/

/-- A loop whose steps can only fail in one way returns a result or fails in that way. -/
theorem foldlM_cases {σ ι : Type} (f : σ → ι → Except Fault σ) (e : Fault) (l : List ι)
    (hall : ∀ s, ∀ i ∈ l, (∃ s2, f s i = Except.ok s2) ∨ f s i = Except.error e) :
    ∀ s, (∃ s2, l.foldlM f s = Except.ok s2) ∨ l.foldlM f s = Except.error e := by
  induction l with
  | nil => intro s; exact Or.inl ⟨s, rfl⟩
  | cons a l ih =>
    intro s
    rw [List.foldlM_cons]
    rcases hall s a (List.mem_cons_self _ _) with ⟨s2, h⟩ | h
    · rw [h]
      exact ih (fun s i hi => hall s i (List.mem_cons_of_mem _ hi)) s2
    · rw [h]
      exact Or.inr rfl

/-- C22: when `degree <= 0`, or the knot vector is empty or not non-decreasing, or `t` is outside
`[knotVector.front, knotVector.back]`, or there is no control point, or
`knotVector.size != controlPoints.size + degree + 1`, `GetPointOnCurve` fails with an
invalid-argument condition whatever the basis function evaluator is (no span index or basis
value enters the result); when none of these holds it does not fail with an invalid-argument
condition. -/
theorem C22_point_invalid_argument (T : Type) [AddCommMonoid T] [Module ℚ T] (degree : Int)
    (K : List ℚ) (t : ℚ) (controlPoints : List T) :
    ((degree ≤ 0 ∨ K = [] ∨ ¬ K.Sorted (· ≤ ·) ∨ t < K.getD 0 0 ∨
        K.getD (K.length - 1) 0 < t ∨ controlPoints = [] ∨
        (K.length : Int) ≠ (controlPoints.length : Int) + degree + 1) →
      ∀ P : BasisEvaluator,
        GetPointOnCurve P degree K t controlPoints = Except.error Fault.invalidArgument) ∧
    (¬ (degree ≤ 0 ∨ K = [] ∨ ¬ K.Sorted (· ≤ ·) ∨ t < K.getD 0 0 ∨
        K.getD (K.length - 1) 0 < t ∨ controlPoints = [] ∨
        (K.length : Int) ≠ (controlPoints.length : Int) + degree + 1) →
      ∀ P : BasisEvaluator,
        GetPointOnCurve P degree K t controlPoints ≠ Except.error Fault.invalidArgument) := by
  constructor
  · intro h P
    have hv : validate degree K t controlPoints = Except.error Fault.invalidArgument := by
      rw [validate_eq, if_neg]
      rintro ⟨h1, h2, h3, ⟨h4, h5⟩, h6, h7⟩
      rcases h with h | h | h | h | h | h | h
      · omega
      · rw [h] at h2; exact absurd h2 (by simp)
      · exact h h3
      · exact absurd h4 (not_le.mpr h)
      · exact absurd h5 (not_le.mpr h)
      · rw [h] at h6; exact absurd h6 (by simp)
      · exact h h7
    unfold GetPointOnCurve
    rw [hv]
    rfl
  · intro h P
    have hv : validate degree K t controlPoints = Except.ok () := by
      rw [validate_eq, if_pos]
      refine ⟨?_, ?_, ?_, ⟨?_, ?_⟩, ?_, ?_⟩
      · by_contra h1; exact h (Or.inl (by omega))
      · by_contra h1
        exact h (Or.inr (Or.inl (List.length_eq_zero.mp (by omega))))
      · by_contra h1; exact h (Or.inr (Or.inr (Or.inl h1)))
      · by_contra h1; exact h (Or.inr (Or.inr (Or.inr (Or.inl (not_le.mp h1)))))
      · by_contra h1; exact h (Or.inr (Or.inr (Or.inr (Or.inr (Or.inl (not_le.mp h1))))))
      · by_contra h1
        exact h (Or.inr (Or.inr (Or.inr (Or.inr (Or.inr (Or.inl
          (List.length_eq_zero.mp (by omega))))))))
      · by_contra h1
        exact h (Or.inr (Or.inr (Or.inr (Or.inr (Or.inr (Or.inr h1))))))
    unfold GetPointOnCurve
    rw [hv]
    simp only [bind, Except.bind]
    rcases foldlM_cases
        (pointStep (P.BasisFunctions (P.GetKnotSpanIndex degree K t) degree K t) controlPoints
          (P.GetKnotSpanIndex degree K t) degree)
        Fault.undefinedBehaviour (List.range (degree + 1).toNat)
        (fun s i _ => pointStep_cases _ controlPoints _ degree s i) (0 : T) with ⟨q, hq⟩ | hq
    · rw [hq]; exact fun hne => Except.noConfusion hne
    · rw [hq]; intro hne; cases hne

/-- C22, instances: knots `[0, 0, 1, 1]`, `t = 1/2`, two control points, with degree `0` and with
degree `1`. -/
theorem C22_point_invalid_argument_witness :
    (∀ P : BasisEvaluator,
      GetPointOnCurve P 0 [0, 0, 1, 1] (1/2) ([(0, 0), (1, 1)] : List (ℚ × ℚ)) =
        Except.error Fault.invalidArgument) ∧
    (∀ P : BasisEvaluator,
      GetPointOnCurve P 1 [0, 0, 1, 1] (1/2) ([(0, 0), (1, 1)] : List (ℚ × ℚ)) ≠
        Except.error Fault.invalidArgument) :=
  ⟨(C22_point_invalid_argument (ℚ × ℚ) 0 [0, 0, 1, 1] (1/2) [(0, 0), (1, 1)]).1
      (Or.inl (le_refl _)),
    (C22_point_invalid_argument (ℚ × ℚ) 1 [0, 0, 1, 1] (1/2) [(0, 0), (1, 1)]).2
      (by norm_num; simp)⟩

/-- C23 (as stated, refuted): degree 2, knots `[0, 0, 1, 1]`, `t = 0` and one control point pass
every argument check, yet `ComputeDerivatives` with `derivative = 1` returns no sequence, whatever
the basis function evaluator returns: the loop reads three consecutive entries of the one-element
control point vector. -/
theorem C23_derivatives_counterexample :
    (2 : Int) > 0 ∧ ([0, 0, 1, 1] : List ℚ) ≠ [] ∧
    List.Sorted (· ≤ ·) ([0, 0, 1, 1] : List ℚ) ∧
    ([0, 0, 1, 1] : List ℚ).getD 0 0 ≤ 0 ∧ (0 : ℚ) ≤ ([0, 0, 1, 1] : List ℚ).getD 3 0 ∧
    ([(0, 0)] : List (ℚ × ℚ)) ≠ [] ∧
    (([0, 0, 1, 1] : List ℚ).length : Int) = (([(0, 0)] : List (ℚ × ℚ)).length : Int) + 2 + 1 ∧
    ∀ P : BasisEvaluator,
      ComputeDerivatives P 2 1 [0, 0, 1, 1] 0 ([(0, 0)] : List (ℚ × ℚ)) =
        Except.error Fault.undefinedBehaviour := by
  refine ⟨by norm_num, by simp, by norm_num, by norm_num, by norm_num, by simp, by norm_num, ?_⟩
  intro P
  have hv : validate 2 [0, 0, 1, 1] 0 ([(0, 0)] : List (ℚ × ℚ)) = Except.ok () := by
    rw [validate_eq, if_pos]
    norm_num
  exact computeDerivatives_few_points P 2 1 [0, 0, 1, 1] 0 [(0, 0)] hv (by norm_num)
    (by norm_num)

/-- The entries of the sequence returned by `ComputeDerivatives`, under the conditions of
`computeDerivatives_eq`. -/
theorem computeDerivatives_entries {T : Type} [AddCommMonoid T] [Module ℚ T]
    (P : BasisEvaluator) (degree derivative : Int) (K : List ℚ) (t : ℚ) (controlPoints : List T)
    (hv : validate degree K t controlPoints = Except.ok ()) (hd : 0 ≤ derivative)
    (hrows : (min derivative degree + 1).toNat ≤
      (P.BasisFunctionsDerivatives (P.GetKnotSpanIndex degree K t) degree
        (min derivative degree) K t).length)
    (hcols : ∀ k : Nat, k < (min derivative degree + 1).toNat →
      (degree + 1).toNat ≤
        ((P.BasisFunctionsDerivatives (P.GetKnotSpanIndex degree K t) degree
          (min derivative degree) K t).getD k []).length)
    (hlo : degree ≤ P.GetKnotSpanIndex degree K t)
    (hhi : P.GetKnotSpanIndex degree K t < controlPoints.length) :
    ∃ ds : List T, ComputeDerivatives P degree derivative K t controlPoints = Except.ok ds ∧
      ds.length = (derivative + 1).toNat ∧
      (∀ k : Nat, (k : Int) ≤ min derivative degree →
        ds.getD k 0 = ((List.range (degree + 1).toNat).map fun j : Nat =>
          ((P.BasisFunctionsDerivatives (P.GetKnotSpanIndex degree K t) degree
              (min derivative degree) K t).getD k []).getD j 0 •
            controlPoints.getD (P.GetKnotSpanIndex degree K t - degree + (j : Int)).toNat
              0).sum) ∧
      (∀ k : Nat, degree < (k : Int) → ds.getD k 0 = 0) := by
  refine ⟨_, computeDerivatives_eq P degree derivative K t controlPoints hv hd hrows hcols hlo
    hhi, by simp, ?_, ?_⟩
  · intro k hk
    rw [getD_map_range _ _ k 0 (by omega), if_pos (by omega)]
  · intro k hk
    by_cases hlt : k < (derivative + 1).toNat
    · rw [getD_map_range _ _ k 0 hlt, if_neg (by omega)]
    · rw [List.getD_eq_default _ _ (by simpa using hlt)]

/-- C23 (amended): for every input that passes the argument checks and every `derivative >= 0`,
if `BasisFunctionsDerivatives` returns at least `min(derivative, degree) + 1` rows of at least
`degree + 1` values and the span index satisfies `degree <= span < controlPoints.size`, then
`ComputeDerivatives` returns a sequence of length `derivative + 1` in which entry `k`, for
`k <= min(derivative, degree)`, is the sum over `j = 0..degree` of
`nders[k][j] * controlPoints[span - degree + j]`, and every entry with index greater than `degree`
is the zero point.  For the evaluator modelled from the spec the conditions hold whenever there
are at least `degree + 1` control points. -/
theorem C23_derivatives_entries :
    (∀ (T : Type) [AddCommMonoid T] [Module ℚ T] (P : BasisEvaluator) (degree derivative : Int)
        (K : List ℚ) (t : ℚ) (controlPoints : List T),
      degree > 0 → K ≠ [] → K.Sorted (· ≤ ·) →
      K.getD 0 0 ≤ t → t ≤ K.getD (K.length - 1) 0 →
      controlPoints ≠ [] →
      (K.length : Int) = (controlPoints.length : Int) + degree + 1 →
      0 ≤ derivative →
      (min derivative degree + 1).toNat ≤
        (P.BasisFunctionsDerivatives (P.GetKnotSpanIndex degree K t) degree
          (min derivative degree) K t).length →
      (∀ k : Nat, k < (min derivative degree + 1).toNat →
        (degree + 1).toNat ≤
          ((P.BasisFunctionsDerivatives (P.GetKnotSpanIndex degree K t) degree
            (min derivative degree) K t).getD k []).length) →
      degree ≤ P.GetKnotSpanIndex degree K t →
      P.GetKnotSpanIndex degree K t < controlPoints.length →
      ∃ ds : List T, ComputeDerivatives P degree derivative K t controlPoints = Except.ok ds ∧
        ds.length = (derivative + 1).toNat ∧
        (∀ k : Nat, (k : Int) ≤ min derivative degree →
          ds.getD k 0 = ((List.range (degree + 1).toNat).map fun j : Nat =>
            ((P.BasisFunctionsDerivatives (P.GetKnotSpanIndex degree K t) degree
                (min derivative degree) K t).getD k []).getD j 0 •
              controlPoints.getD (P.GetKnotSpanIndex degree K t - degree + (j : Int)).toNat
                0).sum) ∧
        (∀ k : Nat, degree < (k : Int) → ds.getD k 0 = 0)) ∧
    (∀ (T : Type) [AddCommMonoid T] [Module ℚ T] (degree derivative : Int)
        (K : List ℚ) (t : ℚ) (controlPoints : List T),
      validate degree K t controlPoints = Except.ok () → 0 ≤ derivative →
      degree + 1 ≤ controlPoints.length →
      ∃ ds : List T,
        ComputeDerivatives Polynomials.evaluator degree derivative K t controlPoints =
          Except.ok ds ∧
        ds.length = (derivative + 1).toNat ∧
        (∀ k : Nat, (k : Int) ≤ min derivative degree →
          ds.getD k 0 = ((List.range (degree + 1).toNat).map fun j : Nat =>
            ((BasisFunctionsDerivatives (GetKnotSpanIndex degree K t) degree
                (min derivative degree) K t).getD k []).getD j 0 •
              controlPoints.getD (GetKnotSpanIndex degree K t - degree + (j : Int)).toNat
                0).sum) ∧
        (∀ k : Nat, degree < (k : Int) → ds.getD k 0 = 0)) := by
  constructor
  · intro T _ _ P degree derivative K t controlPoints hdeg hK hs hlo hhi hcp hlen hd hrows hcols
      hspan0 hspan1
    have hv : validate degree K t controlPoints = Except.ok () := by
      rw [validate_eq, if_pos]
      exact ⟨hdeg, List.length_pos.mpr hK, hs, ⟨hlo, hhi⟩, List.length_pos.mpr hcp, hlen⟩
    exact computeDerivatives_entries P degree derivative K t controlPoints hv hd hrows hcols
      hspan0 hspan1
  · intro T _ _ degree derivative K t controlPoints hv hd hn
    have hvalid := hv
    rw [validate_eq] at hvalid
    have hcond : degree > 0 ∧ K.length > 0 ∧ K.Sorted (· ≤ ·) ∧
        (K.getD 0 0 ≤ t ∧ t ≤ K.getD (K.length - 1) 0) ∧ controlPoints.length > 0 ∧
        (K.length : Int) = (controlPoints.length : Int) + degree + 1 := by
      by_contra hneg
      rw [if_neg hneg] at hvalid
      exact Except.noConfusion hvalid
    obtain ⟨hdeg, -, -, -, -, hlen⟩ := hcond
    obtain ⟨hlo, hhi⟩ := getKnotSpanIndex_range degree K t controlPoints.length hlen hn
    exact computeDerivatives_entries Polynomials.evaluator degree derivative K t controlPoints
      hv hd
      (by rw [show Polynomials.evaluator.BasisFunctionsDerivatives =
        BasisFunctionsDerivatives from rfl, basisFunctionsDerivatives_length])
      (by
        intro k hk
        rw [show Polynomials.evaluator.BasisFunctionsDerivatives = BasisFunctionsDerivatives
          from rfl, basisFunctionsDerivatives_row _ _ _ K t k hk]
        simp)
      hlo hhi

/-- C23 (amended), instance: derivatives up to order 3 of the quadratic Bezier curve with
control points `(0,0), (1,2), (2,0)` at `t = 1/2`. -/
theorem C23_derivatives_entries_witness :
    ∃ ds : List (ℚ × ℚ),
      ComputeDerivatives Polynomials.evaluator 2 3 [0, 0, 0, 1, 1, 1] (1/2)
        ([(0, 0), (1, 2), (2, 0)] : List (ℚ × ℚ)) = Except.ok ds ∧
      ds.length = ((3 : Int) + 1).toNat ∧
      (∀ k : Nat, (k : Int) ≤ min 3 2 →
        ds.getD k 0 = ((List.range ((2 : Int) + 1).toNat).map fun j : Nat =>
          ((BasisFunctionsDerivatives (GetKnotSpanIndex 2 [0, 0, 0, 1, 1, 1] (1/2)) 2
              (min 3 2) [0, 0, 0, 1, 1, 1] (1/2)).getD k []).getD j 0 •
            ([(0, 0), (1, 2), (2, 0)] : List (ℚ × ℚ)).getD
              (GetKnotSpanIndex 2 [0, 0, 0, 1, 1, 1] (1/2) - 2 + (j : Int)).toNat 0).sum) ∧
      (∀ k : Nat, (2 : Int) < (k : Int) → ds.getD k 0 = 0) :=
  C23_derivatives_entries.2 (ℚ × ℚ) 2 3 [0, 0, 0, 1, 1, 1] (1/2) [(0, 0), (1, 2), (2, 0)]
    (by rw [validate_eq, if_pos]; norm_num) (by norm_num) (by norm_num)

/-! ### `Rescale` keeps the knots in order -/

/-- C25: for a non-decreasing knot vector `K` with first knot below its last knot and
`min <= max`, `Rescale` returns a non-decreasing sequence. -/
theorem C25_rescale_sorted (K : List ℚ) (min max : ℚ) (hs : K.Sorted (· ≤ ·))
    (hlt : K.getD 0 0 < K.getD (K.length - 1) 0) (hmm : min ≤ max) :
    ∃ result : List ℚ, Rescale K min max = Except.ok result ∧ result.Sorted (· ≤ ·) := by
  have hK := ne_nil_of_ends_ne K (ne_of_lt hlt)
  have hk : 0 ≤ (max - min) / (K.getD (K.length - 1) 0 - K.getD 0 0) :=
    div_nonneg (sub_nonneg.mpr hmm) (sub_pos.mpr hlt).le
  refine ⟨_, rescale_eq K min max hK, ?_⟩
  unfold List.Sorted at hs ⊢
  rw [List.pairwise_map]
  refine hs.imp ?_
  intro a b hab
  have := mul_le_mul_of_nonneg_left hab hk
  linarith

/-- C25, instance: `K = [0, 0, 1, 2, 2]` rescaled to `[1, 5]`. -/
theorem C25_rescale_sorted_witness :
    ∃ result : List ℚ, Rescale [0, 0, 1, 2, 2] 1 5 = Except.ok result ∧
      result.Sorted (· ≤ ·) :=
  C25_rescale_sorted [0, 0, 1, 2, 2] 1 5 (by simp) (by norm_num) (by norm_num)

end LNLib

